import Mathlib

/-!
# Band extension of the ATRAC9 decoder (`src/C/src/band_extension.c`)

A shallow embedding of the band-extension stage and theorems about it.

Conventions of the embedding.

* A C array is a `List`; an access outside the array (a negative index, or one
  past the end) is undefined behaviour in C and makes the embedded function
  return `none`.  Every embedded function is total: `none` is never a lack of
  fuel, only an out-of-bounds access or the read of a cell never written.
* `int` values are `Int`.  The `int` arithmetic that feeds the casts to
  `unsigned short` is wrapped to 32 bits with `toInt32`; index arithmetic is
  done on the mathematical integers.
* `unsigned short` values are `Nat`, every cast to `unsigned short` is
  `toUInt16`, a reduction modulo `2 ^ 16`.
* `double` is a type parameter `F` with the operations the code uses, so that
  what is proved about the order and the places of the multiplications holds
  for any arithmetic; numerical statements are made at `F := ℚ`.
* The constant tables of `tables.h` and `pow` of `math.h` are not in the
  sources at hand; they are parameters (`Tables`, `pow`).
-/

namespace BandExtension

/-! ## Memory accesses and loops -/

/-- The read `xs[i]` of a C array: `none` outside the array. -/
def loadAt {α : Type} (xs : List α) (i : Int) : Option α :=
  if 0 ≤ i then xs[i.toNat]? else none

/-- The write `xs[i] = v` of a C array: `none` outside the array. -/
def storeAt {α : Type} (xs : List α) (i : Int) (v : α) : Option (List α) :=
  if 0 ≤ i ∧ i.toNat < xs.length then some (xs.set i.toNat v) else none

/-- The read of a cell of a local array whose cells start uninitialised
(`none`): it fails outside the array and on a cell not yet written. -/
def loadInit {α : Type} (xs : List (Option α)) (i : Int) : Option α :=
  (loadAt xs i).join

/-- Runs `n` iterations of a loop body, the counter starting at `i`. -/
def forLoopAux {σ : Type} (body : Int → σ → Option σ) : Nat → Int → σ → Option σ
  | 0, _, s => some s
  | n + 1, i, s => (body i s).bind (forLoopAux body n (i + 1))

/-- The loop `for (int i = lo; i < hi; i++) body`, threading the state the
body mutates; it runs `hi - lo` times, and not at all when `hi ≤ lo`. -/
def forLoop {σ : Type} (lo hi : Int) (body : Int → σ → Option σ) (s : σ) : Option σ :=
  forLoopAux body (hi - lo).toNat lo s

/-! ## Machine integers -/

/-- The value of an `int` expression, wrapped to 32 bits (two's complement). -/
def toInt32 (x : Int) : Int :=
  (x + 2147483648) % 4294967296 - 2147483648

/-- The cast `(unsigned short)x`. -/
def toUInt16 (x : Int) : Nat :=
  (x % 65536).toNat

/-! ## Data model -/

/-- The generator context `RngCxt`: a flag and four `unsigned short` registers. -/
structure RngCxt where
  Initialized : Bool
  StateA : Nat
  StateB : Nat
  StateC : Nat
  StateD : Nat
  deriving DecidableEq, Repr

/-- A row of `BexGroupInfo`. -/
structure BexGroup where
  BandCount : Int
  GroupBUnit : Int
  GroupCUnit : Int
  deriving DecidableEq, Repr

/-- The constant tables of `tables.h` that this file reads.  Their contents are
not part of the sources at hand, so they are a parameter of the embedding. -/
structure Tables (F : Type) where
  BexGroupInfo : List BexGroup
  QuantUnitToCoeffIndex : List Int
  QuantUnitToCoeffCount : List Int
  SpectrumScale : List F
  BexMode0Bands3 : List (List F)
  BexMode0Bands4 : List (List F)
  BexMode0Bands5 : List (List F)
  BexMode2Scale : List F
  BexMode3Rate : List F
  BexMode3Initial : List F
  BexMode4Multiplier : List F

/-- The fields of `Channel` that this file uses.  `QuantizationUnitCount` is
`channel->Block->QuantizationUnitCount`, read through the back pointer. -/
structure Channel (F : Type) where
  QuantizationUnitCount : Int
  ScaleFactors : List Int
  Spectra : List F
  BexValues : List Int
  BexMode : Int
  Rng : RngCxt

/-- The fields of `Block` that `ApplyBandExtension` uses; the channels are the
array `Channels`, of which the first `ChannelCount` are processed. -/
structure Block (F : Type) where
  BandExtensionEnabled : Bool
  HasExtensionData : Bool
  ChannelCount : Int
  Channels : List (Channel F)

/-! ## The generator -/

/-- The function `RngInit`. -/
def RngInit (rng : RngCxt) (seed : Nat) : RngCxt :=
  let startValue : Int := toInt32 ((0x4D93 : Int) * ((seed ^^^ (seed >>> 14) : Nat) : Int))
  let rng := { rng with StateA := toUInt16 (toInt32 (3 - startValue)) }
  let rng := { rng with StateB := toUInt16 (toInt32 (2 - startValue)) }
  let rng := { rng with StateC := toUInt16 (toInt32 (1 - startValue)) }
  let rng := { rng with StateD := toUInt16 (toInt32 (0 - startValue)) }
  { rng with Initialized := true }

/-- The function `RngNext`: the value returned and the context after the call. -/
def RngNext (rng : RngCxt) : Nat × RngCxt :=
  let t : Nat := toUInt16 ((rng.StateD ^^^ (rng.StateD <<< 5) : Nat) : Int)
  let rng := { rng with StateD := rng.StateC }
  let rng := { rng with StateC := rng.StateB }
  let rng := { rng with StateB := rng.StateA }
  let rng := { rng with
    StateA := toUInt16 ((t ^^^ rng.StateA ^^^ ((t ^^^ (rng.StateA >>> 5)) >>> 4) : Nat) : Int) }
  (rng.StateA, rng)

/-- The generator context after `n` successive calls of `RngNext`. -/
def rngAfter (rng : RngCxt) : Nat → RngCxt
  | 0 => rng
  | n + 1 => (RngNext (rngAfter rng n)).2

/-- The value that call number `j + 1` of `RngNext` returns, counting the calls
from the context `rng`. -/
def rngOutput (rng : RngCxt) (j : Nat) : Nat :=
  (RngNext (rngAfter rng j)).1

/-! ## The routines on the spectrum -/

section Routines

variable {F : Type}

/-- One mirroring loop of `FillHighFrequencies`:
`for (i = 0; i < hi - lo; i++) spectra[lo + i] = spectra[lo - i - 1]`. -/
def mirrorLoop (spectra : List F) (lo hi : Int) : Option (List F) :=
  forLoop 0 (hi - lo)
    (fun i s => (loadAt s (lo - i - 1)).bind (fun v => storeAt s (lo + i) v)) spectra

/-- The function `FillHighFrequencies`. -/
def FillHighFrequencies (spectra : List F) (groupABin groupBBin groupCBin totalBins : Int) :
    Option (List F) := do
  let spectra ← mirrorLoop spectra groupABin groupBBin
  let spectra ← mirrorLoop spectra groupBBin groupCBin
  mirrorLoop spectra groupCBin totalBins

/-- The function `ScaleBexQuantUnits`; `coeffIndex` is the table `QuantUnitToCoeffIndex`,
`scales` the local array of the caller. -/
def ScaleBexQuantUnits [Mul F] (coeffIndex : List Int) (spectra : List F)
    (scales : List (Option F)) (startUnit totalUnits : Int) : Option (List F) :=
  forLoop startUnit totalUnits
    (fun i s => do
      let lo ← loadAt coeffIndex i
      let hi ← loadAt coeffIndex (i + 1)
      forLoop lo hi
        (fun k s => do
          let x ← loadAt s k
          let m ← loadInit scales (i - startUnit)
          storeAt s k (x * m)) s) spectra

/-- The noise sample `r / 65535.0 * 2.0 - 1.0` made from a generator output. -/
def noiseSample [NatCast F] [Div F] [Mul F] [Sub F] [OfScientific F] (r : Nat) : F :=
  (r : F) / 65535.0 * 2.0 - 1.0

/-- The seed `(unsigned short)(543 * (sf[8] + sf[12] + sf[15] + 1))` that
`AddNoiseToSpectrum` computes from the scale factors. -/
def noiseSeed (sf : List Int) : Option Nat := do
  let sf8 ← loadAt sf 8
  let sf12 ← loadAt sf 12
  let sf15 ← loadAt sf 15
  pure (toUInt16 (toInt32 (543 * toInt32 (toInt32 (toInt32 (sf8 + sf12) + sf15) + 1))))

/-- The loop of `AddNoiseToSpectrum`:
`for (i = 0; i < count; i++) Spectra[i + index] = RngNext(&Rng) / 65535.0 * 2.0 - 1.0`. -/
def noiseLoop [NatCast F] [Div F] [Mul F] [Sub F] [OfScientific F]
    (channel : Channel F) (index count : Int) : Option (Channel F) :=
  forLoop 0 count
    (fun i ch =>
      let next := RngNext ch.Rng
      (storeAt ch.Spectra (i + index) (noiseSample next.1)).map
        (fun sp => { ch with Spectra := sp, Rng := next.2 })) channel

/-- The function `AddNoiseToSpectrum`. -/
def AddNoiseToSpectrum [NatCast F] [Div F] [Mul F] [Sub F] [OfScientific F]
    (channel : Channel F) (index count : Int) : Option (Channel F) := do
  let channel ←
    if !channel.Rng.Initialized then do
      let seed ← noiseSeed channel.ScaleFactors
      pure { channel with Rng := RngInit channel.Rng seed }
    else pure channel
  noiseLoop channel index count

/-- The loop `for (i = lo; i < hi; i++) spectra[i] *= scale` of modes 2 and 4. -/
def scaleBins [Mul F] (spectra : List F) (lo hi : Int) (scale : F) : Option (List F) :=
  forLoop lo hi (fun i s => (loadAt s i).bind (fun x => storeAt s i (x * scale))) spectra

/-- The loop of mode 3, on the pair of the running `scale` and the spectrum:
`for (i = lo; i < hi; i++) { scale *= rate; spectra[i] *= scale; }`. -/
def decayBins [Mul F] (spectra : List F) (lo hi : Int) (rate scale : F) : Option (F × List F) :=
  forLoop lo hi
    (fun i st =>
      let scale := st.1 * rate
      (loadAt st.2 i).bind (fun x => (storeAt st.2 i (x * scale)).map (fun sp => (scale, sp))))
    (scale, spectra)

/-- The row-and-column read `table[row][col]` of a two-dimensional table. -/
def loadAt2 (table : List (List F)) (row col : Int) : Option F :=
  (loadAt table row).bind (fun r => loadAt r col)

/-- The read `table[row][values[vi]]` of mode 0. -/
def bandValue (table : List (List F)) (row : Int) (values : List Int) (vi : Int) : Option F :=
  (loadAt values vi).bind fun v => loadAt2 table row v

/-- The assignment `scales[slot] = table[row][values[vi]]` of mode 0. -/
def assignScale (scales : List (Option F)) (slot : Int) (table : List (List F)) (row : Int)
    (values : List Int) (vi : Int) : Option (List (Option F)) :=
  (bandValue table row values vi).bind fun x => storeAt scales slot (some x)

/-- The `switch (bandCount)` of mode 0: the writes to `scales` for 3, 4 and 5
bands; any other band count writes nothing. -/
def mode0Scales (T : Tables F) (values : List Int) (bandCount : Int)
    (scales : List (Option F)) : Option (List (Option F)) :=
  if bandCount = 3 then do
    let scales ← assignScale scales 0 T.BexMode0Bands3 0 values 0
    let scales ← assignScale scales 1 T.BexMode0Bands3 1 values 0
    let scales ← assignScale scales 2 T.BexMode0Bands3 2 values 1
    let scales ← assignScale scales 3 T.BexMode0Bands3 3 values 2
    assignScale scales 4 T.BexMode0Bands3 4 values 3
  else if bandCount = 4 then do
    let scales ← assignScale scales 0 T.BexMode0Bands4 0 values 0
    let scales ← assignScale scales 1 T.BexMode0Bands4 1 values 0
    let scales ← assignScale scales 2 T.BexMode0Bands4 2 values 1
    let scales ← assignScale scales 3 T.BexMode0Bands4 3 values 2
    assignScale scales 4 T.BexMode0Bands4 4 values 3
  else if bandCount = 5 then do
    let scales ← assignScale scales 0 T.BexMode0Bands5 0 values 0
    let scales ← assignScale scales 1 T.BexMode0Bands5 1 values 1
    assignScale scales 2 T.BexMode0Bands5 2 values 1
  else pure scales

/-- The loop of mode 1:
`for (i = lo; i < hi; i++) scales[i - lo] = SpectrumScale[scaleFactors[i]]`. -/
def mode1Scales (T : Tables F) (scaleFactors : List Int) (lo hi : Int)
    (scales : List (Option F)) : Option (List (Option F)) :=
  forLoop lo hi
    (fun i sc =>
      (loadAt scaleFactors i).bind fun sf =>
        (loadAt T.SpectrumScale sf).bind fun v => storeAt sc (i - lo) (some v)) scales

/-- The read `SpectrumScale[scaleFactors[unit]]`. -/
def spectrumScaleOf (T : Tables F) (scaleFactors : List Int) (unit : Int) : Option F :=
  (loadAt scaleFactors unit).bind fun sf => loadAt T.SpectrumScale sf

/-- Case 0 of the `switch (channel->BexMode)`; `channel` holds the mirrored
spectrum and `scales` is the local array, not yet written. -/
def bexMode0 [NatCast F] [Div F] [Mul F] [Sub F] [OfScientific F]
    (T : Tables F) (channel : Channel F) (scales : List (Option F))
    (bandCount groupAUnit totalUnits : Int) : Option (Channel F) := do
  let bexQuantUnits := totalUnits - groupAUnit
  let scales ← mode0Scales T channel.BexValues bandCount scales
  let last ← spectrumScaleOf T channel.ScaleFactors groupAUnit
  let scales ← storeAt scales (bexQuantUnits - 1) (some last)
  let index ← loadAt T.QuantUnitToCoeffIndex (totalUnits - 1)
  let count ← loadAt T.QuantUnitToCoeffCount (totalUnits - 1)
  let channel ← AddNoiseToSpectrum channel index count
  let spectra ← ScaleBexQuantUnits T.QuantUnitToCoeffIndex channel.Spectra scales
    groupAUnit totalUnits
  pure { channel with Spectra := spectra }

/-- Case 1 of the `switch (channel->BexMode)`. -/
def bexMode1 [NatCast F] [Div F] [Mul F] [Sub F] [OfScientific F]
    (T : Tables F) (channel : Channel F) (scales : List (Option F))
    (groupAUnit totalUnits groupABin totalBins : Int) : Option (Channel F) := do
  let scales ← mode1Scales T channel.ScaleFactors groupAUnit totalUnits scales
  let channel ← AddNoiseToSpectrum channel groupABin (totalBins - groupABin)
  let spectra ← ScaleBexQuantUnits T.QuantUnitToCoeffIndex channel.Spectra scales
    groupAUnit totalUnits
  pure { channel with Spectra := spectra }

/-- The read `table[values[vi]]` of a parameter table. -/
def tableValue (table : List F) (values : List Int) (vi : Int) : Option F :=
  (loadAt values vi).bind fun v => loadAt table v

/-- Case 2 of the `switch (channel->BexMode)`. -/
def bexMode2 [Mul F] (T : Tables F) (channel : Channel F)
    (groupABin groupBBin groupCBin : Int) : Option (Channel F) := do
  let groupAScale ← tableValue T.BexMode2Scale channel.BexValues 0
  let groupBScale ← tableValue T.BexMode2Scale channel.BexValues 1
  let spectra ← scaleBins channel.Spectra groupABin groupBBin groupAScale
  let spectra ← scaleBins spectra groupBBin groupCBin groupBScale
  pure { channel with Spectra := spectra }

/-- Case 3 of the `switch (channel->BexMode)`; `pow` is `pow` of `math.h`. -/
def bexMode3 [Mul F] [OfScientific F] (T : Tables F) (pow : F → F → F) (channel : Channel F)
    (groupABin totalBins : Int) : Option (Channel F) := do
  let exponent ← tableValue T.BexMode3Rate channel.BexValues 1
  let rate := pow 2.0 exponent
  let scale ← tableValue T.BexMode3Initial channel.BexValues 0
  let st ← decayBins channel.Spectra groupABin totalBins rate scale
  pure { channel with Spectra := st.2 }

/-- Case 4 of the `switch (channel->BexMode)`. -/
def bexMode4 [Mul F] [OfScientific F] (T : Tables F) (channel : Channel F)
    (groupABin groupBBin groupCBin totalBins : Int) : Option (Channel F) := do
  let mult ← tableValue T.BexMode4Multiplier channel.BexValues 0
  let groupAScale := 0.7079468 * mult
  let groupBScale := 0.5011902 * mult
  let groupCScale := 0.3548279 * mult
  let spectra ← scaleBins channel.Spectra groupABin groupBBin groupAScale
  let spectra ← scaleBins spectra groupBBin groupCBin groupBScale
  let spectra ← scaleBins spectra groupCBin totalBins groupCScale
  pure { channel with Spectra := spectra }

/-- The `switch (channel->BexMode)` of `ApplyBandExtensionChannel`, run on the
channel that holds the mirrored spectrum; a mode outside 0..4 does nothing. -/
def bexDispatch [NatCast F] [Div F] [Mul F] [Sub F] [OfScientific F]
    (T : Tables F) (pow : F → F → F) (channel : Channel F) (scales : List (Option F))
    (bandCount groupAUnit totalUnits groupABin groupBBin groupCBin totalBins : Int) :
    Option (Channel F) :=
  if channel.BexMode = 0 then bexMode0 T channel scales bandCount groupAUnit totalUnits
  else if channel.BexMode = 1 then
    bexMode1 T channel scales groupAUnit totalUnits groupABin totalBins
  else if channel.BexMode = 2 then bexMode2 T channel groupABin groupBBin groupCBin
  else if channel.BexMode = 3 then bexMode3 T pow channel groupABin totalBins
  else if channel.BexMode = 4 then bexMode4 T channel groupABin groupBBin groupCBin totalBins
  else some channel

/-- The function `ApplyBandExtensionChannel`.  `pow` is `pow` of `math.h`, `Max` of
`utility.h` is the larger of its two arguments, and the local array
`double scales[6]` starts with six cells never written. -/
def ApplyBandExtensionChannel [NatCast F] [Div F] [Mul F] [Sub F] [OfScientific F]
    (T : Tables F) (pow : F → F → F) (channel : Channel F) : Option (Channel F) := do
  let groupAUnit := channel.QuantizationUnitCount
  let scales : List (Option F) := List.replicate 6 none
  let bexInfo ← loadAt T.BexGroupInfo (channel.QuantizationUnitCount - 13)
  let bandCount := bexInfo.BandCount
  let groupBUnit := bexInfo.GroupBUnit
  let groupCUnit := bexInfo.GroupCUnit
  let totalUnits := max groupCUnit 22
  let groupABin ← loadAt T.QuantUnitToCoeffIndex groupAUnit
  let groupBBin ← loadAt T.QuantUnitToCoeffIndex groupBUnit
  let groupCBin ← loadAt T.QuantUnitToCoeffIndex groupCUnit
  let totalBins ← loadAt T.QuantUnitToCoeffIndex totalUnits
  let spectra ← FillHighFrequencies channel.Spectra groupABin groupBBin groupCBin totalBins
  bexDispatch T pow { channel with Spectra := spectra } scales
    bandCount groupAUnit totalUnits groupABin groupBBin groupCBin totalBins

/-- Two buffers of the same length that hold the same values in every bin
outside `[lo, hi)`. -/
def SameOutside (lo hi : Int) (s t : List F) : Prop :=
  t.length = s.length ∧ ∀ k : Int, k < lo ∨ hi ≤ k → loadAt t k = loadAt s k

/-- The body of the loop of `ApplyBandExtension`:
`ApplyBandExtensionChannel(&block->Channels[i])`, which updates channel `i` in
place. -/
def extendChannelAt [NatCast F] [Div F] [Mul F] [Sub F] [OfScientific F]
    (T : Tables F) (pow : F → F → F) (i : Int) (block : Block F) : Option (Block F) :=
  (loadAt block.Channels i).bind fun ch =>
    (ApplyBandExtensionChannel T pow ch).bind fun out =>
      (storeAt block.Channels i out).map fun chs => { block with Channels := chs }

/-- The function `ApplyBandExtension`: the early return and the loop over
`block->Channels[i]` for `i < block->ChannelCount`. -/
def ApplyBandExtension [NatCast F] [Div F] [Mul F] [Sub F] [OfScientific F]
    (T : Tables F) (pow : F → F → F) (block : Block F) : Option (Block F) :=
  if !block.BandExtensionEnabled || !block.HasExtensionData then some block
  else forLoop 0 block.ChannelCount (extendChannelAt T pow) block

/-- The loop body of `ApplyBandExtension` run over the channel indices in the
order of the list `order`; the source visits `0, 1, ..., ChannelCount - 1`.
It serves to state that the order of the visits does not matter. -/
def visitChannels [NatCast F] [Div F] [Mul F] [Sub F] [OfScientific F]
    (T : Tables F) (pow : F → F → F) (order : List Int) (block : Block F) :
    Option (Block F) :=
  order.foldlM (fun blk i => extendChannelAt T pow i blk) block

end Routines

/-! ## Concrete inputs -/

/-- Small tables for the concrete inputs: units 0..15 hold one bin each and
units 16..23 two bins each, so that unit 24 starts at bin 32. -/
def demoTables : Tables ℚ where
  BexGroupInfo := [⟨0, 16, 21⟩, ⟨1, 18, 22⟩, ⟨2, 20, 22⟩, ⟨3, 21, 22⟩, ⟨3, 21, 22⟩,
    ⟨4, 23, 24⟩, ⟨4, 23, 24⟩, ⟨5, 24, 24⟩]
  QuantUnitToCoeffIndex := [0, 1, 2, 3, 4, 5, 6, 7, 8, 9, 10, 11, 12, 13, 14, 15, 16,
    18, 20, 22, 24, 26, 28, 30, 32]
  QuantUnitToCoeffCount := [1, 1, 1, 1, 1, 1, 1, 1, 1, 1, 1, 1, 1, 1, 1, 1,
    2, 2, 2, 2, 2, 2, 2, 2]
  SpectrumScale := [1 / 4, 1 / 2, 1, 2, 4]
  BexMode0Bands3 := [[1, 2], [3, 4], [5, 6], [7, 8], [9, 10]]
  BexMode0Bands4 := [[11, 12], [13, 14], [15, 16], [17, 18], [19, 20]]
  BexMode0Bands5 := [[21, 22], [23, 24], [25, 26]]
  BexMode2Scale := [1, 1 / 2, 1 / 4]
  BexMode3Rate := [0, -1]
  BexMode3Initial := [1, 1 / 2]
  BexMode4Multiplier := [1, 1 / 2]

/-- The unit-to-bin map of `demoTables` as a function. -/
def demoIndex (u : Int) : Int :=
  (loadAt demoTables.QuantUnitToCoeffIndex u).getD 0

/-- A channel over `demoTables` with 18 coded units, 32 bins holding 1, 2, ..., 32,
scale factors that are all 3 except `sf[8] = 1`, `sf[12] = 2`, and a generator
that is not initialised. -/
def demoChannel (mode : Int) : Channel ℚ :=
  ⟨18, [3, 3, 3, 3, 3, 3, 3, 3, 1, 3, 3, 3, 2, 3, 3, 3, 3, 3, 3, 3, 3, 3, 3, 3],
    [1, 2, 3, 4, 5, 6, 7, 8, 9, 10, 11, 12, 13, 14, 15, 16, 17, 18, 19, 20, 21, 22, 23, 24,
      25, 26, 27, 28, 29, 30, 31, 32],
    [1, 0, 1, 0], mode, ⟨false, 0, 0, 0, 0⟩⟩

/-- The channel `demoChannel 1` with 13 coded units instead of 18: over
`demoTables` it has `totalUnits = 22`, nine extension units. -/
def lowChannel : Channel ℚ :=
  { demoChannel 1 with QuantizationUnitCount := 13 }

/-- A block over `demoTables` with band extension enabled and two channels, the
first in mode 1 and the second in the out-of-range mode 7. -/
def demoBlock : Block ℚ :=
  ⟨true, true, 2, [demoChannel 1, demoChannel 7]⟩

/-- A channel with `sf[8] = 1`, `sf[12] = 2`, `sf[15] = 3`, two bins and a
generator that is not initialised. -/
def seedChannel : Channel ℚ :=
  ⟨16, [0, 0, 0, 0, 0, 0, 0, 0, 1, 0, 0, 0, 2, 0, 0, 3], [0, 0], [], 1, ⟨false, 0, 0, 0, 0⟩⟩


/-! ## Memory accesses -/

theorem loadAt_eq_some_iff {α : Type} (xs : List α) (i : Int) (v : α) :
    loadAt xs i = some v ↔ 0 ≤ i ∧ xs[i.toNat]? = some v := by
  unfold loadAt
  by_cases h : 0 ≤ i <;> simp [h]

theorem loadAt_bounds {α : Type} {xs : List α} {i : Int} {v : α} (h : loadAt xs i = some v) :
    0 ≤ i ∧ i < xs.length := by
  rw [loadAt_eq_some_iff] at h
  obtain ⟨h0, h1⟩ := h
  have h2 : i.toNat < xs.length := by
    by_contra hc
    rw [List.getElem?_eq_none (by omega)] at h1
    exact Option.noConfusion h1
  omega

theorem loadAt_of_bounds {α : Type} (xs : List α) (i : Int) (h0 : 0 ≤ i) (h1 : i < xs.length) :
    ∃ v, loadAt xs i = some v := by
  have h2 : i.toNat < xs.length := by omega
  exact ⟨xs[i.toNat], by simp [loadAt, h0, List.getElem?_eq_getElem h2]⟩

theorem storeAt_of_bounds {α : Type} (xs : List α) (i : Int) (v : α) (h0 : 0 ≤ i)
    (h1 : i < xs.length) : storeAt xs i v = some (xs.set i.toNat v) := by
  have h2 : i.toNat < xs.length := by omega
  simp [storeAt, h0, h2]

theorem storeAt_eq_some {α : Type} {xs ys : List α} {i : Int} {v : α}
    (h : storeAt xs i v = some ys) : 0 ≤ i ∧ i < xs.length ∧ ys = xs.set i.toNat v := by
  unfold storeAt at h
  by_cases hc : 0 ≤ i ∧ i.toNat < xs.length
  · rw [if_pos hc] at h
    refine ⟨hc.1, by omega, ?_⟩
    exact (Option.some.inj h).symm
  · rw [if_neg hc] at h
    exact Option.noConfusion h

theorem length_storeAt {α : Type} {xs ys : List α} {i : Int} {v : α}
    (h : storeAt xs i v = some ys) : ys.length = xs.length := by
  obtain ⟨_, _, rfl⟩ := storeAt_eq_some h
  simp

theorem loadAt_storeAt {α : Type} {xs ys : List α} {i : Int} {v : α}
    (h : storeAt xs i v = some ys) (j : Int) :
    loadAt ys j = if j = i then some v else loadAt xs j := by
  obtain ⟨h0, h1, rfl⟩ := storeAt_eq_some h
  have h2 : i.toNat < xs.length := by omega
  unfold loadAt
  by_cases hj : 0 ≤ j
  · by_cases hji : j = i
    · subst hji
      simp [hj, h2]
    · have hne : i.toNat ≠ j.toNat := by omega
      simp [hj, hji, List.getElem?_set_ne hne]
  · have hji : j ≠ i := by omega
    simp [hj, hji]

theorem loadAt_ext {α : Type} {xs ys : List α}
    (h : ∀ k : Int, loadAt xs k = loadAt ys k) : xs = ys := by
  apply List.ext_getElem? 
  intro n
  have := h (n : Int)
  simpa [loadAt] using this

/-! ## Loops -/

theorem forLoopAux_inv {σ : Type} (Inv : Int → σ → Prop) (body : Int → σ → Option σ) :
    ∀ (n : Nat) (i : Int) (s : σ), Inv i s →
      (∀ j st, i ≤ j → j < i + n → Inv j st → ∃ st', body j st = some st' ∧ Inv (j + 1) st') →
      ∃ s', forLoopAux body n i s = some s' ∧ Inv (i + n) s' := by
  intro n
  induction n with
  | zero =>
    intro i s h0 _
    exact ⟨s, rfl, by simpa using h0⟩
  | succ n ih =>
    intro i s h0 hstep
    obtain ⟨s1, hb, h1⟩ := hstep i s (le_refl i) (by push_cast; omega) h0
    obtain ⟨s2, hl, h2⟩ := ih (i + 1) s1 h1
      (fun j st hj1 hj2 hinv => hstep j st (by omega) (by push_cast; omega) hinv)
    refine ⟨s2, ?_, ?_⟩
    · simp [forLoopAux, hb, hl]
    · have e : i + ((n + 1 : Nat) : Int) = i + 1 + (n : Int) := by push_cast; ring
      rw [e]; exact h2

theorem forLoop_inv {σ : Type} (Inv : Int → σ → Prop) (body : Int → σ → Option σ)
    (lo hi : Int) (s : σ) (hle : lo ≤ hi) (h0 : Inv lo s)
    (hstep : ∀ j st, lo ≤ j → j < hi → Inv j st →
      ∃ st', body j st = some st' ∧ Inv (j + 1) st') :
    ∃ s', forLoop lo hi body s = some s' ∧ Inv hi s' := by
  have e : lo + ((hi - lo).toNat : Int) = hi := by
    rw [Int.toNat_of_nonneg (by omega)]; ring
  obtain ⟨s1, h1, h2⟩ := forLoopAux_inv Inv body (hi - lo).toNat lo s h0
    (fun j st hj1 hj2 hinv => hstep j st hj1 (by omega) hinv)
  exact ⟨s1, h1, by rw [e] at h2; exact h2⟩

theorem forLoop_empty {σ : Type} (body : Int → σ → Option σ) (lo hi : Int) (s : σ)
    (h : hi ≤ lo) : forLoop lo hi body s = some s := by
  have e : (hi - lo).toNat = 0 := by omega
  simp [forLoop, e, forLoopAux]

/-! ## The mirror -/

theorem mirrorLoop_spec {F : Type} (spectra : List F) (lo hi : Int) (hle : lo ≤ hi)
    (hsrc : hi - lo ≤ lo) (hlen : hi ≤ spectra.length) :
    ∃ out, mirrorLoop spectra lo hi = some out ∧ out.length = spectra.length ∧
      ∀ k : Int, loadAt out k =
        if lo ≤ k ∧ k < hi then loadAt spectra (2 * lo - 1 - k) else loadAt spectra k := by
  have key := forLoop_inv
    (fun (i : Int) (st : List F) => st.length = spectra.length ∧
      ∀ k : Int, loadAt st k =
        if lo ≤ k ∧ k < lo + i then loadAt spectra (2 * lo - 1 - k) else loadAt spectra k)
    (fun i s => (loadAt s (lo - i - 1)).bind (fun v => storeAt s (lo + i) v))
    0 (hi - lo) spectra (by omega)
    ⟨rfl, fun k => by
      have : ¬ (lo ≤ k ∧ k < lo + 0) := by omega
      rw [if_neg this]⟩
    (by
      intro j st hj0 hj1 ⟨hl, hinv⟩
      obtain ⟨v, hv⟩ := loadAt_of_bounds st (lo - j - 1) (by omega) (by omega)
      have hs := storeAt_of_bounds st (lo + j) v (by omega) (by omega)
      refine ⟨st.set (lo + j).toNat v, ?_, ?_, ?_⟩
      · show (loadAt st (lo - j - 1)).bind (fun v => storeAt st (lo + j) v) = _
        rw [hv]; exact hs
      · simp [hl]
      · intro k
        rw [loadAt_storeAt hs k]
        by_cases hk : k = lo + j
        · subst hk
          have c1 : lo ≤ lo + j ∧ lo + j < lo + (j + 1) := by omega
          rw [if_pos rfl, if_pos c1, ← hv, hinv]
          have c2 : ¬ (lo ≤ lo - j - 1 ∧ lo - j - 1 < lo + j) := by omega
          rw [if_neg c2]
          congr 1; ring
        · rw [if_neg hk, hinv]
          by_cases c : lo ≤ k ∧ k < lo + j
          · have c3 : lo ≤ k ∧ k < lo + (j + 1) := by omega
            rw [if_pos c, if_pos c3]
          · have c3 : ¬ (lo ≤ k ∧ k < lo + (j + 1)) := by omega
            rw [if_neg c, if_neg c3])
  obtain ⟨out, h1, h2, h3⟩ := key
  refine ⟨out, h1, h2, ?_⟩
  intro k
  rw [h3]
  have e : lo + (hi - lo) = hi := by ring
  rw [e]

/-- C1. Mirror symmetry of `FillHighFrequencies`: for boundaries `a < b < c < d`
with `d` within the buffer and every source index valid, the call succeeds,
keeps the length, and afterwards bin `a + i` holds the value bin `a - 1 - i`
had before the call, bin `b + i` equals the final bin `b - 1 - i`, and bin
`c + i` equals the final bin `c - 1 - i`. -/
theorem fillHighFrequencies_mirror_symmetry {F : Type} (spectra : List F) (a b c d : Int)
    (hab : a < b) (hbc : b < c) (hcd : c < d) (hd : d ≤ spectra.length)
    (hA : b - a ≤ a) (hB : c - b ≤ b) (hC : d - c ≤ c) :
    ∃ out, FillHighFrequencies spectra a b c d = some out ∧
      out.length = spectra.length ∧
      (∀ i : Int, 0 ≤ i → i < b - a →
        ∃ v, loadAt out (a + i) = some v ∧ loadAt spectra (a - 1 - i) = some v) ∧
      (∀ i : Int, 0 ≤ i → i < c - b →
        ∃ v, loadAt out (b + i) = some v ∧ loadAt out (b - 1 - i) = some v) ∧
      (∀ i : Int, 0 ≤ i → i < d - c →
        ∃ v, loadAt out (c + i) = some v ∧ loadAt out (c - 1 - i) = some v) := by
  obtain ⟨s1, e1, l1, p1⟩ := mirrorLoop_spec spectra a b (by omega) hA (by omega)
  obtain ⟨s2, e2, l2, p2⟩ := mirrorLoop_spec s1 b c (by omega) hB (by omega)
  obtain ⟨s3, e3, l3, p3⟩ := mirrorLoop_spec s2 c d (by omega) hC (by omega)
  refine ⟨s3, by simp [FillHighFrequencies, e1, e2, e3], by omega, ?_, ?_, ?_⟩
  · intro i h0 h1
    obtain ⟨v, hv⟩ := loadAt_of_bounds spectra (a - 1 - i) (by omega) (by omega)
    refine ⟨v, ?_, hv⟩
    rw [p3, if_neg (by omega), p2, if_neg (by omega), p1, if_pos (by omega), ← hv]
    congr 1; ring
  · intro i h0 h1
    obtain ⟨v, hv⟩ := loadAt_of_bounds s3 (b - 1 - i) (by omega) (by omega)
    refine ⟨v, ?_, hv⟩
    rw [← hv, p3, if_neg (by omega), p2, if_pos (by omega), p3, if_neg (by omega),
      p2, if_neg (by omega)]
    congr 1; ring
  · intro i h0 h1
    obtain ⟨v, hv⟩ := loadAt_of_bounds s3 (c - 1 - i) (by omega) (by omega)
    refine ⟨v, ?_, hv⟩
    rw [← hv, p3, if_pos (by omega), p3, if_neg (by omega)]
    congr 1; ring

/-- C1 at the buffer `1, 2, 3, 4, 0, ...` with boundaries 4, 6, 9, 11. -/
theorem fillHighFrequencies_mirror_symmetry_witness :
    ((4 : Int) < 6 ∧ (6 : Int) < 9 ∧ (9 : Int) < 11 ∧
      (11 : Int) ≤ [(1 : Int), 2, 3, 4, 0, 0, 0, 0, 0, 0, 0, 0].length ∧
      (6 : Int) - 4 ≤ 4 ∧ (9 : Int) - 6 ≤ 6 ∧ (11 : Int) - 9 ≤ 9) ∧
    ∃ out, FillHighFrequencies [(1 : Int), 2, 3, 4, 0, 0, 0, 0, 0, 0, 0, 0] 4 6 9 11 = some out ∧
      out.length = [(1 : Int), 2, 3, 4, 0, 0, 0, 0, 0, 0, 0, 0].length ∧
      (∀ i : Int, 0 ≤ i → i < 6 - 4 →
        ∃ v, loadAt out (4 + i) = some v ∧
          loadAt [(1 : Int), 2, 3, 4, 0, 0, 0, 0, 0, 0, 0, 0] (4 - 1 - i) = some v) ∧
      (∀ i : Int, 0 ≤ i → i < 9 - 6 →
        ∃ v, loadAt out (6 + i) = some v ∧ loadAt out (6 - 1 - i) = some v) ∧
      (∀ i : Int, 0 ≤ i → i < 11 - 9 →
        ∃ v, loadAt out (9 + i) = some v ∧ loadAt out (9 - 1 - i) = some v) :=
  ⟨by decide, fillHighFrequencies_mirror_symmetry _ 4 6 9 11 (by decide) (by decide) (by decide)
    (by decide) (by decide) (by decide) (by decide)⟩

/-! ## Machine integers -/

theorem toUInt16_natCast (n : Nat) : toUInt16 (n : Int) = n % 65536 := by
  unfold toUInt16
  omega

theorem toUInt16_lt (x : Int) : toUInt16 x < 65536 := by
  unfold toUInt16
  omega

theorem toUInt16_toInt32 (x : Int) : toUInt16 (toInt32 x) = toUInt16 x := by
  unfold toUInt16 toInt32
  omega

theorem toInt32_of_range (x : Int) (h0 : -2147483648 ≤ x) (h1 : x < 2147483648) :
    toInt32 x = x := by
  unfold toInt32
  omega

/-! ## The generator -/

/-- C3. `RngNext` on the registers `(A, B, C, D)` returns `A1` and leaves the
registers `(A1, A, B, C)`, where `t = (D xor (D << 5)) mod 2^16` and
`A1 = (t xor A xor ((t xor (A >> 5)) >> 4)) mod 2^16` is computed from the old
`A`; the flag `Initialized` is unchanged. -/
theorem rngNext_recurrence (init : Bool) (A B C D : Nat) :
    RngNext ⟨init, A, B, C, D⟩ =
      (((D ^^^ (D <<< 5)) % 65536 ^^^ A ^^^
          (((D ^^^ (D <<< 5)) % 65536 ^^^ (A >>> 5)) >>> 4)) % 65536,
        ⟨init,
          ((D ^^^ (D <<< 5)) % 65536 ^^^ A ^^^
            (((D ^^^ (D <<< 5)) % 65536 ^^^ (A >>> 5)) >>> 4)) % 65536,
          A, B, C⟩) := by
  simp only [RngNext, toUInt16_natCast]

theorem rngNext_fst_lt (rng : RngCxt) : (RngNext rng).1 < 65536 := by
  simp only [RngNext]
  exact toUInt16_lt _

theorem rngNext_initialized (rng : RngCxt) : (RngNext rng).2.Initialized = rng.Initialized := by
  simp only [RngNext]

theorem rngAfter_initialized (rng : RngCxt) (n : Nat) :
    (rngAfter rng n).Initialized = rng.Initialized := by
  induction n with
  | zero => rfl
  | succ n ih => rw [rngAfter, rngNext_initialized, ih]

theorem rngOutput_lt (rng : RngCxt) (j : Nat) : rngOutput rng j < 65536 :=
  rngNext_fst_lt _

theorem rngInit_eq (rng : RngCxt) (seed : Nat) :
    RngInit rng seed =
      ⟨true,
        (((3 : Int) - (0x4D93 : Int) * ((seed ^^^ (seed >>> 14) : Nat) : Int)) % 65536).toNat,
        (((2 : Int) - (0x4D93 : Int) * ((seed ^^^ (seed >>> 14) : Nat) : Int)) % 65536).toNat,
        (((1 : Int) - (0x4D93 : Int) * ((seed ^^^ (seed >>> 14) : Nat) : Int)) % 65536).toNat,
        (((0 : Int) - (0x4D93 : Int) * ((seed ^^^ (seed >>> 14) : Nat) : Int)) % 65536).toNat⟩ := by
  simp only [RngInit, toUInt16_toInt32]
  generalize ((seed ^^^ (seed >>> 14) : Nat) : Int) = p
  have e : ∀ k : Int, toUInt16 (k - toInt32 (0x4D93 * p)) = ((k - 0x4D93 * p) % 65536).toNat := by
    intro k
    unfold toUInt16 toInt32
    omega
  simp only [e]

theorem noiseSeed_eq (sf : List Int) (sf8 sf12 sf15 : Int) (h8 : loadAt sf 8 = some sf8)
    (h12 : loadAt sf 12 = some sf12) (h15 : loadAt sf 15 = some sf15) :
    noiseSeed sf = some ((543 * (sf8 + sf12 + sf15 + 1)) % 65536).toNat := by
  have e : toUInt16 (toInt32 (543 * toInt32 (toInt32 (toInt32 (sf8 + sf12) + sf15) + 1))) =
      ((543 * (sf8 + sf12 + sf15 + 1)) % 65536).toNat := by
    unfold toUInt16 toInt32
    omega
  simp [noiseSeed, h8, h12, h15, e]

theorem forLoopAux_post {σ : Type} (P : σ → Prop) (body : Int → σ → Option σ)
    (hP : ∀ j st st', body j st = some st' → P st → P st') :
    ∀ (n : Nat) (i : Int) (s s' : σ), forLoopAux body n i s = some s' → P s → P s' := by
  intro n
  induction n with
  | zero =>
    intro i s s' h hs
    simp only [forLoopAux, Option.some.injEq] at h
    exact h ▸ hs
  | succ n ih =>
    intro i s s' h hs
    simp only [forLoopAux] at h
    cases hb : body i s with
    | none => rw [hb] at h; exact Option.noConfusion h
    | some s1 =>
      rw [hb] at h
      exact ih (i + 1) s1 s' h (hP i s s1 hb hs)

theorem noiseLoop_initialized {F : Type} [NatCast F] [Div F] [Mul F] [Sub F] [OfScientific F]
    (channel out : Channel F) (index count : Int)
    (h : noiseLoop channel index count = some out) :
    out.Rng.Initialized = channel.Rng.Initialized := by
  refine forLoopAux_post (fun ch : Channel F => ch.Rng.Initialized = channel.Rng.Initialized)
    _ ?_ _ _ channel out h rfl
  intro j st st' hb hst
  cases hs : storeAt st.Spectra (j + index) (noiseSample (F := F) (RngNext st.Rng).1) with
  | none => simp [hs] at hb
  | some sp =>
    simp only [hs, Option.map_some', Option.some.injEq] at hb
    subst hb
    simp only [rngNext_initialized]
    exact hst

theorem addNoise_of_uninitialized {F : Type} [NatCast F] [Div F] [Mul F] [Sub F]
    [OfScientific F] (channel : Channel F) (index count : Int) (seed : Nat)
    (hinit : channel.Rng.Initialized = false)
    (hseed : noiseSeed channel.ScaleFactors = some seed) :
    AddNoiseToSpectrum channel index count =
      noiseLoop { channel with Rng := RngInit channel.Rng seed } index count := by
  simp [AddNoiseToSpectrum, hinit, hseed]

theorem addNoise_of_initialized {F : Type} [NatCast F] [Div F] [Mul F] [Sub F]
    [OfScientific F] (channel : Channel F) (index count : Int)
    (hinit : channel.Rng.Initialized = true) :
    AddNoiseToSpectrum channel index count = noiseLoop channel index count := by
  simp [AddNoiseToSpectrum, hinit]

theorem registers_consecutive (s : Int) :
    ((3 - s) % 65536).toNat = (((0 - s) % 65536).toNat + 3) % 65536 ∧
      ((2 - s) % 65536).toNat = (((0 - s) % 65536).toNat + 2) % 65536 ∧
      ((1 - s) % 65536).toNat = (((0 - s) % 65536).toNat + 1) % 65536 := by
  refine ⟨?_, ?_, ?_⟩ <;> omega

/-- C4. Seeding formula: on a channel whose generator is not initialised, with
non-negative scale factors for which `543 * (sf[8] + sf[12] + sf[15] + 1)` fits a
32-bit `int`, `AddNoiseToSpectrum` runs its loop from the registers
`A = (3 - s) mod 2^16`, `B = (2 - s) mod 2^16`, `C = (1 - s) mod 2^16`,
`D = (0 - s) mod 2^16`, where `seed = (543 * (sf[8] + sf[12] + sf[15] + 1)) mod 2^16`
and `s = 0x4D93 * (seed xor (seed >> 14))`; the registers are consecutive 16-bit
values (`A = D + 3`, `B = D + 2`, `C = D + 1` modulo `2^16`), `Initialized` is
true in the channel the call returns, and no `int` operation of the seed
computation wraps. -/
theorem addNoise_seeding {F : Type} [NatCast F] [Div F] [Mul F] [Sub F] [OfScientific F]
    (channel : Channel F) (index count : Int) (sf8 sf12 sf15 : Int) (seed : Nat) (s : Int)
    (hinit : channel.Rng.Initialized = false)
    (h8 : loadAt channel.ScaleFactors 8 = some sf8)
    (h12 : loadAt channel.ScaleFactors 12 = some sf12)
    (h15 : loadAt channel.ScaleFactors 15 = some sf15)
    (hpos : 0 ≤ sf8 ∧ 0 ≤ sf12 ∧ 0 ≤ sf15)
    (hsmall : 543 * (sf8 + sf12 + sf15 + 1) < 2147483648)
    (hseed : (seed : Int) = (543 * (sf8 + sf12 + sf15 + 1)) % 65536)
    (hs : s = (0x4D93 : Int) * ((seed ^^^ (seed >>> 14) : Nat) : Int)) :
    AddNoiseToSpectrum channel index count =
        noiseLoop { channel with
          Rng := ⟨true, ((3 - s) % 65536).toNat, ((2 - s) % 65536).toNat,
            ((1 - s) % 65536).toNat, ((0 - s) % 65536).toNat⟩ } index count ∧
      ((3 - s) % 65536).toNat = (((0 - s) % 65536).toNat + 3) % 65536 ∧
      ((2 - s) % 65536).toNat = (((0 - s) % 65536).toNat + 2) % 65536 ∧
      ((1 - s) % 65536).toNat = (((0 - s) % 65536).toNat + 1) % 65536 ∧
      (∀ out, AddNoiseToSpectrum channel index count = some out →
        out.Rng.Initialized = true) ∧
      toInt32 (543 * toInt32 (toInt32 (toInt32 (sf8 + sf12) + sf15) + 1)) =
        543 * (sf8 + sf12 + sf15 + 1) := by
  have hseed1 : ((543 * (sf8 + sf12 + sf15 + 1)) % 65536).toNat = seed := by omega
  have hsd := noiseSeed_eq channel.ScaleFactors sf8 sf12 sf15 h8 h12 h15
  rw [hseed1] at hsd
  have hrun := addNoise_of_uninitialized channel index count seed hinit hsd
  rw [rngInit_eq, ← hs] at hrun
  refine ⟨hrun, (registers_consecutive s).1, (registers_consecutive s).2.1,
    (registers_consecutive s).2.2, ?_, ?_⟩
  · intro out hout
    rw [hrun] at hout
    exact noiseLoop_initialized _ _ _ _ hout
  · unfold toInt32
    omega

/-- C4 at `seedChannel`, whose scale factors `sf[8] = 1`, `sf[12] = 2`,
`sf[15] = 3` give the seed 3801 and the start value `0x4D93 * 3801`. -/
theorem addNoise_seeding_witness :
    (seedChannel.Rng.Initialized = false ∧
      loadAt seedChannel.ScaleFactors 8 = some 1 ∧
      loadAt seedChannel.ScaleFactors 12 = some 2 ∧
      loadAt seedChannel.ScaleFactors 15 = some 3 ∧
      ((0 : Int) ≤ 1 ∧ (0 : Int) ≤ 2 ∧ (0 : Int) ≤ 3) ∧
      (543 * ((1 : Int) + 2 + 3 + 1) < 2147483648) ∧
      ((3801 : Nat) : Int) = (543 * ((1 : Int) + 2 + 3 + 1)) % 65536 ∧
      (0x4D93 * 3801 : Int) = (0x4D93 : Int) * ((3801 ^^^ (3801 >>> 14) : Nat) : Int)) ∧
    (AddNoiseToSpectrum seedChannel 0 2 =
        noiseLoop { seedChannel with
          Rng := ⟨true, ((3 - (0x4D93 * 3801 : Int)) % 65536).toNat,
            ((2 - (0x4D93 * 3801 : Int)) % 65536).toNat,
            ((1 - (0x4D93 * 3801 : Int)) % 65536).toNat,
            ((0 - (0x4D93 * 3801 : Int)) % 65536).toNat⟩ } 0 2 ∧
      ((3 - (0x4D93 * 3801 : Int)) % 65536).toNat =
        (((0 - (0x4D93 * 3801 : Int)) % 65536).toNat + 3) % 65536 ∧
      ((2 - (0x4D93 * 3801 : Int)) % 65536).toNat =
        (((0 - (0x4D93 * 3801 : Int)) % 65536).toNat + 2) % 65536 ∧
      ((1 - (0x4D93 * 3801 : Int)) % 65536).toNat =
        (((0 - (0x4D93 * 3801 : Int)) % 65536).toNat + 1) % 65536 ∧
      (∀ out, AddNoiseToSpectrum seedChannel 0 2 = some out → out.Rng.Initialized = true) ∧
      toInt32 (543 * toInt32 (toInt32 (toInt32 ((1 : Int) + 2) + 3) + 1)) =
        543 * ((1 : Int) + 2 + 3 + 1)) :=
  ⟨⟨rfl, by decide, by decide, by decide, by decide, by decide, by decide, by decide⟩,
    addNoise_seeding seedChannel 0 2 1 2 3 3801 (0x4D93 * 3801)
      rfl (by decide) (by decide) (by decide) (by decide) (by decide) (by decide)
      (by decide)⟩

/-- C5. Pinned generator vector: on every channel whose generator is not
initialised and whose scale factors are `sf[8] = 1`, `sf[12] = 2`, `sf[15] = 3`,
the seed is 3801, seeding gives the registers `(13416, 13415, 13414, 13413)`,
and the first `RngNext` after it returns `0x873B = 34619`: a call of
`AddNoiseToSpectrum` for one bin writes the sample made from 34619 and leaves
the registers `(34619, 13416, 13415, 13414)`. -/
theorem addNoise_pinned_vector {F : Type} [NatCast F] [Div F] [Mul F] [Sub F] [OfScientific F]
    (channel : Channel F) (index : Int)
    (hinit : channel.Rng.Initialized = false)
    (h8 : loadAt channel.ScaleFactors 8 = some 1)
    (h12 : loadAt channel.ScaleFactors 12 = some 2)
    (h15 : loadAt channel.ScaleFactors 15 = some 3) :
    noiseSeed channel.ScaleFactors = some 3801 ∧
      RngInit channel.Rng 3801 = ⟨true, 13416, 13415, 13414, 13413⟩ ∧
      (RngNext (RngInit channel.Rng 3801)).1 = 34619 ∧
      (34619 : Nat) = 0x873B ∧
      (∀ count : Int, AddNoiseToSpectrum channel index count =
        noiseLoop { channel with Rng := ⟨true, 13416, 13415, 13414, 13413⟩ } index count) ∧
      AddNoiseToSpectrum channel index 1 =
        (storeAt channel.Spectra index (noiseSample 34619)).map
          (fun sp => { channel with
            Spectra := sp, Rng := ⟨true, 34619, 13416, 13415, 13414⟩ }) := by
  have hseed : noiseSeed channel.ScaleFactors = some 3801 := by
    rw [noiseSeed_eq _ 1 2 3 h8 h12 h15]
    decide
  have hreg : RngInit channel.Rng 3801 = ⟨true, 13416, 13415, 13414, 13413⟩ := by
    rw [rngInit_eq]
    decide
  have hnext : RngNext ⟨true, 13416, 13415, 13414, 13413⟩ =
      (34619, ⟨true, 34619, 13416, 13415, 13414⟩) := by
    decide
  have hrun : ∀ count : Int, AddNoiseToSpectrum channel index count =
      noiseLoop { channel with Rng := ⟨true, 13416, 13415, 13414, 13413⟩ } index count := by
    intro count
    rw [addNoise_of_uninitialized channel index count 3801 hinit hseed, hreg]
  refine ⟨hseed, hreg, by rw [hreg, hnext], by decide, hrun, ?_⟩
  rw [hrun 1]
  have e : ((1 : Int) - 0).toNat = 1 := by decide
  simp only [noiseLoop, forLoop, e, forLoopAux, hnext, zero_add]
  cases h : storeAt channel.Spectra index (noiseSample (F := F) 34619) <;> simp

/-- C5 at `seedChannel`. -/
theorem addNoise_pinned_vector_witness :
    (seedChannel.Rng.Initialized = false ∧
      loadAt seedChannel.ScaleFactors 8 = some 1 ∧
      loadAt seedChannel.ScaleFactors 12 = some 2 ∧
      loadAt seedChannel.ScaleFactors 15 = some 3) ∧
    (RngNext (RngInit seedChannel.Rng 3801)).1 = 34619 :=
  ⟨⟨rfl, by decide, by decide, by decide⟩,
    (addNoise_pinned_vector seedChannel 0 rfl (by decide) (by decide) (by decide)).2.2.1⟩

theorem noiseLoop_spec {F : Type} [NatCast F] [Div F] [Mul F] [Sub F] [OfScientific F]
    (channel : Channel F) (index count : Int) (hc : 0 ≤ count) (h0 : 0 ≤ index)
    (hlen : index + count ≤ channel.Spectra.length) :
    ∃ out, noiseLoop channel index count = some out ∧
      out.QuantizationUnitCount = channel.QuantizationUnitCount ∧
      out.ScaleFactors = channel.ScaleFactors ∧
      out.BexValues = channel.BexValues ∧
      out.BexMode = channel.BexMode ∧
      out.Rng = rngAfter channel.Rng count.toNat ∧
      out.Spectra.length = channel.Spectra.length ∧
      ∀ k : Int, loadAt out.Spectra k =
        if index ≤ k ∧ k < index + count then
          some (noiseSample (rngOutput channel.Rng (k - index).toNat))
        else loadAt channel.Spectra k := by
  have key := forLoop_inv
    (fun (i : Int) (st : Channel F) =>
      st.QuantizationUnitCount = channel.QuantizationUnitCount ∧
      st.ScaleFactors = channel.ScaleFactors ∧
      st.BexValues = channel.BexValues ∧
      st.BexMode = channel.BexMode ∧
      st.Rng = rngAfter channel.Rng i.toNat ∧
      st.Spectra.length = channel.Spectra.length ∧
      ∀ k : Int, loadAt st.Spectra k =
        if index ≤ k ∧ k < index + i then
          some (noiseSample (rngOutput channel.Rng (k - index).toNat))
        else loadAt channel.Spectra k)
    (fun i ch =>
      (storeAt ch.Spectra (i + index) (noiseSample (RngNext ch.Rng).1)).map
        (fun sp => { ch with Spectra := sp, Rng := (RngNext ch.Rng).2 }))
    0 count channel hc
    ⟨rfl, rfl, rfl, rfl, rfl, rfl, fun k => by
      have : ¬ (index ≤ k ∧ k < index + 0) := by omega
      rw [if_neg this]⟩
    (by
      intro j st hj0 hj1 ⟨hq, hsf, hbv, hbm, hrng, hl, hinv⟩
      have hs := storeAt_of_bounds st.Spectra (j + index) (noiseSample (F := F) (RngNext st.Rng).1)
        (by omega) (by omega)
      refine ⟨{ st with Spectra := st.Spectra.set (j + index).toNat (noiseSample (RngNext st.Rng).1),
                        Rng := (RngNext st.Rng).2 }, ?_, hq, hsf, hbv, hbm, ?_, ?_, ?_⟩
      · show (storeAt st.Spectra (j + index) (noiseSample (RngNext st.Rng).1)).map _ = _
        rw [hs]; rfl
      · show (RngNext st.Rng).2 = rngAfter channel.Rng (j + 1).toNat
        have e : (j + 1).toNat = j.toNat + 1 := by omega
        rw [e, rngAfter, hrng]
      · show (st.Spectra.set _ _).length = _
        simp [hl]
      · intro k
        show loadAt (st.Spectra.set _ _) k = _
        rw [loadAt_storeAt hs k]
        by_cases hk : k = j + index
        · subst hk
          have c1 : index ≤ j + index ∧ j + index < index + (j + 1) := by omega
          have e : (j + index - index).toNat = j.toNat := by congr 1; ring
          rw [if_pos rfl, if_pos c1, e, rngOutput, hrng]
        · rw [if_neg hk, hinv]
          by_cases c : index ≤ k ∧ k < index + j
          · have c3 : index ≤ k ∧ k < index + (j + 1) := by omega
            rw [if_pos c, if_pos c3]
          · have c3 : ¬ (index ≤ k ∧ k < index + (j + 1)) := by omega
            rw [if_neg c, if_neg c3])
  exact key

theorem noiseLoop_empty {F : Type} [NatCast F] [Div F] [Mul F] [Sub F] [OfScientific F]
    (channel : Channel F) (index count : Int) (hc : count ≤ 0) :
    noiseLoop channel index count = some channel :=
  forLoop_empty _ 0 count channel hc

theorem noiseSeed_of_length (sf : List Int) (h : 16 ≤ sf.length) :
    ∃ seed, noiseSeed sf = some seed := by
  obtain ⟨a, ha⟩ := loadAt_of_bounds sf 8 (by omega) (by omega)
  obtain ⟨b, hb⟩ := loadAt_of_bounds sf 12 (by omega) (by omega)
  obtain ⟨c, hc⟩ := loadAt_of_bounds sf 15 (by omega) (by omega)
  exact ⟨_, noiseSeed_eq sf a b c ha hb hc⟩

theorem noiseSample_rat (r : Nat) : noiseSample (F := ℚ) r = (r : ℚ) / 65535 * 2 - 1 := by
  unfold noiseSample
  norm_num

theorem noiseSample_range (r : Nat) (h : r < 65536) :
    -1 ≤ noiseSample (F := ℚ) r ∧ noiseSample (F := ℚ) r ≤ 1 := by
  rw [noiseSample_rat]
  have h1 : (r : ℚ) ≤ 65535 := by exact_mod_cast Nat.lt_succ_iff.mp h
  have h0 : (0 : ℚ) ≤ r := Nat.cast_nonneg r
  constructor
  · have : (0 : ℚ) ≤ (r : ℚ) / 65535 * 2 := by positivity
    linarith
  · have : (r : ℚ) / 65535 ≤ 1 := by
      rw [div_le_one (by norm_num)]; exact h1
    linarith

/-- C2, as amended. Noise range: for every channel state (generator initialised
or not, any registers, any scale factors) and every bin range inside the
spectrum, `AddNoiseToSpectrum` succeeds and each value it writes, computed in
exact arithmetic as `r / 65535 * 2 - 1` from a generator output `r`, satisfies
`-1 ≤ v` and `v ≤ 1`; the upper bound is not strict. -/
theorem addNoise_range (channel : Channel ℚ) (index count : Int) (h0 : 0 ≤ index)
    (hlen : index + count ≤ channel.Spectra.length)
    (hsf : channel.Rng.Initialized = false → 16 ≤ channel.ScaleFactors.length) :
    ∃ out, AddNoiseToSpectrum channel index count = some out ∧
      ∀ k : Int, index ≤ k → k < index + count →
        ∃ r : Nat, r < 65536 ∧
          loadAt out.Spectra k = some ((r : ℚ) / 65535 * 2 - 1) ∧
          -1 ≤ (r : ℚ) / 65535 * 2 - 1 ∧ (r : ℚ) / 65535 * 2 - 1 ≤ 1 := by
  have main : ∀ ch : Channel ℚ, ch.Spectra.length = channel.Spectra.length →
      ∃ out, noiseLoop ch index count = some out ∧
        ∀ k : Int, index ≤ k → k < index + count →
          ∃ r : Nat, r < 65536 ∧
            loadAt out.Spectra k = some ((r : ℚ) / 65535 * 2 - 1) ∧
            -1 ≤ (r : ℚ) / 65535 * 2 - 1 ∧ (r : ℚ) / 65535 * 2 - 1 ≤ 1 := by
    intro ch hl
    by_cases hc : 0 ≤ count
    · obtain ⟨out, ho, _, _, _, _, _, _, hk⟩ := noiseLoop_spec ch index count hc h0 (by omega)
      refine ⟨out, ho, ?_⟩
      intro k hk0 hk1
      refine ⟨rngOutput ch.Rng (k - index).toNat, rngOutput_lt _ _, ?_, ?_⟩
      · rw [hk, if_pos ⟨hk0, hk1⟩, noiseSample_rat]
      · have := noiseSample_range _ (rngOutput_lt ch.Rng (k - index).toNat)
        rw [noiseSample_rat] at this
        exact this
    · refine ⟨ch, noiseLoop_empty ch index count (by omega), ?_⟩
      intro k hk0 hk1
      omega
  cases hi : channel.Rng.Initialized with
  | true =>
    rw [addNoise_of_initialized channel index count hi]
    exact main channel rfl
  | false =>
    obtain ⟨seed, hseed⟩ := noiseSeed_of_length channel.ScaleFactors (hsf hi)
    rw [addNoise_of_uninitialized channel index count seed hi hseed]
    exact main _ rfl

/-- C2 as amended, at `seedChannel` and its two bins. -/
theorem addNoise_range_witness :
    ((0 : Int) ≤ 0 ∧ (0 : Int) + 2 ≤ seedChannel.Spectra.length ∧
      (seedChannel.Rng.Initialized = false → 16 ≤ seedChannel.ScaleFactors.length)) ∧
    ∃ out, AddNoiseToSpectrum seedChannel 0 2 = some out ∧
      ∀ k : Int, 0 ≤ k → k < 0 + 2 →
        ∃ r : Nat, r < 65536 ∧
          loadAt out.Spectra k = some ((r : ℚ) / 65535 * 2 - 1) ∧
          -1 ≤ (r : ℚ) / 65535 * 2 - 1 ∧ (r : ℚ) / 65535 * 2 - 1 ≤ 1 :=
  ⟨⟨by decide, by decide, fun _ => by decide⟩,
    addNoise_range seedChannel 0 2 (by decide) (by decide) (fun _ => by decide)⟩

/-- C2 fails as stated: on the initialised registers `(0, 0, 0, 12016)` the
generator returns 65535, so the one value `AddNoiseToSpectrum` writes is
`65535 / 65535 * 2 - 1 = 1`, which is not below 1. -/
theorem addNoise_writes_one :
    (RngNext ⟨true, 0, 0, 0, 12016⟩).1 = 65535 ∧
    AddNoiseToSpectrum (⟨16, [], [0], [], 1, ⟨true, 0, 0, 0, 12016⟩⟩ : Channel ℚ) 0 1 =
      some ⟨16, [], [(65535 : ℚ) / 65535 * 2 - 1], [], 1, ⟨true, 65535, 0, 0, 0⟩⟩ ∧
    ¬ ((65535 : ℚ) / 65535 * 2 - 1 < 1) := by
  have hnext : RngNext ⟨true, 0, 0, 0, 12016⟩ = (65535, ⟨true, 65535, 0, 0, 0⟩) := by decide
  refine ⟨by rw [hnext], ?_, by norm_num⟩
  have e : ((1 : Int) - 0).toNat = 1 := by decide
  have hs : storeAt [(0 : ℚ)] (0 + 0) (noiseSample 65535) = some [(65535 : ℚ) / 65535 * 2 - 1] := by
    rw [noiseSample_rat]
    simp [storeAt]
  rw [addNoise_of_initialized _ 0 1 rfl]
  simp only [noiseLoop, forLoop, e, forLoopAux, hnext, hs]
  rfl

/-- The same failure from a channel that is not initialised: with `sf[8] = 57346`
the seed is 9821 and the second `RngNext` returns 65535, so the second bin
written is 1. -/
theorem addNoise_writes_one_from_seed :
    noiseSeed [0, 0, 0, 0, 0, 0, 0, 0, 57346, 0, 0, 0, 0, 0, 0, 0] = some 9821 ∧
    rngOutput (RngInit ⟨false, 0, 0, 0, 0⟩ 9821) 1 = 65535 ∧
    ∃ out, AddNoiseToSpectrum
        (⟨16, [0, 0, 0, 0, 0, 0, 0, 0, 57346, 0, 0, 0, 0, 0, 0, 0], [0, 0], [], 1,
          ⟨false, 0, 0, 0, 0⟩⟩ : Channel ℚ) 0 2 = some out ∧
      loadAt out.Spectra 1 = some 1 := by
  have hseed : noiseSeed [0, 0, 0, 0, 0, 0, 0, 0, 57346, 0, 0, 0, 0, 0, 0, 0] = some 9821 := by
    decide
  have hout : rngOutput (RngInit ⟨false, 0, 0, 0, 0⟩ 9821) 1 = 65535 := by decide
  refine ⟨hseed, hout, ?_⟩
  rw [addNoise_of_uninitialized _ 0 2 9821 rfl hseed]
  obtain ⟨out, ho, _, _, _, _, _, _, hk⟩ := noiseLoop_spec
    ({ (⟨16, [0, 0, 0, 0, 0, 0, 0, 0, 57346, 0, 0, 0, 0, 0, 0, 0], [0, 0], [], 1,
          ⟨false, 0, 0, 0, 0⟩⟩ : Channel ℚ) with Rng := RngInit ⟨false, 0, 0, 0, 0⟩ 9821 })
    0 2 (by decide) (by decide) (by decide)
  refine ⟨out, ho, ?_⟩
  rw [hk 1, if_pos (by decide)]
  have e : ((1 : Int) - 0).toNat = 1 := by decide
  rw [e]
  show some (noiseSample (rngOutput (RngInit ⟨false, 0, 0, 0, 0⟩ 9821) 1)) = some 1
  rw [hout, noiseSample_rat]
  norm_num

/-! ## Scaling -/

theorem mapRange_spec {F : Type} (f : F → F) (spectra : List F) (lo hi : Int) (hle : lo ≤ hi)
    (h0 : 0 ≤ lo) (hlen : hi ≤ spectra.length) :
    ∃ out, forLoop lo hi (fun k s => (loadAt s k).bind (fun x => storeAt s k (f x))) spectra
        = some out ∧
      out.length = spectra.length ∧
      ∀ k : Int, loadAt out k =
        if lo ≤ k ∧ k < hi then (loadAt spectra k).map f else loadAt spectra k := by
  have key := forLoop_inv
    (fun (i : Int) (st : List F) => st.length = spectra.length ∧
      ∀ k : Int, loadAt st k =
        if lo ≤ k ∧ k < i then (loadAt spectra k).map f else loadAt spectra k)
    (fun k s => (loadAt s k).bind (fun x => storeAt s k (f x)))
    lo hi spectra hle
    ⟨rfl, fun k => by
      have : ¬ (lo ≤ k ∧ k < lo) := by omega
      rw [if_neg this]⟩
    (by
      intro j st hj0 hj1 ⟨hl, hinv⟩
      obtain ⟨v, hv⟩ := loadAt_of_bounds st j (by omega) (by omega)
      have hs := storeAt_of_bounds st j (f v) (by omega) (by omega)
      refine ⟨st.set j.toNat (f v), ?_, ?_, ?_⟩
      · show (loadAt st j).bind (fun x => storeAt st j (f x)) = _
        rw [hv]; exact hs
      · simp [hl]
      · intro k
        rw [loadAt_storeAt hs k]
        by_cases hk : k = j
        · subst hk
          have c1 : lo ≤ k ∧ k < k + 1 := by omega
          have c2 : ¬ (lo ≤ k ∧ k < k) := by omega
          have hv2 := hinv k
          rw [if_neg c2, hv] at hv2
          rw [if_pos rfl, if_pos c1, ← hv2]
          rfl
        · rw [if_neg hk, hinv]
          by_cases c : lo ≤ k ∧ k < j
          · have c3 : lo ≤ k ∧ k < j + 1 := by omega
            rw [if_pos c, if_pos c3]
          · have c3 : ¬ (lo ≤ k ∧ k < j + 1) := by omega
            rw [if_neg c, if_neg c3])
  exact key

theorem scaleBins_spec {F : Type} [Mul F] (spectra : List F) (lo hi : Int) (scale : F)
    (hle : lo ≤ hi) (h0 : 0 ≤ lo) (hlen : hi ≤ spectra.length) :
    ∃ out, scaleBins spectra lo hi scale = some out ∧
      out.length = spectra.length ∧
      ∀ k : Int, loadAt out k =
        if lo ≤ k ∧ k < hi then (loadAt spectra k).map (fun x => x * scale)
        else loadAt spectra k :=
  mapRange_spec (fun x => x * scale) spectra lo hi hle h0 hlen

theorem mono_of_step (q : Int → Int) (lo hi : Int)
    (hstep : ∀ u, lo ≤ u → u < hi → q u ≤ q (u + 1)) :
    ∀ u v, lo ≤ u → u ≤ v → v ≤ hi → q u ≤ q v := by
  intro u v hu huv hv
  obtain ⟨n, rfl⟩ : ∃ n : Nat, v = u + n := ⟨(v - u).toNat, by omega⟩
  induction n with
  | zero => simp
  | succ n ih =>
    have h1 := ih (by omega) (by omega)
    have h2 := hstep (u + n) (by omega) (by push_cast at hv; omega)
    have e : u + ((n + 1 : Nat) : Int) = u + n + 1 := by push_cast; ring
    rw [e]
    omega

theorem scaleBexQuantUnits_spec {F : Type} [Mul F] (coeffIndex : List Int) (spectra : List F)
    (scales : List (Option F)) (startUnit endUnit : Int) (q : Int → Int) (sc : Int → F)
    (hunits : startUnit ≤ endUnit)
    (hq : ∀ u, startUnit ≤ u → u ≤ endUnit → loadAt coeffIndex u = some (q u))
    (hmono : ∀ u, startUnit ≤ u → u < endUnit → q u ≤ q (u + 1))
    (h0 : 0 ≤ q startUnit) (hlen : q endUnit ≤ spectra.length)
    (hsc : ∀ u, startUnit ≤ u → u < endUnit → q u < q (u + 1) →
      loadInit scales (u - startUnit) = some (sc u)) :
    ∃ out, ScaleBexQuantUnits coeffIndex spectra scales startUnit endUnit = some out ∧
      out.length = spectra.length ∧
      (∀ u k : Int, startUnit ≤ u → u < endUnit → q u ≤ k → k < q (u + 1) →
        loadAt out k = (loadAt spectra k).map (fun x => x * sc u)) ∧
      (∀ k : Int, k < q startUnit ∨ q endUnit ≤ k → loadAt out k = loadAt spectra k) := by
  have hm := mono_of_step q startUnit endUnit hmono
  have key := forLoop_inv
    (fun (i : Int) (st : List F) => st.length = spectra.length ∧
      (∀ u k : Int, startUnit ≤ u → u < i → q u ≤ k → k < q (u + 1) →
        loadAt st k = (loadAt spectra k).map (fun x => x * sc u)) ∧
      (∀ k : Int, k < q startUnit ∨ q i ≤ k → loadAt st k = loadAt spectra k))
    (fun i s => do
      let lo ← loadAt coeffIndex i
      let hi ← loadAt coeffIndex (i + 1)
      forLoop lo hi
        (fun k s => do
          let x ← loadAt s k
          let m ← loadInit scales (i - startUnit)
          storeAt s k (x * m)) s)
    startUnit endUnit spectra hunits
    ⟨rfl, fun u k h1 h2 _ _ => by omega, fun k _ => rfl⟩
    (by
      intro i st hi0 hi1 ⟨hl, hin, hout⟩
      have hqi := hm startUnit i (le_refl _) hi0 (by omega)
      have hqe := hm (i + 1) endUnit (by omega) (by omega) (le_refl _)
      have hstep := hmono i hi0 hi1
      have hbody : (do
            let lo ← loadAt coeffIndex i
            let hi ← loadAt coeffIndex (i + 1)
            forLoop lo hi
              (fun k s => do
                let x ← loadAt s k
                let m ← loadInit scales (i - startUnit)
                storeAt s k (x * m)) st) =
          forLoop (q i) (q (i + 1))
            (fun k s => (loadAt s k).bind (fun x => storeAt s k (x * sc i))) st := by
        rw [hq i hi0 (by omega), hq (i + 1) (by omega) (by omega)]
        by_cases hne : q i < q (i + 1)
        · have hs := hsc i hi0 hi1 hne
          simp only [hs, Option.bind_eq_bind, Option.some_bind]
        · rw [forLoop_empty _ _ _ _ (by omega)]
          simp only [Option.bind_eq_bind, Option.some_bind]
          exact forLoop_empty _ _ _ _ (by omega)
      obtain ⟨st', e1, l1, p1⟩ := mapRange_spec (fun x => x * sc i) st (q i) (q (i + 1))
        hstep (by omega) (by omega)
      refine ⟨st', hbody.trans e1, by omega, ?_, ?_⟩
      · intro u k hu0 hu1 hk0 hk1
        rw [p1]
        by_cases hui : u = i
        · subst hui
          rw [if_pos ⟨hk0, hk1⟩, hout k (Or.inr hk0)]
        · have hle := hm (u + 1) i (by omega) (by omega) (by omega)
          rw [if_neg (by omega), hin u k hu0 (by omega) hk0 hk1]
      · intro k hk
        rw [p1, if_neg (by omega), hout k (by omega)])
  obtain ⟨out, h1, h2, h3, h4⟩ := key
  exact ⟨out, h1, h2, h3, h4⟩

/-- C7. Scale application: over a non-decreasing unit-to-bin map `q` (the
entries of `QuantUnitToCoeffIndex` for the units `startUnit .. endUnit`) whose
bins lie inside the spectrum, `ScaleBexQuantUnits` succeeds, keeps the length,
turns every bin `k` of a unit `u` in `[startUnit, endUnit)` from `x` into
`x * scales[u - startUnit]` (one multiplication), and leaves every bin outside
`[q startUnit, q endUnit)` as it was. -/
theorem scaleBexQuantUnits_postcondition {F : Type} [Mul F] (coeffIndex : List Int)
    (spectra : List F) (scales : List (Option F)) (startUnit endUnit : Int)
    (q : Int → Int) (sc : Int → F)
    (hunits : startUnit ≤ endUnit)
    (hq : ∀ u, startUnit ≤ u → u ≤ endUnit → loadAt coeffIndex u = some (q u))
    (hmono : ∀ u, startUnit ≤ u → u < endUnit → q u ≤ q (u + 1))
    (h0 : 0 ≤ q startUnit) (hlen : q endUnit ≤ spectra.length)
    (hsc : ∀ u, startUnit ≤ u → u < endUnit → loadInit scales (u - startUnit) = some (sc u)) :
    ∃ out, ScaleBexQuantUnits coeffIndex spectra scales startUnit endUnit = some out ∧
      out.length = spectra.length ∧
      (∀ u k : Int, startUnit ≤ u → u < endUnit → q u ≤ k → k < q (u + 1) →
        ∃ x, loadAt spectra k = some x ∧ loadAt out k = some (x * sc u)) ∧
      (∀ k : Int, k < q startUnit ∨ q endUnit ≤ k → loadAt out k = loadAt spectra k) := by
  obtain ⟨out, h1, h2, h3, h4⟩ := scaleBexQuantUnits_spec coeffIndex spectra scales startUnit
    endUnit q sc hunits hq hmono h0 hlen (fun u hu0 hu1 _ => hsc u hu0 hu1)
  have hm := mono_of_step q startUnit endUnit hmono
  refine ⟨out, h1, h2, ?_, h4⟩
  intro u k hu0 hu1 hk0 hk1
  have ha := hm startUnit u (le_refl _) hu0 (by omega)
  have hb := hm (u + 1) endUnit (by omega) (by omega) (le_refl _)
  obtain ⟨x, hx⟩ := loadAt_of_bounds spectra k (by omega) (by omega)
  exact ⟨x, hx, by rw [h3 u k hu0 hu1 hk0 hk1, hx]; rfl⟩

/-- C7 on the units 18 and 19 of `demoTables` (bins 20..21 and 22..23) with the
multipliers 2 and 3. -/
theorem scaleBexQuantUnits_postcondition_witness :
    ((18 : Int) ≤ 20 ∧
      (∀ u : Int, 18 ≤ u → u ≤ 20 →
        loadAt demoTables.QuantUnitToCoeffIndex u = some (demoIndex u)) ∧
      (∀ u : Int, 18 ≤ u → u < 20 → demoIndex u ≤ demoIndex (u + 1)) ∧
      0 ≤ demoIndex 18 ∧ demoIndex 20 ≤ (demoChannel 1).Spectra.length ∧
      (∀ u : Int, 18 ≤ u → u < 20 →
        loadInit [some (2 : ℚ), some 3] (u - 18) = some (if u = 18 then (2 : ℚ) else 3))) ∧
    ∃ out, ScaleBexQuantUnits demoTables.QuantUnitToCoeffIndex (demoChannel 1).Spectra
        [some (2 : ℚ), some 3] 18 20 = some out ∧
      out.length = (demoChannel 1).Spectra.length ∧
      (∀ u k : Int, 18 ≤ u → u < 20 → demoIndex u ≤ k → k < demoIndex (u + 1) →
        ∃ x, loadAt (demoChannel 1).Spectra k = some x ∧
          loadAt out k = some (x * (if u = 18 then (2 : ℚ) else 3))) ∧
      (∀ k : Int, k < demoIndex 18 ∨ demoIndex 20 ≤ k →
        loadAt out k = loadAt (demoChannel 1).Spectra k) :=
  ⟨⟨by decide,
      fun u h0 h1 => by interval_cases u <;> rfl,
      fun u h0 h1 => by interval_cases u <;> decide,
      by decide, by decide,
      fun u h0 h1 => by interval_cases u <;> rfl⟩,
    scaleBexQuantUnits_postcondition demoTables.QuantUnitToCoeffIndex (demoChannel 1).Spectra
      [some (2 : ℚ), some 3] 18 20 demoIndex (fun u => if u = 18 then (2 : ℚ) else 3)
      (by decide)
      (fun u h0 h1 => by interval_cases u <;> rfl)
      (fun u h0 h1 => by interval_cases u <;> decide)
      (by decide) (by decide)
      (fun u h0 h1 => by interval_cases u <;> rfl)⟩

/-! ## The channel routine -/

theorem fillHighFrequencies_spec {F : Type} (spectra : List F) (a b c d : Int)
    (hab : a ≤ b) (hbc : b ≤ c) (hcd : c ≤ d) (hd : d ≤ spectra.length)
    (hA : b - a ≤ a) (hB : c - b ≤ b) (hC : d - c ≤ c) :
    ∃ s1 s2 out, FillHighFrequencies spectra a b c d = some out ∧
      out.length = spectra.length ∧
      (∀ k : Int, loadAt s1 k =
        if a ≤ k ∧ k < b then loadAt spectra (2 * a - 1 - k) else loadAt spectra k) ∧
      (∀ k : Int, loadAt s2 k =
        if b ≤ k ∧ k < c then loadAt s1 (2 * b - 1 - k) else loadAt s1 k) ∧
      (∀ k : Int, loadAt out k =
        if c ≤ k ∧ k < d then loadAt s2 (2 * c - 1 - k) else loadAt s2 k) := by
  obtain ⟨s1, e1, l1, p1⟩ := mirrorLoop_spec spectra a b hab hA (by omega)
  obtain ⟨s2, e2, l2, p2⟩ := mirrorLoop_spec s1 b c hbc hB (by omega)
  obtain ⟨s3, e3, l3, p3⟩ := mirrorLoop_spec s2 c d hcd hC (by omega)
  exact ⟨s1, s2, s3, by simp [FillHighFrequencies, e1, e2, e3], by omega, p1, p2, p3⟩

theorem fillHighFrequencies_ok {F : Type} (spectra : List F) (a b c d : Int)
    (hab : a ≤ b) (hbc : b ≤ c) (hcd : c ≤ d) (hd : d ≤ spectra.length)
    (hA : b - a ≤ a) (hB : c - b ≤ b) (hC : d - c ≤ c) :
    ∃ out, FillHighFrequencies spectra a b c d = some out ∧
      out.length = spectra.length ∧
      ∀ k : Int, k < a → loadAt out k = loadAt spectra k := by
  obtain ⟨s1, s2, out, e, l, p1, p2, p3⟩ :=
    fillHighFrequencies_spec spectra a b c d hab hbc hcd hd hA hB hC
  refine ⟨out, e, l, ?_⟩
  intro k hk
  rw [p3, if_neg (by omega), p2, if_neg (by omega), p1, if_neg (by omega)]

theorem applyBandExtensionChannel_eq {F : Type} [NatCast F] [Div F] [Mul F] [Sub F]
    [OfScientific F] (T : Tables F) (pow : F → F → F) (channel : Channel F) (g : BexGroup)
    (a b c d : Int) (mirrored : List F)
    (hinfo : loadAt T.BexGroupInfo (channel.QuantizationUnitCount - 13) = some g)
    (ha : loadAt T.QuantUnitToCoeffIndex channel.QuantizationUnitCount = some a)
    (hb : loadAt T.QuantUnitToCoeffIndex g.GroupBUnit = some b)
    (hc : loadAt T.QuantUnitToCoeffIndex g.GroupCUnit = some c)
    (hd : loadAt T.QuantUnitToCoeffIndex (max g.GroupCUnit 22) = some d)
    (hfill : FillHighFrequencies channel.Spectra a b c d = some mirrored) :
    ApplyBandExtensionChannel T pow channel =
      bexDispatch T pow { channel with Spectra := mirrored } (List.replicate 6 none)
        g.BandCount channel.QuantizationUnitCount (max g.GroupCUnit 22) a b c d := by
  simp [ApplyBandExtensionChannel, hinfo, ha, hb, hc, hd, hfill]

theorem tableValue_eq {F : Type} (table : List F) (values : List Int) (vi v : Int) (x : F)
    (hv : loadAt values vi = some v) (hx : loadAt table v = some x) :
    tableValue table values vi = some x := by
  simp [tableValue, hv, hx]

/-- C9. Mode 2: with `groupABin ≤ groupBBin ≤ groupCBin ≤ totalBins` inside the
spectrum and valid mirror sources, `ApplyBandExtensionChannel` succeeds and
every bin of `[groupABin, groupBBin)` is its mirrored value times
`BexMode2Scale[values[0]]`, every bin of `[groupBBin, groupCBin)` its mirrored
value times `BexMode2Scale[values[1]]`, every bin of `[groupCBin, totalBins)`
and every bin outside the three regions is the mirrored value itself; the
generator context and the other fields are untouched. -/
theorem mode2_regions {F : Type} [NatCast F] [Div F] [Mul F] [Sub F] [OfScientific F]
    (T : Tables F) (pow : F → F → F) (channel : Channel F) (g : BexGroup)
    (a b c d v0 v1 : Int) (sA sB : F)
    (hmode : channel.BexMode = 2)
    (hinfo : loadAt T.BexGroupInfo (channel.QuantizationUnitCount - 13) = some g)
    (ha : loadAt T.QuantUnitToCoeffIndex channel.QuantizationUnitCount = some a)
    (hb : loadAt T.QuantUnitToCoeffIndex g.GroupBUnit = some b)
    (hc : loadAt T.QuantUnitToCoeffIndex g.GroupCUnit = some c)
    (hd : loadAt T.QuantUnitToCoeffIndex (max g.GroupCUnit 22) = some d)
    (hgeo : a ≤ b ∧ b ≤ c ∧ c ≤ d) (hlen : d ≤ channel.Spectra.length)
    (hsrc : b - a ≤ a ∧ c - b ≤ b ∧ d - c ≤ c)
    (hv0 : loadAt channel.BexValues 0 = some v0) (hv1 : loadAt channel.BexValues 1 = some v1)
    (hsA : loadAt T.BexMode2Scale v0 = some sA) (hsB : loadAt T.BexMode2Scale v1 = some sB) :
    ∃ mirrored out, FillHighFrequencies channel.Spectra a b c d = some mirrored ∧
      ApplyBandExtensionChannel T pow channel = some out ∧
      out.Spectra.length = channel.Spectra.length ∧
      (∀ k : Int, a ≤ k → k < b →
        ∃ x, loadAt mirrored k = some x ∧ loadAt out.Spectra k = some (x * sA)) ∧
      (∀ k : Int, b ≤ k → k < c →
        ∃ x, loadAt mirrored k = some x ∧ loadAt out.Spectra k = some (x * sB)) ∧
      (∀ k : Int, c ≤ k → k < d →
        ∃ x, loadAt mirrored k = some x ∧ loadAt out.Spectra k = some x) ∧
      (∀ k : Int, k < a ∨ d ≤ k → loadAt out.Spectra k = loadAt mirrored k) ∧
      out.Rng = channel.Rng ∧ out.ScaleFactors = channel.ScaleFactors ∧
      out.BexValues = channel.BexValues := by
  obtain ⟨hab, hbc, hcd⟩ := hgeo
  obtain ⟨hA, hB, hC⟩ := hsrc
  obtain ⟨m, hm, lm, _⟩ := fillHighFrequencies_ok channel.Spectra a b c d hab hbc hcd hlen hA hB hC
  obtain ⟨t1, e1, l1, p1⟩ := scaleBins_spec m a b sA hab (by omega) (by omega)
  obtain ⟨t2, e2, l2, p2⟩ := scaleBins_spec t1 b c sB hbc (by omega) (by omega)
  have hrun : ApplyBandExtensionChannel T pow channel = some { channel with Spectra := t2 } := by
    rw [applyBandExtensionChannel_eq T pow channel g a b c d m hinfo ha hb hc hd hm]
    simp [bexDispatch, hmode, bexMode2, tableValue_eq _ _ _ _ _ hv0 hsA,
      tableValue_eq _ _ _ _ _ hv1 hsB, e1, e2]
  refine ⟨m, _, hm, hrun, by simp only; omega, ?_, ?_, ?_, ?_, rfl, rfl, rfl⟩
  · intro k hk0 hk1
    obtain ⟨x, hx⟩ := loadAt_of_bounds m k (by omega) (by omega)
    refine ⟨x, hx, ?_⟩
    show loadAt t2 k = _
    rw [p2, if_neg (by omega), p1, if_pos ⟨hk0, hk1⟩, hx]; rfl
  · intro k hk0 hk1
    obtain ⟨x, hx⟩ := loadAt_of_bounds m k (by omega) (by omega)
    refine ⟨x, hx, ?_⟩
    show loadAt t2 k = _
    rw [p2, if_pos ⟨hk0, hk1⟩, p1, if_neg (by omega), hx]; rfl
  · intro k hk0 hk1
    obtain ⟨x, hx⟩ := loadAt_of_bounds m k (by omega) (by omega)
    refine ⟨x, hx, ?_⟩
    show loadAt t2 k = _
    rw [p2, if_neg (by omega), p1, if_neg (by omega), hx]
  · intro k hk
    show loadAt t2 k = _
    rw [p2, if_neg (by omega), p1, if_neg (by omega)]

/-- C9 at `demoChannel 2`: regions `[20, 30)`, `[30, 32)` and the empty
`[32, 32)`, with the constants `BexMode2Scale[1] = 1/2` and `BexMode2Scale[0] = 1`. -/
theorem mode2_regions_witness :
    ((demoChannel 2).BexMode = 2 ∧
      loadAt demoTables.BexGroupInfo ((demoChannel 2).QuantizationUnitCount - 13)
        = some ⟨4, 23, 24⟩ ∧
      loadAt demoTables.QuantUnitToCoeffIndex (demoChannel 2).QuantizationUnitCount = some 20 ∧
      loadAt demoTables.QuantUnitToCoeffIndex 23 = some 30 ∧
      loadAt demoTables.QuantUnitToCoeffIndex 24 = some 32 ∧
      loadAt demoTables.QuantUnitToCoeffIndex (max 24 22) = some 32 ∧
      ((20 : Int) ≤ 30 ∧ (30 : Int) ≤ 32 ∧ (32 : Int) ≤ 32) ∧
      (32 : Int) ≤ (demoChannel 2).Spectra.length ∧
      ((30 : Int) - 20 ≤ 20 ∧ (32 : Int) - 30 ≤ 30 ∧ (32 : Int) - 32 ≤ 32) ∧
      loadAt (demoChannel 2).BexValues 0 = some 1 ∧
      loadAt (demoChannel 2).BexValues 1 = some 0 ∧
      loadAt demoTables.BexMode2Scale 1 = some (1 / 2) ∧
      loadAt demoTables.BexMode2Scale 0 = some 1) ∧
    ∃ mirrored out, FillHighFrequencies (demoChannel 2).Spectra 20 30 32 32 = some mirrored ∧
      ApplyBandExtensionChannel demoTables (fun _ y => y) (demoChannel 2) = some out ∧
      out.Spectra.length = (demoChannel 2).Spectra.length ∧
      (∀ k : Int, 20 ≤ k → k < 30 →
        ∃ x, loadAt mirrored k = some x ∧ loadAt out.Spectra k = some (x * (1 / 2))) ∧
      (∀ k : Int, 30 ≤ k → k < 32 →
        ∃ x, loadAt mirrored k = some x ∧ loadAt out.Spectra k = some (x * 1)) ∧
      (∀ k : Int, 32 ≤ k → k < 32 →
        ∃ x, loadAt mirrored k = some x ∧ loadAt out.Spectra k = some x) ∧
      (∀ k : Int, k < 20 ∨ 32 ≤ k → loadAt out.Spectra k = loadAt mirrored k) ∧
      out.Rng = (demoChannel 2).Rng ∧ out.ScaleFactors = (demoChannel 2).ScaleFactors ∧
      out.BexValues = (demoChannel 2).BexValues :=
  ⟨⟨rfl, rfl, rfl, rfl, rfl, rfl, by decide, by decide, by decide, rfl, rfl, rfl, rfl⟩,
    mode2_regions demoTables (fun _ y => y) (demoChannel 2) ⟨4, 23, 24⟩ 20 30 32 32 1 0
      (1 / 2) 1 rfl rfl rfl rfl rfl rfl (by decide) (by decide) (by decide) rfl rfl rfl rfl⟩

/-- C10. Mode 4: with `m = BexMode4Multiplier[values[0]]` and
`groupABin ≤ groupBBin ≤ groupCBin ≤ totalBins` inside the spectrum and valid
mirror sources, `ApplyBandExtensionChannel` succeeds and every bin of
`[groupABin, groupBBin)` is its mirrored value times `0.7079468 * m`, every bin
of `[groupBBin, groupCBin)` its mirrored value times `0.5011902 * m`, every bin
of `[groupCBin, totalBins)` its mirrored value times `0.3548279 * m`: one
multiplication per bin of `[groupABin, totalBins)`, none outside; the generator
context is untouched. -/
theorem mode4_regions {F : Type} [NatCast F] [Div F] [Mul F] [Sub F] [OfScientific F]
    (T : Tables F) (pow : F → F → F) (channel : Channel F) (g : BexGroup)
    (a b c d v0 : Int) (m : F)
    (hmode : channel.BexMode = 4)
    (hinfo : loadAt T.BexGroupInfo (channel.QuantizationUnitCount - 13) = some g)
    (ha : loadAt T.QuantUnitToCoeffIndex channel.QuantizationUnitCount = some a)
    (hb : loadAt T.QuantUnitToCoeffIndex g.GroupBUnit = some b)
    (hc : loadAt T.QuantUnitToCoeffIndex g.GroupCUnit = some c)
    (hd : loadAt T.QuantUnitToCoeffIndex (max g.GroupCUnit 22) = some d)
    (hgeo : a ≤ b ∧ b ≤ c ∧ c ≤ d) (hlen : d ≤ channel.Spectra.length)
    (hsrc : b - a ≤ a ∧ c - b ≤ b ∧ d - c ≤ c)
    (hv0 : loadAt channel.BexValues 0 = some v0)
    (hm : loadAt T.BexMode4Multiplier v0 = some m) :
    ∃ mirrored out, FillHighFrequencies channel.Spectra a b c d = some mirrored ∧
      ApplyBandExtensionChannel T pow channel = some out ∧
      out.Spectra.length = channel.Spectra.length ∧
      (∀ k : Int, a ≤ k → k < b →
        ∃ x, loadAt mirrored k = some x ∧ loadAt out.Spectra k = some (x * (0.7079468 * m))) ∧
      (∀ k : Int, b ≤ k → k < c →
        ∃ x, loadAt mirrored k = some x ∧ loadAt out.Spectra k = some (x * (0.5011902 * m))) ∧
      (∀ k : Int, c ≤ k → k < d →
        ∃ x, loadAt mirrored k = some x ∧ loadAt out.Spectra k = some (x * (0.3548279 * m))) ∧
      (∀ k : Int, k < a ∨ d ≤ k → loadAt out.Spectra k = loadAt mirrored k) ∧
      out.Rng = channel.Rng := by
  obtain ⟨hab, hbc, hcd⟩ := hgeo
  obtain ⟨hA, hB, hC⟩ := hsrc
  obtain ⟨mir, hmir, lm, _⟩ :=
    fillHighFrequencies_ok channel.Spectra a b c d hab hbc hcd hlen hA hB hC
  obtain ⟨t1, e1, l1, p1⟩ := scaleBins_spec mir a b (0.7079468 * m) hab (by omega) (by omega)
  obtain ⟨t2, e2, l2, p2⟩ := scaleBins_spec t1 b c (0.5011902 * m) hbc (by omega) (by omega)
  obtain ⟨t3, e3, l3, p3⟩ := scaleBins_spec t2 c d (0.3548279 * m) hcd (by omega) (by omega)
  have hrun : ApplyBandExtensionChannel T pow channel = some { channel with Spectra := t3 } := by
    rw [applyBandExtensionChannel_eq T pow channel g a b c d mir hinfo ha hb hc hd hmir]
    simp [bexDispatch, hmode, bexMode4, tableValue_eq _ _ _ _ _ hv0 hm, e1, e2, e3]
  refine ⟨mir, _, hmir, hrun, by simp only; omega, ?_, ?_, ?_, ?_, rfl⟩
  · intro k hk0 hk1
    obtain ⟨x, hx⟩ := loadAt_of_bounds mir k (by omega) (by omega)
    refine ⟨x, hx, ?_⟩
    show loadAt t3 k = _
    rw [p3, if_neg (by omega), p2, if_neg (by omega), p1, if_pos ⟨hk0, hk1⟩, hx]; rfl
  · intro k hk0 hk1
    obtain ⟨x, hx⟩ := loadAt_of_bounds mir k (by omega) (by omega)
    refine ⟨x, hx, ?_⟩
    show loadAt t3 k = _
    rw [p3, if_neg (by omega), p2, if_pos ⟨hk0, hk1⟩, p1, if_neg (by omega), hx]; rfl
  · intro k hk0 hk1
    obtain ⟨x, hx⟩ := loadAt_of_bounds mir k (by omega) (by omega)
    refine ⟨x, hx, ?_⟩
    show loadAt t3 k = _
    rw [p3, if_pos ⟨hk0, hk1⟩, p2, if_neg (by omega), p1, if_neg (by omega), hx]; rfl
  · intro k hk
    show loadAt t3 k = _
    rw [p3, if_neg (by omega), p2, if_neg (by omega), p1, if_neg (by omega)]

/-- C10 at `demoChannel 4`: regions `[20, 30)`, `[30, 32)`, `[32, 32)` and the
multiplier `BexMode4Multiplier[1] = 1/2`. -/
theorem mode4_regions_witness :
    ((demoChannel 4).BexMode = 4 ∧
      loadAt demoTables.BexGroupInfo ((demoChannel 4).QuantizationUnitCount - 13)
        = some ⟨4, 23, 24⟩ ∧
      loadAt demoTables.QuantUnitToCoeffIndex (demoChannel 4).QuantizationUnitCount = some 20 ∧
      loadAt demoTables.QuantUnitToCoeffIndex 23 = some 30 ∧
      loadAt demoTables.QuantUnitToCoeffIndex 24 = some 32 ∧
      loadAt demoTables.QuantUnitToCoeffIndex (max 24 22) = some 32 ∧
      ((20 : Int) ≤ 30 ∧ (30 : Int) ≤ 32 ∧ (32 : Int) ≤ 32) ∧
      (32 : Int) ≤ (demoChannel 4).Spectra.length ∧
      ((30 : Int) - 20 ≤ 20 ∧ (32 : Int) - 30 ≤ 30 ∧ (32 : Int) - 32 ≤ 32) ∧
      loadAt (demoChannel 4).BexValues 0 = some 1 ∧
      loadAt demoTables.BexMode4Multiplier 1 = some (1 / 2)) ∧
    ∃ mirrored out, FillHighFrequencies (demoChannel 4).Spectra 20 30 32 32 = some mirrored ∧
      ApplyBandExtensionChannel demoTables (fun _ y => y) (demoChannel 4) = some out ∧
      out.Spectra.length = (demoChannel 4).Spectra.length ∧
      (∀ k : Int, 20 ≤ k → k < 30 →
        ∃ x, loadAt mirrored k = some x ∧
          loadAt out.Spectra k = some (x * (0.7079468 * (1 / 2)))) ∧
      (∀ k : Int, 30 ≤ k → k < 32 →
        ∃ x, loadAt mirrored k = some x ∧
          loadAt out.Spectra k = some (x * (0.5011902 * (1 / 2)))) ∧
      (∀ k : Int, 32 ≤ k → k < 32 →
        ∃ x, loadAt mirrored k = some x ∧
          loadAt out.Spectra k = some (x * (0.3548279 * (1 / 2)))) ∧
      (∀ k : Int, k < 20 ∨ 32 ≤ k → loadAt out.Spectra k = loadAt mirrored k) ∧
      out.Rng = (demoChannel 4).Rng :=
  ⟨⟨rfl, rfl, rfl, rfl, rfl, rfl, by decide, by decide, by decide, rfl, rfl⟩,
    mode4_regions demoTables (fun _ y => y) (demoChannel 4) ⟨4, 23, 24⟩ 20 30 32 32 1
      (1 / 2) rfl rfl rfl rfl rfl rfl (by decide) (by decide) (by decide) rfl rfl⟩

theorem unit_of_bin (q : Int → Int) (lo hi : Int)
    (hmono : ∀ u, lo ≤ u → u < hi → q u ≤ q (u + 1)) :
    ∀ (n : Nat) (k : Int), hi = lo + n → q lo ≤ k → k < q hi →
      ∃ u, lo ≤ u ∧ u < hi ∧ q u ≤ k ∧ k < q (u + 1) := by
  intro n
  induction n generalizing hi with
  | zero =>
    intro k h h0 h1
    simp at h
    subst h
    omega
  | succ n ih =>
    intro k h h0 h1
    have e : hi = (lo + n) + 1 := by rw [h]; push_cast; ring
    by_cases hk : k < q (lo + n)
    · obtain ⟨u, hu0, hu1, hu2, hu3⟩ := ih (lo + n)
        (fun u a b => hmono u a (by omega)) k rfl h0 hk
      exact ⟨u, hu0, by omega, hu2, hu3⟩
    · exact ⟨lo + n, by omega, by omega, by omega, by rw [← e]; exact h1⟩

theorem mode1Scales_spec {F : Type} (T : Tables F) (scaleFactors : List Int) (lo hi : Int)
    (sfv : Int → Int) (lin : Int → F) (hle : lo ≤ hi) (hn : hi - lo ≤ 6)
    (hsf : ∀ u, lo ≤ u → u < hi → loadAt scaleFactors u = some (sfv u))
    (hlin : ∀ u, lo ≤ u → u < hi → loadAt T.SpectrumScale (sfv u) = some (lin u)) :
    ∃ sc, mode1Scales T scaleFactors lo hi (List.replicate 6 none) = some sc ∧
      ∀ u, lo ≤ u → u < hi → loadInit sc (u - lo) = some (lin u) := by
  have key := forLoop_inv
    (fun (i : Int) (sc : List (Option F)) => sc.length = 6 ∧
      ∀ u, lo ≤ u → u < i → loadAt sc (u - lo) = some (some (lin u)))
    (fun i sc =>
      (loadAt scaleFactors i).bind fun sf =>
        (loadAt T.SpectrumScale sf).bind fun v => storeAt sc (i - lo) (some v))
    lo hi (List.replicate 6 none) hle
    ⟨by simp, fun u h0 h1 => by omega⟩
    (by
      intro j sc hj0 hj1 ⟨hl, hinv⟩
      have hs := storeAt_of_bounds sc (j - lo) (some (lin j)) (by omega) (by omega)
      refine ⟨sc.set (j - lo).toNat (some (lin j)), ?_, by simp [hl], ?_⟩
      · show (loadAt scaleFactors j).bind _ = _
        rw [hsf j hj0 hj1]
        show (loadAt T.SpectrumScale (sfv j)).bind _ = _
        rw [hlin j hj0 hj1]
        exact hs
      · intro u hu0 hu1
        rw [loadAt_storeAt hs]
        by_cases hu : u = j
        · subst hu
          rw [if_pos rfl]
        · rw [if_neg (by omega), hinv u hu0 (by omega)])
  obtain ⟨sc, h1, _, h3⟩ := key
  refine ⟨sc, h1, ?_⟩
  intro u hu0 hu1
  simp [loadInit, h3 u hu0 hu1]

theorem bexDispatch_mode1 {F : Type} [NatCast F] [Div F] [Mul F] [Sub F] [OfScientific F]
    (T : Tables F) (pow : F → F → F) (channel : Channel F) (scales : List (Option F))
    (bandCount groupAUnit totalUnits a b c d : Int) (hmode : channel.BexMode = 1) :
    bexDispatch T pow channel scales bandCount groupAUnit totalUnits a b c d =
      bexMode1 T channel scales groupAUnit totalUnits a d := by
  simp [bexDispatch, hmode]

theorem bexMode1_eq {F : Type} [NatCast F] [Div F] [Mul F] [Sub F] [OfScientific F]
    (T : Tables F) (channel ch1 : Channel F) (scales sc : List (Option F)) (fin : List F)
    (groupAUnit totalUnits a d : Int)
    (hsc : mode1Scales T channel.ScaleFactors groupAUnit totalUnits scales = some sc)
    (hnoise : AddNoiseToSpectrum channel a (d - a) = some ch1)
    (hfin : ScaleBexQuantUnits T.QuantUnitToCoeffIndex ch1.Spectra sc groupAUnit totalUnits
      = some fin) :
    bexMode1 T channel scales groupAUnit totalUnits a d = some { ch1 with Spectra := fin } := by
  simp [bexMode1, hsc, hnoise, hfin]

theorem applyBandExtensionChannel_mode1 {F : Type} [NatCast F] [Div F] [Mul F] [Sub F]
    [OfScientific F] (T : Tables F) (pow : F → F → F) (channel : Channel F) (g : BexGroup)
    (b c : Int) (q sfv : Int → Int) (lin : Int → F) (seed : Nat)
    (hmode : channel.BexMode = 1)
    (hinit : channel.Rng.Initialized = false)
    (hinfo : loadAt T.BexGroupInfo (channel.QuantizationUnitCount - 13) = some g)
    (hn : 1 ≤ max g.GroupCUnit 22 - channel.QuantizationUnitCount ∧
      max g.GroupCUnit 22 - channel.QuantizationUnitCount ≤ 6)
    (hq : ∀ u, channel.QuantizationUnitCount ≤ u → u ≤ max g.GroupCUnit 22 →
      loadAt T.QuantUnitToCoeffIndex u = some (q u))
    (hmono : ∀ u, channel.QuantizationUnitCount ≤ u → u < max g.GroupCUnit 22 →
      q u ≤ q (u + 1))
    (hb : loadAt T.QuantUnitToCoeffIndex g.GroupBUnit = some b)
    (hc : loadAt T.QuantUnitToCoeffIndex g.GroupCUnit = some c)
    (hgeo : q channel.QuantizationUnitCount ≤ b ∧ b ≤ c ∧ c ≤ q (max g.GroupCUnit 22))
    (hlen : q (max g.GroupCUnit 22) ≤ channel.Spectra.length)
    (hsrc : b - q channel.QuantizationUnitCount ≤ q channel.QuantizationUnitCount ∧
      c - b ≤ b ∧ q (max g.GroupCUnit 22) - c ≤ c)
    (hsf : ∀ u, channel.QuantizationUnitCount ≤ u → u < max g.GroupCUnit 22 →
      loadAt channel.ScaleFactors u = some (sfv u))
    (hlin : ∀ u, channel.QuantizationUnitCount ≤ u → u < max g.GroupCUnit 22 →
      loadAt T.SpectrumScale (sfv u) = some (lin u))
    (hseed : noiseSeed channel.ScaleFactors = some seed) :
    ∃ out, ApplyBandExtensionChannel T pow channel = some out ∧
      out.Spectra.length = channel.Spectra.length ∧
      out.Rng = rngAfter (RngInit channel.Rng seed)
        (q (max g.GroupCUnit 22) - q channel.QuantizationUnitCount).toNat ∧
      ∀ u k : Int, channel.QuantizationUnitCount ≤ u → u < max g.GroupCUnit 22 →
        q u ≤ k → k < q (u + 1) →
        loadAt out.Spectra k = some (noiseSample (rngOutput (RngInit channel.Rng seed)
          (k - q channel.QuantizationUnitCount).toNat) * lin u) := by
  obtain ⟨hab, hbc, hcd⟩ := hgeo
  obtain ⟨hA, hB, hC⟩ := hsrc
  obtain ⟨hn1, hn6⟩ := hn
  have hm := mono_of_step q _ _ hmono
  obtain ⟨mir, hmir, lm, _⟩ :=
    fillHighFrequencies_ok channel.Spectra _ b c _ hab hbc hcd hlen hA hB hC
  obtain ⟨sc, hsc, psc⟩ := mode1Scales_spec T channel.ScaleFactors _ _ sfv lin
    (by omega) hn6 hsf hlin
  obtain ⟨ch1, hch1, _, _, _, _, hrng, l1, p1⟩ := noiseLoop_spec
    ({ channel with Spectra := mir, Rng := RngInit channel.Rng seed })
    (q channel.QuantizationUnitCount) (q (max g.GroupCUnit 22) - q channel.QuantizationUnitCount)
    (by omega) (by omega) (by simp only; omega)
  have hnoise : AddNoiseToSpectrum ({ channel with Spectra := mir })
      (q channel.QuantizationUnitCount)
      (q (max g.GroupCUnit 22) - q channel.QuantizationUnitCount) = some ch1 := by
    rw [addNoise_of_uninitialized ({ channel with Spectra := mir }) _ _ seed hinit hseed]
    exact hch1
  obtain ⟨fin, hfin, lf, pf, _⟩ := scaleBexQuantUnits_spec T.QuantUnitToCoeffIndex ch1.Spectra sc
    channel.QuantizationUnitCount (max g.GroupCUnit 22) q lin (by omega) hq hmono (by omega)
    (by simp only at l1; omega) (fun u h0 h1 _ => psc u h0 h1)
  have hrun : ApplyBandExtensionChannel T pow channel = some { ch1 with Spectra := fin } := by
    rw [applyBandExtensionChannel_eq T pow channel g _ b c _ mir hinfo
      (hq _ (le_refl _) (by omega)) hb hc (hq _ (by omega) (le_refl _)) hmir]
    rw [bexDispatch_mode1 T pow ({ channel with Spectra := mir }) _ _ _ _ _ _ _ _ hmode]
    exact bexMode1_eq T ({ channel with Spectra := mir }) ch1 _ sc fin _ _ _ _ hsc hnoise hfin
  refine ⟨_, hrun, by simp only at l1 ⊢; omega, hrng, ?_⟩
  intro u k hu0 hu1 hk0 hk1
  have h1 := hm _ u (le_refl _) hu0 (by omega)
  have h2 := hm (u + 1) _ (by omega) (by omega) (le_refl _)
  show loadAt fin k = _
  rw [pf u k hu0 hu1 hk0 hk1, p1 k, if_pos (by omega)]
  rfl

theorem noiseSample_rat_two (r : Nat) :
    noiseSample (F := ℚ) r = 2 * (r : ℚ) / 65535 - 1 := by
  rw [noiseSample_rat]
  ring

/-- C6. Mode 1 end to end: for a channel in mode 1 whose generator is not
initialised, over a non-decreasing unit-to-bin map `q` and with
`1 ≤ totalUnits - quantizationUnitCount ≤ 6` (all accesses in bounds),
`ApplyBandExtensionChannel` succeeds and every bin `groupABin + j` of
`[groupABin, totalBins)` lies in a unit `u` and equals
`(2 * r_j / 65535 - 1) * SpectrumScale[scaleFactors[u]]`, where `r_j` is output
number `j + 1` of the generator seeded from `sf[8]`, `sf[12]`, `sf[15]`; the
region is the same for every other input spectrum of the same length. -/
theorem mode1_end_to_end (T : Tables ℚ) (pow : ℚ → ℚ → ℚ) (channel : Channel ℚ)
    (g : BexGroup) (b c : Int) (q sfv : Int → Int) (lin : Int → ℚ) (seed : Nat)
    (hmode : channel.BexMode = 1)
    (hinit : channel.Rng.Initialized = false)
    (hinfo : loadAt T.BexGroupInfo (channel.QuantizationUnitCount - 13) = some g)
    (hn : 1 ≤ max g.GroupCUnit 22 - channel.QuantizationUnitCount ∧
      max g.GroupCUnit 22 - channel.QuantizationUnitCount ≤ 6)
    (hq : ∀ u, channel.QuantizationUnitCount ≤ u → u ≤ max g.GroupCUnit 22 →
      loadAt T.QuantUnitToCoeffIndex u = some (q u))
    (hmono : ∀ u, channel.QuantizationUnitCount ≤ u → u < max g.GroupCUnit 22 →
      q u ≤ q (u + 1))
    (hb : loadAt T.QuantUnitToCoeffIndex g.GroupBUnit = some b)
    (hc : loadAt T.QuantUnitToCoeffIndex g.GroupCUnit = some c)
    (hgeo : q channel.QuantizationUnitCount ≤ b ∧ b ≤ c ∧ c ≤ q (max g.GroupCUnit 22))
    (hlen : q (max g.GroupCUnit 22) ≤ channel.Spectra.length)
    (hsrc : b - q channel.QuantizationUnitCount ≤ q channel.QuantizationUnitCount ∧
      c - b ≤ b ∧ q (max g.GroupCUnit 22) - c ≤ c)
    (hsf : ∀ u, channel.QuantizationUnitCount ≤ u → u < max g.GroupCUnit 22 →
      loadAt channel.ScaleFactors u = some (sfv u))
    (hlin : ∀ u, channel.QuantizationUnitCount ≤ u → u < max g.GroupCUnit 22 →
      loadAt T.SpectrumScale (sfv u) = some (lin u))
    (hseed : noiseSeed channel.ScaleFactors = some seed) :
    ∃ out, ApplyBandExtensionChannel T pow channel = some out ∧
      (∀ j : Int, 0 ≤ j →
        j < q (max g.GroupCUnit 22) - q channel.QuantizationUnitCount →
        ∃ u, channel.QuantizationUnitCount ≤ u ∧ u < max g.GroupCUnit 22 ∧
          q u ≤ q channel.QuantizationUnitCount + j ∧
          q channel.QuantizationUnitCount + j < q (u + 1) ∧
          loadAt out.Spectra (q channel.QuantizationUnitCount + j) =
            some ((2 * (rngOutput (RngInit channel.Rng seed) j.toNat : ℚ) / 65535 - 1)
              * lin u)) ∧
      ∀ other : List ℚ, other.length = channel.Spectra.length →
        ∃ out2, ApplyBandExtensionChannel T pow { channel with Spectra := other } = some out2 ∧
          ∀ k : Int, q channel.QuantizationUnitCount ≤ k → k < q (max g.GroupCUnit 22) →
            loadAt out2.Spectra k = loadAt out.Spectra k := by
  obtain ⟨out, hout, _, _, pout⟩ := applyBandExtensionChannel_mode1 T pow channel g b c q sfv
    lin seed hmode hinit hinfo hn hq hmono hb hc hgeo hlen hsrc hsf hlin hseed
  have htile := unit_of_bin q channel.QuantizationUnitCount (max g.GroupCUnit 22) hmono
    (max g.GroupCUnit 22 - channel.QuantizationUnitCount).toNat
  refine ⟨out, hout, ?_, ?_⟩
  · intro j hj0 hj1
    obtain ⟨u, hu0, hu1, hu2, hu3⟩ := htile (q channel.QuantizationUnitCount + j)
      (by omega) (by omega) (by omega)
    refine ⟨u, hu0, hu1, hu2, hu3, ?_⟩
    rw [pout u _ hu0 hu1 hu2 hu3, noiseSample_rat_two]
    have e : q channel.QuantizationUnitCount + j - q channel.QuantizationUnitCount = j := by
      ring
    rw [e]
  · intro other hother
    obtain ⟨out2, hout2, _, _, pout2⟩ := applyBandExtensionChannel_mode1 T pow
      ({ channel with Spectra := other }) g b c q sfv lin seed hmode hinit hinfo hn hq hmono
      hb hc hgeo (by simp only; omega) hsrc hsf hlin hseed
    refine ⟨out2, hout2, ?_⟩
    intro k hk0 hk1
    obtain ⟨u, hu0, hu1, hu2, hu3⟩ := htile k (by omega) hk0 hk1
    rw [pout u k hu0 hu1 hu2 hu3, pout2 u k hu0 hu1 hu2 hu3]

/-- C6 at `demoChannel 1` over `demoTables`: units 18..23, bins 20..31, every
scale factor of the region 3 (`SpectrumScale[3] = 2`), seed 3801. -/
theorem mode1_end_to_end_witness :
    ((demoChannel 1).BexMode = 1 ∧ (demoChannel 1).Rng.Initialized = false ∧
      loadAt demoTables.BexGroupInfo ((demoChannel 1).QuantizationUnitCount - 13)
        = some ⟨4, 23, 24⟩ ∧
      (1 ≤ max (24 : Int) 22 - (demoChannel 1).QuantizationUnitCount ∧
        max (24 : Int) 22 - (demoChannel 1).QuantizationUnitCount ≤ 6) ∧
      (∀ u, (demoChannel 1).QuantizationUnitCount ≤ u → u ≤ max (24 : Int) 22 →
        loadAt demoTables.QuantUnitToCoeffIndex u = some (demoIndex u)) ∧
      (∀ u, (demoChannel 1).QuantizationUnitCount ≤ u → u < max (24 : Int) 22 →
        demoIndex u ≤ demoIndex (u + 1)) ∧
      loadAt demoTables.QuantUnitToCoeffIndex 23 = some 30 ∧
      loadAt demoTables.QuantUnitToCoeffIndex 24 = some 32 ∧
      (demoIndex (demoChannel 1).QuantizationUnitCount ≤ 30 ∧ (30 : Int) ≤ 32 ∧
        32 ≤ demoIndex (max (24 : Int) 22)) ∧
      demoIndex (max (24 : Int) 22) ≤ (demoChannel 1).Spectra.length ∧
      (30 - demoIndex (demoChannel 1).QuantizationUnitCount
          ≤ demoIndex (demoChannel 1).QuantizationUnitCount ∧
        (32 : Int) - 30 ≤ 30 ∧ demoIndex (max (24 : Int) 22) - 32 ≤ 32) ∧
      (∀ u, (demoChannel 1).QuantizationUnitCount ≤ u → u < max (24 : Int) 22 →
        loadAt (demoChannel 1).ScaleFactors u = some 3) ∧
      (∀ u : Int, (demoChannel 1).QuantizationUnitCount ≤ u → u < max (24 : Int) 22 →
        loadAt demoTables.SpectrumScale 3 = some 2) ∧
      noiseSeed (demoChannel 1).ScaleFactors = some 3801) ∧
    ∃ out, ApplyBandExtensionChannel demoTables (fun _ y => y) (demoChannel 1) = some out ∧
      (∀ j : Int, 0 ≤ j →
        j < demoIndex (max (24 : Int) 22) - demoIndex (demoChannel 1).QuantizationUnitCount →
        ∃ u, (demoChannel 1).QuantizationUnitCount ≤ u ∧ u < max (24 : Int) 22 ∧
          demoIndex u ≤ demoIndex (demoChannel 1).QuantizationUnitCount + j ∧
          demoIndex (demoChannel 1).QuantizationUnitCount + j < demoIndex (u + 1) ∧
          loadAt out.Spectra (demoIndex (demoChannel 1).QuantizationUnitCount + j) =
            some ((2 * (rngOutput (RngInit (demoChannel 1).Rng 3801) j.toNat : ℚ) / 65535 - 1)
              * 2)) ∧
      ∀ other : List ℚ, other.length = (demoChannel 1).Spectra.length →
        ∃ out2, ApplyBandExtensionChannel demoTables (fun _ y => y)
            { demoChannel 1 with Spectra := other } = some out2 ∧
          ∀ k : Int, demoIndex (demoChannel 1).QuantizationUnitCount ≤ k →
            k < demoIndex (max (24 : Int) 22) →
            loadAt out2.Spectra k = loadAt out.Spectra k :=
  ⟨⟨rfl, rfl, rfl, by decide,
      fun u h0 h1 => by
        have h2 : (18 : Int) ≤ u := h0
        have h3 : u ≤ 24 := h1
        interval_cases u <;> rfl,
      fun u h0 h1 => by
        have h2 : (18 : Int) ≤ u := h0
        have h3 : u < 24 := h1
        interval_cases u <;> decide,
      rfl, rfl, by decide, by decide, by decide,
      fun u h0 h1 => by
        have h2 : (18 : Int) ≤ u := h0
        have h3 : u < 24 := h1
        interval_cases u <;> rfl,
      fun _ _ _ => rfl, by decide⟩,
    mode1_end_to_end demoTables (fun _ y => y) (demoChannel 1) ⟨4, 23, 24⟩ 30 32 demoIndex
      (fun _ => 3) (fun _ => 2) 3801 rfl rfl rfl (by decide)
      (fun u h0 h1 => by
        have h2 : (18 : Int) ≤ u := h0
        have h3 : u ≤ 24 := h1
        interval_cases u <;> rfl)
      (fun u h0 h1 => by
        have h2 : (18 : Int) ≤ u := h0
        have h3 : u < 24 := h1
        interval_cases u <;> decide)
      rfl rfl (by decide) (by decide) (by decide)
      (fun u h0 h1 => by
        have h2 : (18 : Int) ≤ u := h0
        have h3 : u < 24 := h1
        interval_cases u <;> rfl)
      (fun _ _ _ => rfl) (by decide)⟩

theorem assignScale_eq {F : Type} (scales : List (Option F)) (slot : Int)
    (table : List (List F)) (row : Int) (values : List Int) (vi : Int) (x : F)
    (hx : bandValue table row values vi = some x) (h0 : 0 ≤ slot) (h1 : slot < scales.length) :
    assignScale scales slot table row values vi = some (scales.set slot.toNat (some x)) := by
  simp only [assignScale, hx, Option.some_bind]
  exact storeAt_of_bounds scales slot (some x) h0 h1

theorem fiveScales {F : Type} (t : List (List F)) (values : List Int) (v0 v1 v2 v3 v4 : Int)
    (h : ∀ p ∈ [((0 : Int), v0), (1, v1), (2, v2), (3, v3), (4, v4)],
      (bandValue t p.1 values p.2).isSome) :
    ∃ x0 x1 x2 x3 x4,
      ((assignScale (List.replicate 6 none) 0 t 0 values v0).bind fun scales =>
        (assignScale scales 1 t 1 values v1).bind fun scales =>
        (assignScale scales 2 t 2 values v2).bind fun scales =>
        (assignScale scales 3 t 3 values v3).bind fun scales =>
        assignScale scales 4 t 4 values v4) =
      some [some x0, some x1, some x2, some x3, some x4, none] := by
  obtain ⟨x0, h0⟩ := Option.isSome_iff_exists.mp (h (0, v0) (by simp))
  obtain ⟨x1, h1⟩ := Option.isSome_iff_exists.mp (h (1, v1) (by simp))
  obtain ⟨x2, h2⟩ := Option.isSome_iff_exists.mp (h (2, v2) (by simp))
  obtain ⟨x3, h3⟩ := Option.isSome_iff_exists.mp (h (3, v3) (by simp))
  obtain ⟨x4, h4⟩ := Option.isSome_iff_exists.mp (h (4, v4) (by simp))
  refine ⟨x0, x1, x2, x3, x4, ?_⟩
  rw [assignScale_eq _ 0 t 0 values v0 x0 h0 (by decide) (by simp), Option.some_bind,
    assignScale_eq _ 1 t 1 values v1 x1 h1 (by decide) (by simp), Option.some_bind,
    assignScale_eq _ 2 t 2 values v2 x2 h2 (by decide) (by simp), Option.some_bind,
    assignScale_eq _ 3 t 3 values v3 x3 h3 (by decide) (by simp), Option.some_bind,
    assignScale_eq _ 4 t 4 values v4 x4 h4 (by decide) (by simp)]
  rfl

theorem threeScales {F : Type} (t : List (List F)) (values : List Int) (v0 v1 v2 : Int)
    (h : ∀ p ∈ [((0 : Int), v0), (1, v1), (2, v2)], (bandValue t p.1 values p.2).isSome) :
    ∃ x0 x1 x2,
      ((assignScale (List.replicate 6 none) 0 t 0 values v0).bind fun scales =>
        (assignScale scales 1 t 1 values v1).bind fun scales =>
        assignScale scales 2 t 2 values v2) =
      some [some x0, some x1, some x2, none, none, none] := by
  obtain ⟨x0, h0⟩ := Option.isSome_iff_exists.mp (h (0, v0) (by simp))
  obtain ⟨x1, h1⟩ := Option.isSome_iff_exists.mp (h (1, v1) (by simp))
  obtain ⟨x2, h2⟩ := Option.isSome_iff_exists.mp (h (2, v2) (by simp))
  refine ⟨x0, x1, x2, ?_⟩
  rw [assignScale_eq _ 0 t 0 values v0 x0 h0 (by decide) (by simp), Option.some_bind,
    assignScale_eq _ 1 t 1 values v1 x1 h1 (by decide) (by simp), Option.some_bind,
    assignScale_eq _ 2 t 2 values v2 x2 h2 (by decide) (by simp)]
  rfl

theorem mode0Scales_spec {F : Type} (T : Tables F) (values : List Int) (bandCount : Int)
    (hbc : bandCount = 3 ∨ bandCount = 4 ∨ bandCount = 5)
    (h3 : bandCount = 3 → ∀ p ∈ [((0 : Int), (0 : Int)), (1, 0), (2, 1), (3, 2), (4, 3)],
      (bandValue T.BexMode0Bands3 p.1 values p.2).isSome)
    (h4 : bandCount = 4 → ∀ p ∈ [((0 : Int), (0 : Int)), (1, 0), (2, 1), (3, 2), (4, 3)],
      (bandValue T.BexMode0Bands4 p.1 values p.2).isSome)
    (h5 : bandCount = 5 → ∀ p ∈ [((0 : Int), (0 : Int)), (1, 1), (2, 1)],
      (bandValue T.BexMode0Bands5 p.1 values p.2).isSome) :
    ∃ sc, mode0Scales T values bandCount (List.replicate 6 none) = some sc ∧
      sc.length = 6 ∧
      ∀ i : Int, 0 ≤ i → i < (if bandCount = 5 then 3 else 5) →
        ∃ m, loadInit sc i = some m := by
  rcases hbc with h | h | h
  · obtain ⟨x0, x1, x2, x3, x4, hx⟩ := fiveScales T.BexMode0Bands3 values 0 0 1 2 3 (h3 h)
    refine ⟨[some x0, some x1, some x2, some x3, some x4, none],
      by simpa [mode0Scales, h] using hx, rfl, ?_⟩
    intro i hi0 hi1
    rw [if_neg (by omega)] at hi1
    interval_cases i <;> exact ⟨_, rfl⟩
  · obtain ⟨x0, x1, x2, x3, x4, hx⟩ := fiveScales T.BexMode0Bands4 values 0 0 1 2 3 (h4 h)
    refine ⟨[some x0, some x1, some x2, some x3, some x4, none],
      by simpa [mode0Scales, h] using hx, rfl, ?_⟩
    intro i hi0 hi1
    rw [if_neg (by omega)] at hi1
    interval_cases i <;> exact ⟨_, rfl⟩
  · obtain ⟨x0, x1, x2, hx⟩ := threeScales T.BexMode0Bands5 values 0 1 1 (h5 h)
    refine ⟨[some x0, some x1, some x2, none, none, none],
      by simpa [mode0Scales, h] using hx, rfl, ?_⟩
    intro i hi0 hi1
    rw [if_pos h] at hi1
    interval_cases i <;> exact ⟨_, rfl⟩

theorem loadInit_storeAt {F : Type} {sc sc1 : List (Option F)} {i : Int} {v : F}
    (h : storeAt sc i (some v) = some sc1) (j : Int) :
    loadInit sc1 j = if j = i then some v else loadInit sc j := by
  unfold loadInit
  rw [loadAt_storeAt h j]
  by_cases hj : j = i
  · rw [if_pos hj, if_pos hj]; rfl
  · rw [if_neg hj, if_neg hj]

theorem bexDispatch_mode0 {F : Type} [NatCast F] [Div F] [Mul F] [Sub F] [OfScientific F]
    (T : Tables F) (pow : F → F → F) (channel : Channel F) (scales : List (Option F))
    (bandCount groupAUnit totalUnits a b c d : Int) (hmode : channel.BexMode = 0) :
    bexDispatch T pow channel scales bandCount groupAUnit totalUnits a b c d =
      bexMode0 T channel scales bandCount groupAUnit totalUnits := by
  simp [bexDispatch, hmode]

theorem bexMode0_eq {F : Type} [NatCast F] [Div F] [Mul F] [Sub F] [OfScientific F]
    (T : Tables F) (channel ch1 : Channel F) (scales sc0 sc1 : List (Option F)) (fin : List F)
    (bandCount groupAUnit totalUnits index count : Int) (last : F)
    (hsc0 : mode0Scales T channel.BexValues bandCount scales = some sc0)
    (hlast : spectrumScaleOf T channel.ScaleFactors groupAUnit = some last)
    (hsc1 : storeAt sc0 (totalUnits - groupAUnit - 1) (some last) = some sc1)
    (hindex : loadAt T.QuantUnitToCoeffIndex (totalUnits - 1) = some index)
    (hcount : loadAt T.QuantUnitToCoeffCount (totalUnits - 1) = some count)
    (hnoise : AddNoiseToSpectrum channel index count = some ch1)
    (hfin : ScaleBexQuantUnits T.QuantUnitToCoeffIndex ch1.Spectra sc1 groupAUnit totalUnits
      = some fin) :
    bexMode0 T channel scales bandCount groupAUnit totalUnits =
      some { ch1 with Spectra := fin } := by
  simp [bexMode0, hsc0, hlast, hsc1, hindex, hcount, hnoise, hfin]

theorem applyBandExtensionChannel_mode0 {F : Type} [NatCast F] [Div F] [Mul F] [Sub F]
    [OfScientific F] (T : Tables F) (pow : F → F → F) (channel : Channel F) (g : BexGroup)
    (b c : Int) (q : Int → Int) (sfA : Int) (last : F) (seed : Nat)
    (hmode : channel.BexMode = 0)
    (hinit : channel.Rng.Initialized = false)
    (hinfo : loadAt T.BexGroupInfo (channel.QuantizationUnitCount - 13) = some g)
    (hbc : g.BandCount = 3 ∨ g.BandCount = 4 ∨ g.BandCount = 5)
    (h3 : g.BandCount = 3 → ∀ p ∈ [((0 : Int), (0 : Int)), (1, 0), (2, 1), (3, 2), (4, 3)],
      (bandValue T.BexMode0Bands3 p.1 channel.BexValues p.2).isSome)
    (h4 : g.BandCount = 4 → ∀ p ∈ [((0 : Int), (0 : Int)), (1, 0), (2, 1), (3, 2), (4, 3)],
      (bandValue T.BexMode0Bands4 p.1 channel.BexValues p.2).isSome)
    (h5 : g.BandCount = 5 → ∀ p ∈ [((0 : Int), (0 : Int)), (1, 1), (2, 1)],
      (bandValue T.BexMode0Bands5 p.1 channel.BexValues p.2).isSome)
    (hn : 1 ≤ max g.GroupCUnit 22 - channel.QuantizationUnitCount ∧
      max g.GroupCUnit 22 - channel.QuantizationUnitCount ≤ 6)
    (hn5 : g.BandCount = 5 → max g.GroupCUnit 22 - channel.QuantizationUnitCount ≤ 4)
    (hq : ∀ u, channel.QuantizationUnitCount ≤ u → u ≤ max g.GroupCUnit 22 →
      loadAt T.QuantUnitToCoeffIndex u = some (q u))
    (hmono : ∀ u, channel.QuantizationUnitCount ≤ u → u < max g.GroupCUnit 22 →
      q u ≤ q (u + 1))
    (hcount : loadAt T.QuantUnitToCoeffCount (max g.GroupCUnit 22 - 1) =
      some (q (max g.GroupCUnit 22) - q (max g.GroupCUnit 22 - 1)))
    (hb : loadAt T.QuantUnitToCoeffIndex g.GroupBUnit = some b)
    (hc : loadAt T.QuantUnitToCoeffIndex g.GroupCUnit = some c)
    (hgeo : q channel.QuantizationUnitCount ≤ b ∧ b ≤ c ∧ c ≤ q (max g.GroupCUnit 22))
    (hlen : q (max g.GroupCUnit 22) ≤ channel.Spectra.length)
    (hsrc : b - q channel.QuantizationUnitCount ≤ q channel.QuantizationUnitCount ∧
      c - b ≤ b ∧ q (max g.GroupCUnit 22) - c ≤ c)
    (hsfA : loadAt channel.ScaleFactors channel.QuantizationUnitCount = some sfA)
    (hlast : loadAt T.SpectrumScale sfA = some last)
    (hseed : noiseSeed channel.ScaleFactors = some seed) :
    ∃ mirrored sc0 out,
      FillHighFrequencies channel.Spectra (q channel.QuantizationUnitCount) b c
        (q (max g.GroupCUnit 22)) = some mirrored ∧
      mode0Scales T channel.BexValues g.BandCount (List.replicate 6 none) = some sc0 ∧
      ApplyBandExtensionChannel T pow channel = some out ∧
      out.Spectra.length = channel.Spectra.length ∧
      out.Rng = rngAfter (RngInit channel.Rng seed)
        (q (max g.GroupCUnit 22) - q (max g.GroupCUnit 22 - 1)).toNat ∧
      (∀ k : Int, q (max g.GroupCUnit 22 - 1) ≤ k → k < q (max g.GroupCUnit 22) →
        loadAt out.Spectra k = some (noiseSample (rngOutput (RngInit channel.Rng seed)
          (k - q (max g.GroupCUnit 22 - 1)).toNat) * last)) ∧
      (∀ u k : Int, channel.QuantizationUnitCount ≤ u → u < max g.GroupCUnit 22 - 1 →
        q u ≤ k → k < q (u + 1) →
        ∃ x m, loadAt mirrored k = some x ∧
          loadInit sc0 (u - channel.QuantizationUnitCount) = some m ∧
          loadAt out.Spectra k = some (x * m)) ∧
      (∀ k : Int, k < q channel.QuantizationUnitCount ∨ q (max g.GroupCUnit 22) ≤ k →
        loadAt out.Spectra k = loadAt mirrored k) := by
  obtain ⟨hab, hbc', hcd⟩ := hgeo
  obtain ⟨hA, hB, hC⟩ := hsrc
  obtain ⟨hn1, hn6⟩ := hn
  generalize htot : max g.GroupCUnit 22 = tot at *
  have hm := mono_of_step q channel.QuantizationUnitCount tot hmono
  have hlastUnit := hmono (tot - 1) (by omega) (by omega)
  have hlo :=
    hm channel.QuantizationUnitCount (tot - 1) (le_refl _) (by omega) (by omega)
  have e1 : tot - 1 + 1 = tot := by ring
  rw [e1] at hlastUnit
  obtain ⟨mir, hmir, lm, _⟩ :=
    fillHighFrequencies_ok channel.Spectra (q channel.QuantizationUnitCount) b c (q tot)
      hab hbc' hcd hlen hA hB hC
  obtain ⟨sc0, hsc0, lsc0, psc0⟩ :=
    mode0Scales_spec T channel.BexValues g.BandCount hbc h3 h4 h5
  have hsl :
      spectrumScaleOf T channel.ScaleFactors channel.QuantizationUnitCount = some last := by
    simp [spectrumScaleOf, hsfA, hlast]
  have hsc1 := storeAt_of_bounds sc0 (tot - channel.QuantizationUnitCount - 1) (some last)
    (by omega) (by omega)
  obtain ⟨ch1, hch1, _, _, _, _, hrng, l1, p1⟩ := noiseLoop_spec
    ({ channel with Spectra := mir, Rng := RngInit channel.Rng seed })
    (q (tot - 1)) (q tot - q (tot - 1)) (by omega) (by omega) (by simp only; omega)
  have hnoise : AddNoiseToSpectrum ({ channel with Spectra := mir })
      (q (tot - 1)) (q tot - q (tot - 1)) = some ch1 := by
    rw [addNoise_of_uninitialized ({ channel with Spectra := mir }) _ _ seed hinit hseed]
    exact hch1
  have hslot : ∀ u, channel.QuantizationUnitCount ≤ u → u < tot →
      loadInit (sc0.set (tot - channel.QuantizationUnitCount - 1).toNat (some last))
          (u - channel.QuantizationUnitCount) =
        some ((loadInit (sc0.set (tot - channel.QuantizationUnitCount - 1).toNat (some last))
          (u - channel.QuantizationUnitCount)).getD last) := by
    intro u hu0 hu1
    rw [loadInit_storeAt hsc1]
    by_cases hu :
        u - channel.QuantizationUnitCount = tot - channel.QuantizationUnitCount - 1
    · rw [if_pos hu]; rfl
    · rw [if_neg hu]
      obtain ⟨m, hm0⟩ := psc0 (u - channel.QuantizationUnitCount) (by omega) (by
        by_cases h5' : g.BandCount = 5
        · have := hn5 h5'
          rw [if_pos h5']; omega
        · rw [if_neg h5']; omega)
      rw [hm0]; rfl
  obtain ⟨fin, hfin, lf, pf, pout⟩ := scaleBexQuantUnits_spec T.QuantUnitToCoeffIndex
    ch1.Spectra (sc0.set (tot - channel.QuantizationUnitCount - 1).toNat (some last))
    channel.QuantizationUnitCount tot q
    (fun u => (loadInit (sc0.set (tot - channel.QuantizationUnitCount - 1).toNat (some last))
      (u - channel.QuantizationUnitCount)).getD last)
    (by omega) hq hmono (by omega) (by simp only at l1; omega)
    (fun u h0 h1 _ => hslot u h0 h1)
  have hrun : ApplyBandExtensionChannel T pow channel = some { ch1 with Spectra := fin } := by
    rw [applyBandExtensionChannel_eq T pow channel g (q channel.QuantizationUnitCount) b c
      (q tot) mir hinfo
      (hq channel.QuantizationUnitCount (le_refl _) (by omega)) hb hc
      (by rw [htot]; exact hq tot (by omega) (le_refl _)) hmir]
    rw [bexDispatch_mode0 T pow ({ channel with Spectra := mir }) _ _ _ _ _ _ _ _ hmode]
    rw [htot]
    exact bexMode0_eq T ({ channel with Spectra := mir }) ch1 _ sc0 _ fin _ _ _ _ _ last
      hsc0 hsl hsc1 (hq (tot - 1) (by omega) (by omega)) hcount hnoise hfin
  refine ⟨mir, sc0, _, hmir, hsc0, hrun, by simp only at l1 ⊢; omega, hrng, ?_, ?_, ?_⟩
  · intro k hk0 hk1
    show loadAt fin k = _
    rw [pf (tot - 1) k (by omega) (by omega) hk0 (by rw [e1]; exact hk1), p1 k,
      if_pos (by omega)]
    have e2 : tot - 1 - channel.QuantizationUnitCount =
        tot - channel.QuantizationUnitCount - 1 := by ring
    rw [e2, loadInit_storeAt hsc1, if_pos rfl]
    rfl
  · intro u k hu0 hu1 hk0 hk1
    have h1 := hm channel.QuantizationUnitCount u (le_refl _) hu0 (by omega)
    have h2 := hm (u + 1) (tot - 1) (by omega) (by omega) (by omega)
    obtain ⟨x, hx⟩ := loadAt_of_bounds mir k (by omega) (by omega)
    obtain ⟨m, hm0⟩ := psc0 (u - channel.QuantizationUnitCount) (by omega) (by
      by_cases h5' : g.BandCount = 5
      · have := hn5 h5'
        rw [if_pos h5']; omega
      · rw [if_neg h5']; omega)
    refine ⟨x, m, hx, hm0, ?_⟩
    show loadAt fin k = _
    rw [pf u k hu0 (by omega) hk0 hk1, p1 k, if_neg (by omega)]
    show Option.map _ (loadAt mir k) = _
    rw [hx, loadInit_storeAt hsc1, if_neg (by omega), hm0]
    rfl
  · intro k hk
    show loadAt fin k = _
    rw [pout k hk, p1 k, if_neg (by omega)]

/-- C8. Mode 0, last unit: for a channel in mode 0 with 3, 4 or 5 bands whose
generator is not initialised and with
`QuantUnitToCoeffCount[totalUnits - 1] = q totalUnits - q (totalUnits - 1)` (all
accesses in bounds, every multiplier read was written),
`ApplyBandExtensionChannel` succeeds; bin number `j` of the last unit ends as
`(2 * r_j / 65535 - 1) * SpectrumScale[scaleFactors[groupAUnit]]` for the
generator outputs `r_j` from the seed of `sf[8]`, `sf[12]`, `sf[15]`; the
generator has run exactly as many times as the last unit has bins; every bin
of an earlier extension unit is its mirrored value times the multiplier that
the mode-0 tables put in the slot of that unit, and every bin outside
`[groupABin, totalBins)` is the mirrored value: noise reaches the last unit
only. -/
theorem mode0_last_unit (T : Tables ℚ) (pow : ℚ → ℚ → ℚ) (channel : Channel ℚ)
    (g : BexGroup) (b c : Int) (q : Int → Int) (sfA : Int) (last : ℚ) (seed : Nat)
    (hmode : channel.BexMode = 0)
    (hinit : channel.Rng.Initialized = false)
    (hinfo : loadAt T.BexGroupInfo (channel.QuantizationUnitCount - 13) = some g)
    (hbc : g.BandCount = 3 ∨ g.BandCount = 4 ∨ g.BandCount = 5)
    (h3 : g.BandCount = 3 → ∀ p ∈ [((0 : Int), (0 : Int)), (1, 0), (2, 1), (3, 2), (4, 3)],
      (bandValue T.BexMode0Bands3 p.1 channel.BexValues p.2).isSome)
    (h4 : g.BandCount = 4 → ∀ p ∈ [((0 : Int), (0 : Int)), (1, 0), (2, 1), (3, 2), (4, 3)],
      (bandValue T.BexMode0Bands4 p.1 channel.BexValues p.2).isSome)
    (h5 : g.BandCount = 5 → ∀ p ∈ [((0 : Int), (0 : Int)), (1, 1), (2, 1)],
      (bandValue T.BexMode0Bands5 p.1 channel.BexValues p.2).isSome)
    (hn : 1 ≤ max g.GroupCUnit 22 - channel.QuantizationUnitCount ∧
      max g.GroupCUnit 22 - channel.QuantizationUnitCount ≤ 6)
    (hn5 : g.BandCount = 5 → max g.GroupCUnit 22 - channel.QuantizationUnitCount ≤ 4)
    (hq : ∀ u, channel.QuantizationUnitCount ≤ u → u ≤ max g.GroupCUnit 22 →
      loadAt T.QuantUnitToCoeffIndex u = some (q u))
    (hmono : ∀ u, channel.QuantizationUnitCount ≤ u → u < max g.GroupCUnit 22 →
      q u ≤ q (u + 1))
    (hcount : loadAt T.QuantUnitToCoeffCount (max g.GroupCUnit 22 - 1) =
      some (q (max g.GroupCUnit 22) - q (max g.GroupCUnit 22 - 1)))
    (hb : loadAt T.QuantUnitToCoeffIndex g.GroupBUnit = some b)
    (hc : loadAt T.QuantUnitToCoeffIndex g.GroupCUnit = some c)
    (hgeo : q channel.QuantizationUnitCount ≤ b ∧ b ≤ c ∧ c ≤ q (max g.GroupCUnit 22))
    (hlen : q (max g.GroupCUnit 22) ≤ channel.Spectra.length)
    (hsrc : b - q channel.QuantizationUnitCount ≤ q channel.QuantizationUnitCount ∧
      c - b ≤ b ∧ q (max g.GroupCUnit 22) - c ≤ c)
    (hsfA : loadAt channel.ScaleFactors channel.QuantizationUnitCount = some sfA)
    (hlast : loadAt T.SpectrumScale sfA = some last)
    (hseed : noiseSeed channel.ScaleFactors = some seed) :
    ∃ mirrored sc0 out,
      FillHighFrequencies channel.Spectra (q channel.QuantizationUnitCount) b c
        (q (max g.GroupCUnit 22)) = some mirrored ∧
      mode0Scales T channel.BexValues g.BandCount (List.replicate 6 none) = some sc0 ∧
      ApplyBandExtensionChannel T pow channel = some out ∧
      out.Rng = rngAfter (RngInit channel.Rng seed)
        (q (max g.GroupCUnit 22) - q (max g.GroupCUnit 22 - 1)).toNat ∧
      (∀ j : Int, 0 ≤ j → j < q (max g.GroupCUnit 22) - q (max g.GroupCUnit 22 - 1) →
        loadAt out.Spectra (q (max g.GroupCUnit 22 - 1) + j) =
          some ((2 * (rngOutput (RngInit channel.Rng seed) j.toNat : ℚ) / 65535 - 1) * last)) ∧
      (∀ u k : Int, channel.QuantizationUnitCount ≤ u → u < max g.GroupCUnit 22 - 1 →
        q u ≤ k → k < q (u + 1) →
        ∃ x m, loadAt mirrored k = some x ∧
          loadInit sc0 (u - channel.QuantizationUnitCount) = some m ∧
          loadAt out.Spectra k = some (x * m)) ∧
      (∀ k : Int, k < q channel.QuantizationUnitCount ∨ q (max g.GroupCUnit 22) ≤ k →
        loadAt out.Spectra k = loadAt mirrored k) := by
  obtain ⟨mir, sc0, out, h1, h2, h3', _, h5', h6, h7, h8⟩ :=
    applyBandExtensionChannel_mode0 T pow channel g b c q sfA last seed hmode hinit hinfo hbc
      h3 h4 h5 hn hn5 hq hmono hcount hb hc hgeo hlen hsrc hsfA hlast hseed
  refine ⟨mir, sc0, out, h1, h2, h3', h5', ?_, h7, h8⟩
  intro j hj0 hj1
  rw [h6 _ (by omega) (by omega), noiseSample_rat_two]
  have e : q (max g.GroupCUnit 22 - 1) + j - q (max g.GroupCUnit 22 - 1) = j := by ring
  rw [e]

/-- C8 at `demoChannel 0` over `demoTables`: four bands, units 18..23, the last
unit holds the bins 30 and 31, and `SpectrumScale[sf[18]] = SpectrumScale[3] = 2`. -/
theorem mode0_last_unit_witness :
    ((demoChannel 0).BexMode = 0 ∧ (demoChannel 0).Rng.Initialized = false ∧
      loadAt demoTables.BexGroupInfo ((demoChannel 0).QuantizationUnitCount - 13)
        = some ⟨4, 23, 24⟩ ∧
      ((4 : Int) = 3 ∨ (4 : Int) = 4 ∨ (4 : Int) = 5) ∧
      ((4 : Int) = 4 → ∀ p ∈ [((0 : Int), (0 : Int)), (1, 0), (2, 1), (3, 2), (4, 3)],
        (bandValue demoTables.BexMode0Bands4 p.1 (demoChannel 0).BexValues p.2).isSome) ∧
      (1 ≤ max (24 : Int) 22 - (demoChannel 0).QuantizationUnitCount ∧
        max (24 : Int) 22 - (demoChannel 0).QuantizationUnitCount ≤ 6) ∧
      ((4 : Int) = 5 → max (24 : Int) 22 - (demoChannel 0).QuantizationUnitCount ≤ 4) ∧
      (∀ u, (demoChannel 0).QuantizationUnitCount ≤ u → u ≤ max (24 : Int) 22 →
        loadAt demoTables.QuantUnitToCoeffIndex u = some (demoIndex u)) ∧
      (∀ u, (demoChannel 0).QuantizationUnitCount ≤ u → u < max (24 : Int) 22 →
        demoIndex u ≤ demoIndex (u + 1)) ∧
      loadAt demoTables.QuantUnitToCoeffCount (max (24 : Int) 22 - 1) =
        some (demoIndex (max (24 : Int) 22) - demoIndex (max (24 : Int) 22 - 1)) ∧
      loadAt demoTables.QuantUnitToCoeffIndex 23 = some 30 ∧
      loadAt demoTables.QuantUnitToCoeffIndex 24 = some 32 ∧
      (demoIndex (demoChannel 0).QuantizationUnitCount ≤ 30 ∧ (30 : Int) ≤ 32 ∧
        32 ≤ demoIndex (max (24 : Int) 22)) ∧
      demoIndex (max (24 : Int) 22) ≤ (demoChannel 0).Spectra.length ∧
      (30 - demoIndex (demoChannel 0).QuantizationUnitCount
          ≤ demoIndex (demoChannel 0).QuantizationUnitCount ∧
        (32 : Int) - 30 ≤ 30 ∧ demoIndex (max (24 : Int) 22) - 32 ≤ 32) ∧
      loadAt (demoChannel 0).ScaleFactors (demoChannel 0).QuantizationUnitCount = some 3 ∧
      loadAt demoTables.SpectrumScale 3 = some 2 ∧
      noiseSeed (demoChannel 0).ScaleFactors = some 3801) ∧
    ∃ mirrored sc0 out,
      FillHighFrequencies (demoChannel 0).Spectra
        (demoIndex (demoChannel 0).QuantizationUnitCount) 30 32
        (demoIndex (max (24 : Int) 22)) = some mirrored ∧
      mode0Scales demoTables (demoChannel 0).BexValues 4 (List.replicate 6 none) = some sc0 ∧
      ApplyBandExtensionChannel demoTables (fun _ y => y) (demoChannel 0) = some out ∧
      out.Rng = rngAfter (RngInit (demoChannel 0).Rng 3801)
        (demoIndex (max (24 : Int) 22) - demoIndex (max (24 : Int) 22 - 1)).toNat ∧
      (∀ j : Int, 0 ≤ j →
        j < demoIndex (max (24 : Int) 22) - demoIndex (max (24 : Int) 22 - 1) →
        loadAt out.Spectra (demoIndex (max (24 : Int) 22 - 1) + j) =
          some ((2 * (rngOutput (RngInit (demoChannel 0).Rng 3801) j.toNat : ℚ) / 65535 - 1)
            * 2)) ∧
      (∀ u k : Int, (demoChannel 0).QuantizationUnitCount ≤ u → u < max (24 : Int) 22 - 1 →
        demoIndex u ≤ k → k < demoIndex (u + 1) →
        ∃ x m, loadAt mirrored k = some x ∧
          loadInit sc0 (u - (demoChannel 0).QuantizationUnitCount) = some m ∧
          loadAt out.Spectra k = some (x * m)) ∧
      (∀ k : Int, k < demoIndex (demoChannel 0).QuantizationUnitCount ∨
          demoIndex (max (24 : Int) 22) ≤ k →
        loadAt out.Spectra k = loadAt mirrored k) :=
  ⟨⟨rfl, rfl, rfl, by decide, fun _ => by decide, by decide, fun h => absurd h (by decide),
      fun u h0 h1 => by
        have h2 : (18 : Int) ≤ u := h0
        have h3 : u ≤ 24 := h1
        interval_cases u <;> rfl,
      fun u h0 h1 => by
        have h2 : (18 : Int) ≤ u := h0
        have h3 : u < 24 := h1
        interval_cases u <;> decide,
      rfl, rfl, rfl, by decide, by decide, by decide, rfl, rfl, by decide⟩,
    mode0_last_unit demoTables (fun _ y => y) (demoChannel 0) ⟨4, 23, 24⟩ 30 32 demoIndex
      3 2 3801 rfl rfl rfl (by decide) (fun h => absurd h (by decide)) (fun _ => by decide)
      (fun h => absurd h (by decide)) (by decide) (fun h => absurd h (by decide))
      (fun u h0 h1 => by
        have h2 : (18 : Int) ≤ u := h0
        have h3 : u ≤ 24 := h1
        interval_cases u <;> rfl)
      (fun u h0 h1 => by
        have h2 : (18 : Int) ≤ u := h0
        have h3 : u < 24 := h1
        interval_cases u <;> decide)
      rfl rfl rfl (by decide) (by decide) (by decide) rfl rfl (by decide)⟩

/-! ## Evaluations on concrete inputs -/

theorem fillHighFrequencies_example :
    FillHighFrequencies [(1 : Int), 2, 3, 4, 0, 0, 0, 0, 0, 0, 0, 0] 4 6 9 11 =
      some [1, 2, 3, 4, 4, 3, 3, 4, 4, 4, 4, 0] := by
  decide

theorem fillHighFrequencies_negative_source :
    FillHighFrequencies [(1 : Int), 2, 3, 4, 0, 0, 0, 0, 0, 0, 0, 0] 4 9 9 11 = none := by
  decide

theorem scaleBexQuantUnits_example :
    ScaleBexQuantUnits [0, 2, 4, 7] [(1 : Int), 2, 3, 4, 5, 6, 7, 8] [some 10, some 100] 1 3 =
      some [1, 2, 30, 40, 500, 600, 700, 8] := by
  decide

theorem scaleBexQuantUnits_unwritten_scale :
    ScaleBexQuantUnits [0, 2, 4, 7] [(1 : Int), 2, 3, 4, 5, 6, 7, 8] [some 10, none] 1 3 =
      none := by
  decide

theorem rngNext_example :
    RngNext ⟨true, 13416, 13415, 13414, 13413⟩ =
      (34619, ⟨true, 34619, 13416, 13415, 13414⟩) := by
  decide

/-! ## Mode 3 -/

theorem decayBins_spec (spectra : List ℚ) (lo hi : Int) (rate scale : ℚ)
    (hle : lo ≤ hi) (h0 : 0 ≤ lo) (hlen : hi ≤ spectra.length) :
    ∃ out, decayBins spectra lo hi rate scale = some out ∧
      out.1 = scale * rate ^ (hi - lo).toNat ∧
      out.2.length = spectra.length ∧
      ∀ k : Int, loadAt out.2 k =
        if lo ≤ k ∧ k < hi then
          (loadAt spectra k).map (fun x => x * (scale * rate ^ ((k - lo).toNat + 1)))
        else loadAt spectra k := by
  have key := forLoop_inv
    (fun (i : Int) (st : ℚ × List ℚ) =>
      st.1 = scale * rate ^ (i - lo).toNat ∧
      st.2.length = spectra.length ∧
      ∀ k : Int, loadAt st.2 k =
        if lo ≤ k ∧ k < i then
          (loadAt spectra k).map (fun x => x * (scale * rate ^ ((k - lo).toNat + 1)))
        else loadAt spectra k)
    (fun i st =>
      (loadAt st.2 i).bind (fun x =>
        (storeAt st.2 i (x * (st.1 * rate))).map (fun sp => (st.1 * rate, sp))))
    lo hi (scale, spectra) hle
    ⟨by simp, rfl, fun k => by
      have : ¬ (lo ≤ k ∧ k < lo) := by omega
      rw [if_neg this]⟩
    (by
      intro j st hj0 hj1 ⟨hsc, hl, hinv⟩
      obtain ⟨v, hv⟩ := loadAt_of_bounds st.2 j (by omega) (by omega)
      have hs := storeAt_of_bounds st.2 j (v * (st.1 * rate)) (by omega) (by omega)
      have hpow : st.1 * rate = scale * rate ^ ((j - lo).toNat + 1) := by
        rw [hsc, pow_succ, mul_assoc]
      refine ⟨(st.1 * rate, st.2.set j.toNat (v * (st.1 * rate))), ?_, ?_, ?_, ?_⟩
      · show (loadAt st.2 j).bind _ = _
        rw [hv]
        show (storeAt st.2 j (v * (st.1 * rate))).map _ = _
        rw [hs]; rfl
      · show st.1 * rate = _
        have e : (j + 1 - lo).toNat = (j - lo).toNat + 1 := by omega
        rw [e, hpow]
      · show (st.2.set _ _).length = _
        simp [hl]
      · intro k
        show loadAt (st.2.set _ _) k = _
        rw [loadAt_storeAt hs k]
        by_cases hk : k = j
        · subst hk
          have c1 : lo ≤ k ∧ k < k + 1 := by omega
          have c2 : ¬ (lo ≤ k ∧ k < k) := by omega
          have hv2 := hinv k
          rw [if_neg c2, hv] at hv2
          rw [if_pos rfl, if_pos c1, ← hv2, hpow]
          rfl
        · rw [if_neg hk, hinv]
          by_cases c : lo ≤ k ∧ k < j
          · have c3 : lo ≤ k ∧ k < j + 1 := by omega
            rw [if_pos c, if_pos c3]
          · have c3 : ¬ (lo ≤ k ∧ k < j + 1) := by omega
            rw [if_neg c, if_neg c3])
  exact key

theorem bexDispatch_mode3 {F : Type} [NatCast F] [Div F] [Mul F] [Sub F] [OfScientific F]
    (T : Tables F) (pow : F → F → F) (channel : Channel F) (scales : List (Option F))
    (bandCount groupAUnit totalUnits a b c d : Int) (hmode : channel.BexMode = 3) :
    bexDispatch T pow channel scales bandCount groupAUnit totalUnits a b c d =
      bexMode3 T pow channel a d := by
  simp [bexDispatch, hmode]

theorem bexMode3_eq {F : Type} [Mul F] [OfScientific F] (T : Tables F) (pow : F → F → F)
    (channel : Channel F) (a d : Int) (exponent initial : F) (st : F × List F)
    (he : tableValue T.BexMode3Rate channel.BexValues 1 = some exponent)
    (hi : tableValue T.BexMode3Initial channel.BexValues 0 = some initial)
    (hst : decayBins channel.Spectra a d (pow 2.0 exponent) initial = some st) :
    bexMode3 T pow channel a d = some { channel with Spectra := st.2 } := by
  simp [bexMode3, he, hi, hst]

/-- C11. Mode 3: with `initial = BexMode3Initial[values[0]]` and
`rate = pow(2, BexMode3Rate[values[1]])`, and the regions inside the spectrum
with valid mirror sources, `ApplyBandExtensionChannel` succeeds and every bin
`groupABin + j` of `[groupABin, totalBins)` is its mirrored value times
`initial * rate ^ (j + 1)` (exact arithmetic): the running scale is multiplied
by `rate` before each bin, so the first bin is scaled by `initial * rate`; the
bins outside the region keep the mirrored value and the generator context is
untouched. -/
theorem mode3_compounding (T : Tables ℚ) (pow : ℚ → ℚ → ℚ) (channel : Channel ℚ)
    (g : BexGroup) (a b c d v0 v1 : Int) (initial exponent : ℚ)
    (hmode : channel.BexMode = 3)
    (hinfo : loadAt T.BexGroupInfo (channel.QuantizationUnitCount - 13) = some g)
    (ha : loadAt T.QuantUnitToCoeffIndex channel.QuantizationUnitCount = some a)
    (hb : loadAt T.QuantUnitToCoeffIndex g.GroupBUnit = some b)
    (hc : loadAt T.QuantUnitToCoeffIndex g.GroupCUnit = some c)
    (hd : loadAt T.QuantUnitToCoeffIndex (max g.GroupCUnit 22) = some d)
    (hgeo : a ≤ b ∧ b ≤ c ∧ c ≤ d) (hlen : d ≤ channel.Spectra.length)
    (hsrc : b - a ≤ a ∧ c - b ≤ b ∧ d - c ≤ c)
    (hv0 : loadAt channel.BexValues 0 = some v0) (hv1 : loadAt channel.BexValues 1 = some v1)
    (hinitial : loadAt T.BexMode3Initial v0 = some initial)
    (hexponent : loadAt T.BexMode3Rate v1 = some exponent) :
    ∃ mirrored out, FillHighFrequencies channel.Spectra a b c d = some mirrored ∧
      ApplyBandExtensionChannel T pow channel = some out ∧
      out.Spectra.length = channel.Spectra.length ∧
      (∀ j : Int, 0 ≤ j → j < d - a →
        ∃ x, loadAt mirrored (a + j) = some x ∧
          loadAt out.Spectra (a + j) =
            some (x * (initial * pow 2.0 exponent ^ (j.toNat + 1)))) ∧
      (∀ x, loadAt mirrored a = some x → a < d →
        loadAt out.Spectra a = some (x * (initial * pow 2.0 exponent))) ∧
      (∀ k : Int, k < a ∨ d ≤ k → loadAt out.Spectra k = loadAt mirrored k) ∧
      out.Rng = channel.Rng := by
  obtain ⟨hab, hbc, hcd⟩ := hgeo
  obtain ⟨hA, hB, hC⟩ := hsrc
  obtain ⟨mir, hmir, lm, _⟩ :=
    fillHighFrequencies_ok channel.Spectra a b c d hab hbc hcd hlen hA hB hC
  obtain ⟨st, hst, _, lst, pst⟩ := decayBins_spec mir a d (pow 2.0 exponent) initial
    (by omega) (by omega) (by omega)
  have hrun : ApplyBandExtensionChannel T pow channel = some { channel with Spectra := st.2 } := by
    rw [applyBandExtensionChannel_eq T pow channel g a b c d mir hinfo ha hb hc hd hmir,
      bexDispatch_mode3 T pow ({ channel with Spectra := mir }) _ _ _ _ _ _ _ _ hmode]
    exact bexMode3_eq T pow ({ channel with Spectra := mir }) a d exponent initial st
      (tableValue_eq _ _ _ _ _ hv1 hexponent) (tableValue_eq _ _ _ _ _ hv0 hinitial) hst
  refine ⟨mir, _, hmir, hrun, by simp only; omega, ?_, ?_, ?_, rfl⟩
  · intro j hj0 hj1
    obtain ⟨x, hx⟩ := loadAt_of_bounds mir (a + j) (by omega) (by omega)
    refine ⟨x, hx, ?_⟩
    show loadAt st.2 (a + j) = _
    have e : (a + j - a).toNat = j.toNat := by congr 1; ring
    rw [pst, if_pos (by omega), hx, e]
    rfl
  · intro x hx had
    show loadAt st.2 a = _
    have e : (a - a).toNat = 0 := by simp
    rw [pst, if_pos (by omega), hx, e]
    simp
  · intro k hk
    show loadAt st.2 k = _
    rw [pst, if_neg (by omega)]

/-- C11 at `demoChannel 3`: `initial = BexMode3Initial[1] = 1/2`, the exponent
`BexMode3Rate[0] = 0`, region `[20, 32)`. -/
theorem mode3_compounding_witness :
    ((demoChannel 3).BexMode = 3 ∧
      loadAt demoTables.BexGroupInfo ((demoChannel 3).QuantizationUnitCount - 13)
        = some ⟨4, 23, 24⟩ ∧
      loadAt demoTables.QuantUnitToCoeffIndex (demoChannel 3).QuantizationUnitCount = some 20 ∧
      loadAt demoTables.QuantUnitToCoeffIndex 23 = some 30 ∧
      loadAt demoTables.QuantUnitToCoeffIndex 24 = some 32 ∧
      loadAt demoTables.QuantUnitToCoeffIndex (max 24 22) = some 32 ∧
      ((20 : Int) ≤ 30 ∧ (30 : Int) ≤ 32 ∧ (32 : Int) ≤ 32) ∧
      (32 : Int) ≤ (demoChannel 3).Spectra.length ∧
      ((30 : Int) - 20 ≤ 20 ∧ (32 : Int) - 30 ≤ 30 ∧ (32 : Int) - 32 ≤ 32) ∧
      loadAt (demoChannel 3).BexValues 0 = some 1 ∧
      loadAt (demoChannel 3).BexValues 1 = some 0 ∧
      loadAt demoTables.BexMode3Initial 1 = some (1 / 2) ∧
      loadAt demoTables.BexMode3Rate 0 = some 0) ∧
    ∃ mirrored out, FillHighFrequencies (demoChannel 3).Spectra 20 30 32 32 = some mirrored ∧
      ApplyBandExtensionChannel demoTables (fun _ y => y + 1 / 2) (demoChannel 3) = some out ∧
      out.Spectra.length = (demoChannel 3).Spectra.length ∧
      (∀ j : Int, 0 ≤ j → j < 32 - 20 →
        ∃ x, loadAt mirrored (20 + j) = some x ∧
          loadAt out.Spectra (20 + j) =
            some (x * (1 / 2 * (fun (_ : ℚ) (y : ℚ) => y + 1 / 2) 2.0 0 ^ (j.toNat + 1)))) ∧
      (∀ x, loadAt mirrored 20 = some x → (20 : Int) < 32 →
        loadAt out.Spectra 20 =
          some (x * (1 / 2 * (fun (_ : ℚ) (y : ℚ) => y + 1 / 2) 2.0 0))) ∧
      (∀ k : Int, k < 20 ∨ 32 ≤ k → loadAt out.Spectra k = loadAt mirrored k) ∧
      out.Rng = (demoChannel 3).Rng :=
  ⟨⟨rfl, rfl, rfl, rfl, rfl, rfl, by decide, by decide, by decide, rfl, rfl, rfl, rfl⟩,
    mode3_compounding demoTables (fun _ y => y + 1 / 2) (demoChannel 3) ⟨4, 23, 24⟩
      20 30 32 32 1 0 (1 / 2) 0 rfl rfl rfl rfl rfl rfl (by decide) (by decide) (by decide)
      rfl rfl rfl rfl⟩

/-! ## A mode outside 0..4 -/

/-- C13. Out-of-range mode: for a channel whose `BexMode` is none of 0..4,
`ApplyBandExtensionChannel` is the mirror and nothing else: it returns the
channel with `Spectra` replaced by the result of
`FillHighFrequencies(spectra, groupABin, groupBBin, groupCBin, totalBins)`
(and fails exactly when the mirror does); no bin is scaled, no noise is
written, and the generator context, flag included, is unchanged. -/
theorem out_of_range_mode {F : Type} [NatCast F] [Div F] [Mul F] [Sub F] [OfScientific F]
    (T : Tables F) (pow : F → F → F) (channel : Channel F) (g : BexGroup) (a b c d : Int)
    (hmode : channel.BexMode < 0 ∨ 4 < channel.BexMode)
    (hinfo : loadAt T.BexGroupInfo (channel.QuantizationUnitCount - 13) = some g)
    (ha : loadAt T.QuantUnitToCoeffIndex channel.QuantizationUnitCount = some a)
    (hb : loadAt T.QuantUnitToCoeffIndex g.GroupBUnit = some b)
    (hc : loadAt T.QuantUnitToCoeffIndex g.GroupCUnit = some c)
    (hd : loadAt T.QuantUnitToCoeffIndex (max g.GroupCUnit 22) = some d) :
    ApplyBandExtensionChannel T pow channel =
        (FillHighFrequencies channel.Spectra a b c d).map
          (fun mirrored => { channel with Spectra := mirrored }) ∧
      ∀ out, ApplyBandExtensionChannel T pow channel = some out →
        FillHighFrequencies channel.Spectra a b c d = some out.Spectra ∧
        out.Rng = channel.Rng ∧ out.Rng.Initialized = channel.Rng.Initialized ∧
        out.ScaleFactors = channel.ScaleFactors ∧ out.BexValues = channel.BexValues ∧
        out.BexMode = channel.BexMode := by
  have h0 : channel.BexMode ≠ 0 := by omega
  have h1 : channel.BexMode ≠ 1 := by omega
  have h2 : channel.BexMode ≠ 2 := by omega
  have h3 : channel.BexMode ≠ 3 := by omega
  have h4 : channel.BexMode ≠ 4 := by omega
  have hrun : ApplyBandExtensionChannel T pow channel =
      (FillHighFrequencies channel.Spectra a b c d).map
        (fun mirrored => { channel with Spectra := mirrored }) := by
    cases hf : FillHighFrequencies channel.Spectra a b c d with
    | none => simp [ApplyBandExtensionChannel, hinfo, ha, hb, hc, hd, hf]
    | some m =>
      rw [applyBandExtensionChannel_eq T pow channel g a b c d m hinfo ha hb hc hd hf]
      simp [bexDispatch, h0, h1, h2, h3, h4]
  refine ⟨hrun, ?_⟩
  intro out hout
  rw [hrun] at hout
  cases hf : FillHighFrequencies channel.Spectra a b c d with
  | none => rw [hf] at hout; exact Option.noConfusion hout
  | some m =>
    rw [hf] at hout
    simp only [Option.map_some', Option.some.injEq] at hout
    subst hout
    exact ⟨rfl, rfl, rfl, rfl, rfl, rfl⟩

/-- C13 at `demoChannel 7`: mode 7 leaves the mirrored spectrum. -/
theorem out_of_range_mode_witness :
    (((demoChannel 7).BexMode < 0 ∨ 4 < (demoChannel 7).BexMode) ∧
      loadAt demoTables.BexGroupInfo ((demoChannel 7).QuantizationUnitCount - 13)
        = some ⟨4, 23, 24⟩ ∧
      loadAt demoTables.QuantUnitToCoeffIndex (demoChannel 7).QuantizationUnitCount = some 20 ∧
      loadAt demoTables.QuantUnitToCoeffIndex 23 = some 30 ∧
      loadAt demoTables.QuantUnitToCoeffIndex 24 = some 32 ∧
      loadAt demoTables.QuantUnitToCoeffIndex (max 24 22) = some 32) ∧
    ApplyBandExtensionChannel demoTables (fun _ y => y) (demoChannel 7) =
      (FillHighFrequencies (demoChannel 7).Spectra 20 30 32 32).map
        (fun mirrored => { demoChannel 7 with Spectra := mirrored }) :=
  ⟨⟨by decide, rfl, rfl, rfl, rfl, rfl⟩,
    (out_of_range_mode demoTables (fun _ y => y) (demoChannel 7) ⟨4, 23, 24⟩ 20 30 32 32
      (by decide) rfl rfl rfl rfl rfl).1⟩

/-! ## The seed scramble -/

theorem scramble_lt (seed : Nat) (h : seed < 65536) : seed ^^^ (seed >>> 14) < 65536 := by
  have h1 : seed >>> 14 < 2 ^ 16 := by
    rw [Nat.shiftRight_eq_div_pow]
    omega
  have h2 : seed < 2 ^ 16 := by omega
  have := Nat.xor_lt_two_pow h2 h1
  omega

/-- C16. No overflow in the seed scramble: for every 16-bit seed the product
`0x4D93 * (seed xor (seed >> 14))` of `RngInit` is non-negative and below
`2^31`, so neither it nor `k - product` (`k = 3, 2, 1, 0`) wraps as a 32-bit
`int`, and the registers are `(k - product) mod 2^16` over the integers. -/
theorem rngInit_no_overflow (rng : RngCxt) (seed : Nat) (hseed : seed < 65536) :
    0 ≤ (0x4D93 : Int) * ((seed ^^^ (seed >>> 14) : Nat) : Int) ∧
      (0x4D93 : Int) * ((seed ^^^ (seed >>> 14) : Nat) : Int) < 2147483648 ∧
      toInt32 ((0x4D93 : Int) * ((seed ^^^ (seed >>> 14) : Nat) : Int)) =
        (0x4D93 : Int) * ((seed ^^^ (seed >>> 14) : Nat) : Int) ∧
      (∀ k : Int, 0 ≤ k → k ≤ 3 →
        toInt32 (k - (0x4D93 : Int) * ((seed ^^^ (seed >>> 14) : Nat) : Int)) =
          k - (0x4D93 : Int) * ((seed ^^^ (seed >>> 14) : Nat) : Int)) ∧
      RngInit rng seed =
        ⟨true,
          (((3 : Int) - (0x4D93 : Int) * ((seed ^^^ (seed >>> 14) : Nat) : Int)) % 65536).toNat,
          (((2 : Int) - (0x4D93 : Int) * ((seed ^^^ (seed >>> 14) : Nat) : Int)) % 65536).toNat,
          (((1 : Int) - (0x4D93 : Int) * ((seed ^^^ (seed >>> 14) : Nat) : Int)) % 65536).toNat,
          (((0 : Int) - (0x4D93 : Int) * ((seed ^^^ (seed >>> 14) : Nat) : Int)) % 65536).toNat⟩ := by
  have hx := scramble_lt seed hseed
  refine ⟨?_, ?_, ?_, ?_, rngInit_eq rng seed⟩
  · positivity
  · generalize seed ^^^ (seed >>> 14) = p at hx
    omega
  · generalize seed ^^^ (seed >>> 14) = p at hx
    unfold toInt32
    omega
  · intro k hk0 hk3
    generalize seed ^^^ (seed >>> 14) = p at hx
    unfold toInt32
    omega

/-- C16 at the seed 3801. -/
theorem rngInit_no_overflow_witness :
    ((3801 : Nat) < 65536) ∧
    toInt32 ((0x4D93 : Int) * ((3801 ^^^ (3801 >>> 14) : Nat) : Int)) =
      (0x4D93 : Int) * ((3801 ^^^ (3801 >>> 14) : Nat) : Int) :=
  ⟨by decide, (rngInit_no_overflow ⟨false, 0, 0, 0, 0⟩ 3801 (by decide)).2.2.1⟩

/-! ## Loops: splitting, shifting, postconditions -/

theorem forLoopAux_add {σ : Type} (body : Int → σ → Option σ) :
    ∀ (m n : Nat) (i : Int) (s : σ),
      forLoopAux body (m + n) i s =
        (forLoopAux body m i s).bind (forLoopAux body n (i + m)) := by
  intro m
  induction m with
  | zero =>
    intro n i s
    simp [forLoopAux]
  | succ m ih =>
    intro n i s
    have e : m + 1 + n = (m + n) + 1 := by omega
    rw [e]
    simp only [forLoopAux]
    cases hb : body i s with
    | none => simp
    | some s1 =>
      simp only [Option.some_bind, ih]
      have e2 : i + 1 + (m : Int) = i + ((m + 1 : Nat) : Int) := by push_cast; ring
      rw [e2]

theorem forLoopAux_shift {σ : Type} (body : Int → σ → Option σ) (k : Int) :
    ∀ (n : Nat) (i : Int) (s : σ),
      forLoopAux (fun j => body (j + k)) n i s = forLoopAux body n (i + k) s := by
  intro n
  induction n with
  | zero => intro i s; rfl
  | succ n ih =>
    intro i s
    simp only [forLoopAux]
    cases hb : body (i + k) s with
    | none => simp
    | some s1 =>
      simp only [Option.some_bind, ih]
      have e : i + 1 + k = i + k + 1 := by ring
      rw [e]

theorem forLoopAux_post_idx {σ : Type} (P : Int → σ → Prop) (body : Int → σ → Option σ) :
    ∀ (n : Nat) (i : Int) (s s' : σ),
      (∀ j st st', i ≤ j → j < i + n → body j st = some st' → P j st → P (j + 1) st') →
      forLoopAux body n i s = some s' → P i s → P (i + n) s' := by
  intro n
  induction n with
  | zero =>
    intro i s s' _ h hs
    simp only [forLoopAux, Option.some.injEq] at h
    subst h
    simpa using hs
  | succ n ih =>
    intro i s s' hP h hs
    simp only [forLoopAux] at h
    cases hb : body i s with
    | none => rw [hb] at h; exact Option.noConfusion h
    | some s1 =>
      rw [hb] at h
      have h1 := hP i s s1 (le_refl _) (by push_cast; omega) hb hs
      have h2 := ih (i + 1) s1 s'
        (fun j st st' hj0 hj1 => hP j st st' (by omega) (by push_cast; omega)) h h1
      have e : i + ((n + 1 : Nat) : Int) = i + 1 + (n : Int) := by push_cast; ring
      rw [e]; exact h2

theorem forLoop_frame {σ : Type} (P : σ → Prop) (body : Int → σ → Option σ) (lo hi : Int)
    (s s' : σ)
    (hP : ∀ j st st', lo ≤ j → j < hi → body j st = some st' → P st → P st')
    (h : forLoop lo hi body s = some s') (hs : P s) : P s' := by
  by_cases hle : lo ≤ hi
  · refine forLoopAux_post_idx (fun _ st => P st) body (hi - lo).toNat lo s s' ?_ h hs
    intro j st st' hj0 hj1 hb hst
    exact hP j st st' hj0 (by omega) hb hst
  · rw [forLoop_empty body lo hi s (by omega)] at h
    exact Option.some.inj h ▸ hs

theorem forLoop_split {σ : Type} (body : Int → σ → Option σ) (lo mid hi : Int) (s : σ)
    (h1 : lo ≤ mid) (h2 : mid ≤ hi) :
    forLoop lo hi body s = (forLoop lo mid body s).bind (forLoop mid hi body) := by
  unfold forLoop
  have e : (hi - lo).toNat = (mid - lo).toNat + (hi - mid).toNat := by omega
  have e2 : lo + ((mid - lo).toNat : Int) = mid := by omega
  rw [e, forLoopAux_add, e2]

/-! ## No re-seeding -/

theorem noiseLoop_append {F : Type} [NatCast F] [Div F] [Mul F] [Sub F] [OfScientific F]
    (channel : Channel F) (index m n : Int) (hm : 0 ≤ m) (hn : 0 ≤ n) :
    (noiseLoop channel index m).bind (fun ch => noiseLoop ch (index + m) n) =
      noiseLoop channel index (m + n) := by
  have hbody : (fun (i : Int) (ch : Channel F) =>
        (storeAt ch.Spectra (i + (index + m)) (noiseSample (RngNext ch.Rng).1)).map
          (fun sp => { ch with Spectra := sp, Rng := (RngNext ch.Rng).2 })) =
      (fun j => (fun (i : Int) (ch : Channel F) =>
        (storeAt ch.Spectra (i + index) (noiseSample (RngNext ch.Rng).1)).map
          (fun sp => { ch with Spectra := sp, Rng := (RngNext ch.Rng).2 })) (j + m)) := by
    funext i ch
    have e : i + (index + m) = i + m + index := by ring
    simp only [e]
  have hsecond : ∀ ch : Channel F, noiseLoop ch (index + m) n =
      forLoop m (m + n) (fun (i : Int) (ch : Channel F) =>
        (storeAt ch.Spectra (i + index) (noiseSample (RngNext ch.Rng).1)).map
          (fun sp => { ch with Spectra := sp, Rng := (RngNext ch.Rng).2 })) ch := by
    intro ch
    show forLoop 0 n _ ch = _
    unfold forLoop
    have e1 : (n - 0).toNat = (m + n - m).toNat := by omega
    have e2 : (0 : Int) + m = m := by ring
    rw [hbody, ← e1]
    have hshift := forLoopAux_shift (fun (i : Int) (ch : Channel F) =>
        (storeAt ch.Spectra (i + index) (noiseSample (RngNext ch.Rng).1)).map
          (fun sp => { ch with Spectra := sp, Rng := (RngNext ch.Rng).2 })) m (n - 0).toNat 0 ch
    rw [e2] at hshift
    exact hshift
  show (forLoop 0 m _ channel).bind _ = forLoop 0 (m + n) _ channel
  rw [forLoop_split _ 0 m (m + n) channel hm (by omega)]
  congr 1
  funext ch
  exact hsecond ch

theorem noiseLoop_registers {F : Type} [NatCast F] [Div F] [Mul F] [Sub F] [OfScientific F]
    (channel out : Channel F) (index count : Int)
    (h : noiseLoop channel index count = some out) :
    out.Rng = rngAfter channel.Rng count.toNat := by
  by_cases hc : 0 ≤ count
  · have key := forLoopAux_post_idx
      (fun (j : Int) (st : Channel F) => 0 ≤ j ∧ st.Rng = rngAfter channel.Rng j.toNat)
      (fun i ch =>
        (storeAt ch.Spectra (i + index) (noiseSample (RngNext ch.Rng).1)).map
          (fun sp => { ch with Spectra := sp, Rng := (RngNext ch.Rng).2 }))
      (count - 0).toNat 0 channel out
      (by
        intro j st st' hj0 _ hb ⟨_, hst⟩
        cases hs : storeAt st.Spectra (j + index) (noiseSample (F := F) (RngNext st.Rng).1) with
        | none => simp [hs] at hb
        | some sp =>
          simp only [hs, Option.map_some', Option.some.injEq] at hb
          subst hb
          refine ⟨by omega, ?_⟩
          have e : (j + 1).toNat = j.toNat + 1 := by omega
          show (RngNext st.Rng).2 = _
          rw [e, rngAfter, hst])
      h ⟨le_refl _, rfl⟩
    have e : (0 : Int) + ((count - 0).toNat : Int) = count := by omega
    rw [e] at key
    exact key.2
  · rw [noiseLoop_empty channel index count (by omega)] at h
    have e : count.toNat = 0 := by omega
    rw [e, ← Option.some.inj h]
    rfl

theorem addNoise_initialized {F : Type} [NatCast F] [Div F] [Mul F] [Sub F] [OfScientific F]
    (channel out : Channel F) (index count : Int)
    (h : AddNoiseToSpectrum channel index count = some out) :
    out.Rng.Initialized = true := by
  cases hi : channel.Rng.Initialized with
  | true =>
    rw [addNoise_of_initialized channel index count hi] at h
    rw [noiseLoop_initialized _ _ _ _ h, hi]
  | false =>
    cases hseed : noiseSeed channel.ScaleFactors with
    | none => simp [AddNoiseToSpectrum, hi, hseed] at h
    | some seed =>
      rw [addNoise_of_uninitialized channel index count seed hi hseed] at h
      rw [noiseLoop_initialized _ _ _ _ h]
      rfl

/-- C14. No re-seeding: every call of `AddNoiseToSpectrum` that returns leaves
`Initialized` true; when the flag is already true on entry the call is the
noise loop alone (the scale factors are not read) and the registers after it
are those reached by `count` steps of `RngNext` from the registers on entry;
and for counts `m, n ≥ 0` the call for `m` bins followed by the call for the
next `n` bins is the call for `m + n` bins, in spectrum, generator state and
failure alike. -/
theorem addNoise_no_reseeding {F : Type} [NatCast F] [Div F] [Mul F] [Sub F] [OfScientific F]
    (channel : Channel F) (index m n : Int) (hm : 0 ≤ m) (hn : 0 ≤ n) :
    (∀ count out, AddNoiseToSpectrum channel index count = some out →
        out.Rng.Initialized = true) ∧
      (channel.Rng.Initialized = true →
        ∀ count, AddNoiseToSpectrum channel index count = noiseLoop channel index count) ∧
      (channel.Rng.Initialized = true →
        ∀ count out, AddNoiseToSpectrum channel index count = some out →
          out.Rng = rngAfter channel.Rng count.toNat) ∧
      (AddNoiseToSpectrum channel index m).bind
          (fun ch => AddNoiseToSpectrum ch (index + m) n) =
        AddNoiseToSpectrum channel index (m + n) := by
  refine ⟨fun count out h => addNoise_initialized channel out index count h,
    fun hi count => addNoise_of_initialized channel index count hi, ?_, ?_⟩
  · intro hi count out h
    rw [addNoise_of_initialized channel index count hi] at h
    exact noiseLoop_registers channel out index count h
  · have hsecond : ∀ ch0 : Channel F, ch0.Rng.Initialized = true →
        (noiseLoop ch0 index m).bind (fun ch => AddNoiseToSpectrum ch (index + m) n) =
          noiseLoop ch0 index (m + n) := by
      intro ch0 h0
      rw [← noiseLoop_append ch0 index m n hm hn]
      cases hl : noiseLoop ch0 index m with
      | none => rfl
      | some ch1 =>
        have h1 : ch1.Rng.Initialized = true := by
          rw [noiseLoop_initialized _ _ _ _ hl, h0]
        simp only [Option.some_bind]
        exact addNoise_of_initialized ch1 (index + m) n h1
    cases hi : channel.Rng.Initialized with
    | true =>
      rw [addNoise_of_initialized channel index m hi,
        addNoise_of_initialized channel index (m + n) hi]
      exact hsecond channel hi
    | false =>
      cases hseed : noiseSeed channel.ScaleFactors with
      | none => simp [AddNoiseToSpectrum, hi, hseed]
      | some seed =>
        rw [addNoise_of_uninitialized channel index m seed hi hseed,
          addNoise_of_uninitialized channel index (m + n) seed hi hseed]
        exact hsecond _ rfl

/-- C14 at `seedChannel`: one bin, then the next bin, is the call for two bins. -/
theorem addNoise_no_reseeding_witness :
    ((0 : Int) ≤ 1 ∧ (0 : Int) ≤ 1) ∧
    (AddNoiseToSpectrum seedChannel 0 1).bind (fun ch => AddNoiseToSpectrum ch (0 + 1) 1) =
      AddNoiseToSpectrum seedChannel 0 (1 + 1) :=
  ⟨by decide, (addNoise_no_reseeding seedChannel 0 1 1 (by decide) (by decide)).2.2.2⟩

/-! ## All-ones multipliers -/

theorem mapRange_id {F : Type} (f : F → F) (hf : ∀ x, f x = x) (spectra : List F)
    (lo hi : Int) (hb : lo < hi → 0 ≤ lo ∧ hi ≤ spectra.length) :
    forLoop lo hi (fun k s => (loadAt s k).bind (fun x => storeAt s k (f x))) spectra
      = some spectra := by
  by_cases hlt : lo < hi
  · obtain ⟨h0, h1⟩ := hb hlt
    obtain ⟨out, e, _, p⟩ := mapRange_spec f spectra lo hi (by omega) h0 h1
    rw [e]
    congr 1
    apply loadAt_ext
    intro k
    rw [p]
    by_cases c : lo ≤ k ∧ k < hi
    · rw [if_pos c]
      cases loadAt spectra k with
      | none => rfl
      | some x => simp [hf]
    · rw [if_neg c]
  · exact forLoop_empty _ _ _ _ (by omega)

/-- C15. All-ones scales are the identity: when the entries
`0 .. endUnit - startUnit - 1` of `scales` are all 1 and the bins of every unit
lie inside the spectrum, `ScaleBexQuantUnits` returns the spectrum it was
given, bin for bin (for any multiplication with `x * 1 = x`, and for any
unit-to-bin map, monotone or not). -/
theorem scaleBexQuantUnits_all_ones {F : Type} [MulOneClass F] (coeffIndex : List Int)
    (spectra : List F) (scales : List (Option F)) (startUnit endUnit : Int) (q : Int → Int)
    (hunits : startUnit ≤ endUnit)
    (hq : ∀ u, startUnit ≤ u → u ≤ endUnit → loadAt coeffIndex u = some (q u))
    (hbins : ∀ u, startUnit ≤ u → u < endUnit → q u < q (u + 1) →
      0 ≤ q u ∧ q (u + 1) ≤ spectra.length)
    (hones : ∀ j : Int, 0 ≤ j → j < endUnit - startUnit → loadInit scales j = some 1) :
    ScaleBexQuantUnits coeffIndex spectra scales startUnit endUnit = some spectra ∧
      ∀ out, ScaleBexQuantUnits coeffIndex spectra scales startUnit endUnit = some out →
        out.length = spectra.length ∧ ∀ k : Int, loadAt out k = loadAt spectra k := by
  have key := forLoop_inv (fun (_ : Int) (st : List F) => st = spectra)
    (fun i s => do
      let lo ← loadAt coeffIndex i
      let hi ← loadAt coeffIndex (i + 1)
      forLoop lo hi
        (fun k s => do
          let x ← loadAt s k
          let m ← loadInit scales (i - startUnit)
          storeAt s k (x * m)) s)
    startUnit endUnit spectra hunits rfl
    (by
      intro i st hi0 hi1 hst
      subst hst
      refine ⟨st, ?_, rfl⟩
      show (do
        let lo ← loadAt coeffIndex i
        let hi ← loadAt coeffIndex (i + 1)
        forLoop lo hi
          (fun k s => do
            let x ← loadAt s k
            let m ← loadInit scales (i - startUnit)
            storeAt s k (x * m)) st) = some st
      rw [hq i hi0 (by omega), hq (i + 1) (by omega) (by omega)]
      simp only [hones (i - startUnit) (by omega) (by omega), Option.bind_eq_bind,
        Option.some_bind]
      exact mapRange_id (fun x => x * 1) (fun x => mul_one x) st (q i) (q (i + 1))
        (hbins i hi0 hi1))
  obtain ⟨out, h1, h2⟩ := key
  subst h2
  have hrun : ScaleBexQuantUnits coeffIndex out scales startUnit endUnit = some out := h1
  refine ⟨hrun, ?_⟩
  intro out2 h
  rw [hrun] at h
  have := Option.some.inj h
  subst this
  exact ⟨rfl, fun _ => rfl⟩

/-- C15 on the units 18 and 19 of `demoTables` with the multipliers 1, 1. -/
theorem scaleBexQuantUnits_all_ones_witness :
    ((18 : Int) ≤ 20 ∧
      (∀ u : Int, 18 ≤ u → u ≤ 20 →
        loadAt demoTables.QuantUnitToCoeffIndex u = some (demoIndex u)) ∧
      (∀ u : Int, 18 ≤ u → u < 20 → demoIndex u < demoIndex (u + 1) →
        0 ≤ demoIndex u ∧ demoIndex (u + 1) ≤ (demoChannel 1).Spectra.length) ∧
      (∀ j : Int, 0 ≤ j → j < 20 - 18 → loadInit [some (1 : ℚ), some 1] j = some 1)) ∧
    ScaleBexQuantUnits demoTables.QuantUnitToCoeffIndex (demoChannel 1).Spectra
      [some (1 : ℚ), some 1] 18 20 = some (demoChannel 1).Spectra :=
  ⟨⟨by decide,
      fun u h0 h1 => by interval_cases u <;> rfl,
      fun u h0 h1 _ => by interval_cases u <;> decide,
      fun j h0 h1 => by interval_cases j <;> rfl⟩,
    (scaleBexQuantUnits_all_ones demoTables.QuantUnitToCoeffIndex (demoChannel 1).Spectra
      [some (1 : ℚ), some 1] 18 20 demoIndex (by decide)
      (fun u h0 h1 => by interval_cases u <;> rfl)
      (fun u h0 h1 _ => by interval_cases u <;> decide)
      (fun j h0 h1 => by interval_cases j <;> rfl)).1⟩

/-! ## The mirror reads the low band only -/

theorem fillHighFrequencies_agree {F : Type} (s t : List F) (a b c d : Int)
    (hab : a ≤ b) (hbc : b ≤ c) (hcd : c ≤ d)
    (hds : d ≤ s.length) (hdt : d ≤ t.length)
    (hA : b - a ≤ a) (hB : c - b ≤ b) (hC : d - c ≤ c)
    (hlow : ∀ k : Int, 0 ≤ k → k < a → loadAt s k = loadAt t k) :
    ∃ outS outT, FillHighFrequencies s a b c d = some outS ∧
      FillHighFrequencies t a b c d = some outT ∧
      outS.length = s.length ∧ outT.length = t.length ∧
      (∀ k : Int, 0 ≤ k → k < d → loadAt outS k = loadAt outT k) ∧
      (∀ k : Int, k < a ∨ d ≤ k → loadAt outS k = loadAt s k) ∧
      (∀ k : Int, k < a ∨ d ≤ k → loadAt outT k = loadAt t k) := by
  obtain ⟨s1, s2, outS, eS, lS, p1, p2, p3⟩ :=
    fillHighFrequencies_spec s a b c d hab hbc hcd hds hA hB hC
  obtain ⟨t1, t2, outT, eT, lT, r1, r2, r3⟩ :=
    fillHighFrequencies_spec t a b c d hab hbc hcd hdt hA hB hC
  have agree1 : ∀ k : Int, 0 ≤ k → k < b → loadAt s1 k = loadAt t1 k := by
    intro k hk0 hk1
    rw [p1, r1]
    by_cases h : a ≤ k ∧ k < b
    · rw [if_pos h, if_pos h]
      exact hlow _ (by omega) (by omega)
    · rw [if_neg h, if_neg h]
      exact hlow _ hk0 (by omega)
  have agree2 : ∀ k : Int, 0 ≤ k → k < c → loadAt s2 k = loadAt t2 k := by
    intro k hk0 hk1
    rw [p2, r2]
    by_cases h : b ≤ k ∧ k < c
    · rw [if_pos h, if_pos h]
      exact agree1 _ (by omega) (by omega)
    · rw [if_neg h, if_neg h]
      exact agree1 _ hk0 (by omega)
  refine ⟨outS, outT, eS, eT, lS, lT, ?_, ?_, ?_⟩
  · intro k hk0 hk1
    rw [p3, r3]
    by_cases h : c ≤ k ∧ k < d
    · rw [if_pos h, if_pos h]
      exact agree2 _ (by omega) (by omega)
    · rw [if_neg h, if_neg h]
      exact agree2 _ hk0 (by omega)
  · intro k hk
    rw [p3, if_neg (by omega), p2, if_neg (by omega), p1, if_neg (by omega)]
  · intro k hk
    rw [r3, if_neg (by omega), r2, if_neg (by omega), r1, if_neg (by omega)]

/-- C20. The mirror reads only the low band: for two buffers of equal length
that agree on `[0, a)` and boundaries `a ≤ b ≤ c ≤ d` inside them with valid
sources, `FillHighFrequencies` succeeds on both and the results agree on every
bin of `[0, d)`, whatever the buffers held in `[a, d)`; and applying
`FillHighFrequencies` to its own result returns that result unchanged. -/
theorem fillHighFrequencies_low_band_only {F : Type} (s t : List F) (a b c d : Int)
    (hlen : s.length = t.length)
    (hab : a ≤ b) (hbc : b ≤ c) (hcd : c ≤ d) (hd : d ≤ s.length)
    (hA : b - a ≤ a) (hB : c - b ≤ b) (hC : d - c ≤ c)
    (hlow : ∀ k : Int, 0 ≤ k → k < a → loadAt s k = loadAt t k) :
    ∃ outS outT, FillHighFrequencies s a b c d = some outS ∧
      FillHighFrequencies t a b c d = some outT ∧
      (∀ k : Int, 0 ≤ k → k < d → loadAt outS k = loadAt outT k) ∧
      FillHighFrequencies outS a b c d = some outS := by
  obtain ⟨outS, outT, eS, eT, lS, _, hagree, hoS, _⟩ :=
    fillHighFrequencies_agree s t a b c d hab hbc hcd hd (by omega) hA hB hC hlow
  refine ⟨outS, outT, eS, eT, hagree, ?_⟩
  obtain ⟨again, outS2, eA, eS2, lA, _, hagree2, hoA, _⟩ :=
    fillHighFrequencies_agree outS s a b c d hab hbc hcd (by omega) hd hA hB hC
      (fun k _ hk1 => hoS k (Or.inl hk1))
  rw [eA]
  congr 1
  apply loadAt_ext
  intro k
  by_cases hk0 : 0 ≤ k
  · by_cases hk1 : k < d
    · rw [hagree2 k hk0 hk1]
      have e : some outS2 = some outS := by rw [← eS, ← eS2]
      rw [Option.some.inj e]
    · exact hoA k (Or.inr (by omega))
  · exact hoA k (Or.inl (by omega))

/-- C20 at two buffers that share `1, 2, 3, 4` and differ above, with the
boundaries 4, 6, 9, 11. -/
theorem fillHighFrequencies_low_band_only_witness :
    ([(1 : Int), 2, 3, 4, 0, 0, 0, 0, 0, 0, 0, 0].length
        = [(1 : Int), 2, 3, 4, 9, 8, 7, 6, 5, 4, 3, 2].length ∧
      (4 : Int) ≤ 6 ∧ (6 : Int) ≤ 9 ∧ (9 : Int) ≤ 11 ∧
      (11 : Int) ≤ [(1 : Int), 2, 3, 4, 0, 0, 0, 0, 0, 0, 0, 0].length ∧
      (6 : Int) - 4 ≤ 4 ∧ (9 : Int) - 6 ≤ 6 ∧ (11 : Int) - 9 ≤ 9 ∧
      (∀ k : Int, 0 ≤ k → k < 4 →
        loadAt [(1 : Int), 2, 3, 4, 0, 0, 0, 0, 0, 0, 0, 0] k
          = loadAt [(1 : Int), 2, 3, 4, 9, 8, 7, 6, 5, 4, 3, 2] k)) ∧
    ∃ outS outT,
      FillHighFrequencies [(1 : Int), 2, 3, 4, 0, 0, 0, 0, 0, 0, 0, 0] 4 6 9 11 = some outS ∧
      FillHighFrequencies [(1 : Int), 2, 3, 4, 9, 8, 7, 6, 5, 4, 3, 2] 4 6 9 11 = some outT ∧
      (∀ k : Int, 0 ≤ k → k < 11 → loadAt outS k = loadAt outT k) ∧
      FillHighFrequencies outS 4 6 9 11 = some outS :=
  ⟨⟨by decide, by decide, by decide, by decide, by decide, by decide, by decide, by decide,
      fun k h0 h1 => by interval_cases k <;> rfl⟩,
    fillHighFrequencies_low_band_only _ _ 4 6 9 11 (by decide) (by decide) (by decide)
      (by decide) (by decide) (by decide) (by decide) (by decide)
      (fun k h0 h1 => by interval_cases k <;> rfl)⟩

/-! ## What a call leaves alone -/

theorem sameOutside_refl {F : Type} (lo hi : Int) (s : List F) : SameOutside lo hi s s :=
  ⟨rfl, fun _ _ => rfl⟩

theorem sameOutside_trans {F : Type} {lo hi : Int} {s t u : List F}
    (h1 : SameOutside lo hi s t) (h2 : SameOutside lo hi t u) : SameOutside lo hi s u :=
  ⟨h2.1.trans h1.1, fun k hk => (h2.2 k hk).trans (h1.2 k hk)⟩

theorem sameOutside_mono {F : Type} {lo hi lo2 hi2 : Int} {s t : List F}
    (h : SameOutside lo hi s t) (hlo : lo2 ≤ lo) (hhi : hi ≤ hi2) : SameOutside lo2 hi2 s t :=
  ⟨h.1, fun k hk => h.2 k (by omega)⟩

theorem sameOutside_storeAt {F : Type} {s t : List F} {i : Int} {v : F} (lo hi : Int)
    (h : storeAt s i v = some t) (h0 : lo ≤ i) (h1 : i < hi) : SameOutside lo hi s t := by
  refine ⟨length_storeAt h, ?_⟩
  intro k hk
  rw [loadAt_storeAt h k, if_neg (by omega)]

theorem forLoop_sameOutside {F σ : Type} (π : σ → List F) (body : Int → σ → Option σ)
    (lo hi A B : Int) (s s' : σ)
    (hbody : ∀ j st st', lo ≤ j → j < hi → body j st = some st' →
      ∃ i v, A ≤ i ∧ i < B ∧ storeAt (π st) i v = some (π st'))
    (h : forLoop lo hi body s = some s') : SameOutside A B (π s) (π s') := by
  refine forLoop_frame (fun st => SameOutside A B (π s) (π st)) body lo hi s s' ?_ h
    (sameOutside_refl _ _ _)
  intro j st st' hj0 hj1 hb hst
  obtain ⟨i, v, hi0, hi1, hs⟩ := hbody j st st' hj0 hj1 hb
  exact sameOutside_trans hst (sameOutside_storeAt A B hs hi0 hi1)

theorem mirrorLoop_frame {F : Type} (s out : List F) (lo hi : Int)
    (h : mirrorLoop s lo hi = some out) : SameOutside lo hi s out := by
  refine forLoop_sameOutside (fun st => st) _ 0 (hi - lo) lo hi s out ?_ h
  intro j st st' hj0 hj1 hb
  cases hv : loadAt st (lo - j - 1) with
  | none => simp [hv] at hb
  | some v =>
    simp only [hv, Option.some_bind] at hb
    exact ⟨lo + j, v, by omega, by omega, hb⟩

theorem fillHighFrequencies_frame {F : Type} (s out : List F) (a b c d : Int)
    (hab : a ≤ b) (hbc : b ≤ c) (hcd : c ≤ d)
    (h : FillHighFrequencies s a b c d = some out) : SameOutside a d s out := by
  cases h1 : mirrorLoop s a b with
  | none => simp [FillHighFrequencies, h1] at h
  | some s1 =>
    cases h2 : mirrorLoop s1 b c with
    | none => simp [FillHighFrequencies, h1, h2] at h
    | some s2 =>
      have h3 : mirrorLoop s2 c d = some out := by
        simpa [FillHighFrequencies, h1, h2] using h
      exact sameOutside_trans
        (sameOutside_trans
          (sameOutside_mono (mirrorLoop_frame s s1 a b h1) (le_refl _) (by omega))
          (sameOutside_mono (mirrorLoop_frame s1 s2 b c h2) (by omega) (by omega)))
        (sameOutside_mono (mirrorLoop_frame s2 out c d h3) (by omega) (le_refl _))

theorem scaleBins_frame {F : Type} [Mul F] (s out : List F) (lo hi : Int) (x : F)
    (h : scaleBins s lo hi x = some out) : SameOutside lo hi s out := by
  refine forLoop_sameOutside (fun st => st) _ lo hi lo hi s out ?_ h
  intro j st st' hj0 hj1 hb
  cases hv : loadAt st j with
  | none => simp [hv] at hb
  | some v =>
    simp only [hv, Option.some_bind] at hb
    exact ⟨j, _, hj0, hj1, hb⟩

theorem decayBins_frame {F : Type} [Mul F] (s : List F) (out : F × List F) (lo hi : Int)
    (rate x : F) (h : decayBins s lo hi rate x = some out) : SameOutside lo hi s out.2 := by
  refine forLoop_sameOutside (fun st : F × List F => st.2) _ lo hi lo hi (x, s) out ?_ h
  intro j st st' hj0 hj1 hb
  cases hv : loadAt st.2 j with
  | none => simp [hv] at hb
  | some v =>
    simp only [hv, Option.some_bind] at hb
    cases hs : storeAt st.2 j (v * (st.1 * rate)) with
    | none => simp [hs] at hb
    | some sp =>
      simp only [hs, Option.map_some', Option.some.injEq] at hb
      subst hb
      exact ⟨j, _, hj0, hj1, hs⟩

theorem noiseLoop_frame {F : Type} [NatCast F] [Div F] [Mul F] [Sub F] [OfScientific F]
    (channel out : Channel F) (index count : Int)
    (h : noiseLoop channel index count = some out) :
    SameOutside index (index + count) channel.Spectra out.Spectra ∧
      out.ScaleFactors = channel.ScaleFactors ∧ out.BexValues = channel.BexValues ∧
      out.BexMode = channel.BexMode ∧
      out.QuantizationUnitCount = channel.QuantizationUnitCount := by
  constructor
  · refine forLoop_sameOutside (fun st : Channel F => st.Spectra) _ 0 count index
      (index + count) channel out ?_ h
    intro j st st' hj0 hj1 hb
    cases hs : storeAt st.Spectra (j + index) (noiseSample (F := F) (RngNext st.Rng).1) with
    | none => simp [hs] at hb
    | some sp =>
      simp only [hs, Option.map_some', Option.some.injEq] at hb
      subst hb
      exact ⟨j + index, _, by omega, by omega, hs⟩
  · refine forLoop_frame (fun st : Channel F =>
        st.ScaleFactors = channel.ScaleFactors ∧ st.BexValues = channel.BexValues ∧
        st.BexMode = channel.BexMode ∧
        st.QuantizationUnitCount = channel.QuantizationUnitCount) _ 0 count channel out ?_ h
      ⟨rfl, rfl, rfl, rfl⟩
    intro j st st' _ _ hb hst
    cases hs : storeAt st.Spectra (j + index) (noiseSample (F := F) (RngNext st.Rng).1) with
    | none => simp [hs] at hb
    | some sp =>
      simp only [hs, Option.map_some', Option.some.injEq] at hb
      subst hb
      exact hst

theorem addNoise_frame {F : Type} [NatCast F] [Div F] [Mul F] [Sub F] [OfScientific F]
    (channel out : Channel F) (index count : Int)
    (h : AddNoiseToSpectrum channel index count = some out) :
    SameOutside index (index + count) channel.Spectra out.Spectra ∧
      out.ScaleFactors = channel.ScaleFactors ∧ out.BexValues = channel.BexValues ∧
      out.BexMode = channel.BexMode ∧
      out.QuantizationUnitCount = channel.QuantizationUnitCount := by
  cases hi : channel.Rng.Initialized with
  | true =>
    rw [addNoise_of_initialized channel index count hi] at h
    exact noiseLoop_frame channel out index count h
  | false =>
    cases hseed : noiseSeed channel.ScaleFactors with
    | none => simp [AddNoiseToSpectrum, hi, hseed] at h
    | some seed =>
      rw [addNoise_of_uninitialized channel index count seed hi hseed] at h
      exact noiseLoop_frame ({ channel with Rng := RngInit channel.Rng seed }) out index count h

theorem scaleBexQuantUnits_frame {F : Type} [Mul F] (coeffIndex : List Int)
    (s out : List F) (scales : List (Option F)) (startUnit endUnit : Int) (q : Int → Int)
    (hq : ∀ u, startUnit ≤ u → u ≤ endUnit → loadAt coeffIndex u = some (q u))
    (hmono : ∀ u, startUnit ≤ u → u < endUnit → q u ≤ q (u + 1))
    (h : ScaleBexQuantUnits coeffIndex s scales startUnit endUnit = some out) :
    SameOutside (q startUnit) (q endUnit) s out := by
  have hm := mono_of_step q startUnit endUnit hmono
  refine forLoop_frame (fun st => SameOutside (q startUnit) (q endUnit) s st) _ startUnit
    endUnit s out ?_ h (sameOutside_refl _ _ _)
  intro i st st' hi0 hi1 hb hst
  have hb' : forLoop (q i) (q (i + 1))
      (fun k s => do
        let x ← loadAt s k
        let m ← loadInit scales (i - startUnit)
        storeAt s k (x * m)) st = some st' := by
    have := hb
    simp only [hq i hi0 (by omega), hq (i + 1) (by omega) (by omega), Option.bind_eq_bind,
      Option.some_bind] at this
    exact this
  have hinner : SameOutside (q i) (q (i + 1)) st st' := by
    refine forLoop_sameOutside (fun st => st) _ (q i) (q (i + 1)) (q i) (q (i + 1)) st st' ?_ hb'
    intro k t t' hk0 hk1 hbk
    cases hv : loadAt t k with
    | none => simp [hv] at hbk
    | some v =>
      cases hmv : loadInit scales (i - startUnit) with
      | none => simp [hv, hmv] at hbk
      | some m =>
        simp only [hv, hmv, Option.bind_eq_bind, Option.some_bind] at hbk
        exact ⟨k, _, hk0, hk1, hbk⟩
  exact sameOutside_trans hst (sameOutside_mono hinner
    (hm startUnit i (le_refl _) hi0 (by omega)) (hm (i + 1) endUnit (by omega) (by omega)
      (le_refl _)))

theorem bexMode2_frame {F : Type} [Mul F] (T : Tables F) (channel out : Channel F)
    (a b c d : Int) (hab : a ≤ b) (hbc : b ≤ c) (hcd : c ≤ d)
    (h : bexMode2 T channel a b c = some out) :
    SameOutside a d channel.Spectra out.Spectra ∧
      out.ScaleFactors = channel.ScaleFactors ∧ out.BexValues = channel.BexValues := by
  cases h1 : tableValue T.BexMode2Scale channel.BexValues 0 with
  | none => simp [bexMode2, h1] at h
  | some gA =>
    cases h2 : tableValue T.BexMode2Scale channel.BexValues 1 with
    | none => simp [bexMode2, h1, h2] at h
    | some gB =>
      cases h3 : scaleBins channel.Spectra a b gA with
      | none => simp [bexMode2, h1, h2, h3] at h
      | some t1 =>
        cases h4 : scaleBins t1 b c gB with
        | none => simp [bexMode2, h1, h2, h3, h4] at h
        | some t2 =>
          simp [bexMode2, h1, h2, h3, h4] at h
          subst h
          exact ⟨sameOutside_trans
            (sameOutside_mono (scaleBins_frame _ _ _ _ _ h3) (le_refl _) (by omega))
            (sameOutside_mono (scaleBins_frame _ _ _ _ _ h4) (by omega) (by omega)), rfl, rfl⟩

theorem bexMode3_frame {F : Type} [Mul F] [OfScientific F] (T : Tables F) (pow : F → F → F)
    (channel out : Channel F) (a d : Int) (h : bexMode3 T pow channel a d = some out) :
    SameOutside a d channel.Spectra out.Spectra ∧
      out.ScaleFactors = channel.ScaleFactors ∧ out.BexValues = channel.BexValues := by
  cases h1 : tableValue T.BexMode3Rate channel.BexValues 1 with
  | none => simp [bexMode3, h1] at h
  | some e =>
    cases h2 : tableValue T.BexMode3Initial channel.BexValues 0 with
    | none => simp [bexMode3, h1, h2] at h
    | some x =>
      cases h3 : decayBins channel.Spectra a d (pow 2.0 e) x with
      | none => simp [bexMode3, h1, h2, h3] at h
      | some st =>
        simp [bexMode3, h1, h2, h3] at h
        subst h
        exact ⟨decayBins_frame _ _ _ _ _ _ h3, rfl, rfl⟩

theorem bexMode4_frame {F : Type} [Mul F] [OfScientific F] (T : Tables F)
    (channel out : Channel F) (a b c d : Int) (hab : a ≤ b) (hbc : b ≤ c) (hcd : c ≤ d)
    (h : bexMode4 T channel a b c d = some out) :
    SameOutside a d channel.Spectra out.Spectra ∧
      out.ScaleFactors = channel.ScaleFactors ∧ out.BexValues = channel.BexValues := by
  cases h1 : tableValue T.BexMode4Multiplier channel.BexValues 0 with
  | none => simp [bexMode4, h1] at h
  | some m =>
    cases h3 : scaleBins channel.Spectra a b (0.7079468 * m) with
    | none => simp [bexMode4, h1, h3] at h
    | some t1 =>
      cases h4 : scaleBins t1 b c (0.5011902 * m) with
      | none => simp [bexMode4, h1, h3, h4] at h
      | some t2 =>
        cases h5 : scaleBins t2 c d (0.3548279 * m) with
        | none => simp [bexMode4, h1, h3, h4, h5] at h
        | some t3 =>
          simp [bexMode4, h1, h3, h4, h5] at h
          subst h
          exact ⟨sameOutside_trans (sameOutside_trans
            (sameOutside_mono (scaleBins_frame _ _ _ _ _ h3) (le_refl _) (by omega))
            (sameOutside_mono (scaleBins_frame _ _ _ _ _ h4) (by omega) (by omega)))
            (sameOutside_mono (scaleBins_frame _ _ _ _ _ h5) (by omega) (le_refl _)), rfl, rfl⟩

theorem scaleUnits_frame {F : Type} [Mul F] (coeffIndex : List Int)
    (s out : List F) (scales : List (Option F)) (A tot a d : Int) (q : Int → Int)
    (ha : loadAt coeffIndex A = some a) (hd : loadAt coeffIndex tot = some d)
    (hq : ∀ u, A ≤ u → u ≤ tot → loadAt coeffIndex u = some (q u))
    (hmono : ∀ u, A ≤ u → u < tot → q u ≤ q (u + 1))
    (h : ScaleBexQuantUnits coeffIndex s scales A tot = some out) :
    SameOutside a d s out := by
  by_cases hle : A ≤ tot
  · have e1 : q A = a := by
      have := hq A (le_refl _) hle
      rw [ha] at this
      exact (Option.some.inj this).symm
    have e2 : q tot = d := by
      have := hq tot hle (le_refl _)
      rw [hd] at this
      exact (Option.some.inj this).symm
    have := scaleBexQuantUnits_frame coeffIndex s out scales A tot q hq hmono h
    rw [e1, e2] at this
    exact this
  · have hemp : ScaleBexQuantUnits coeffIndex s scales A tot = some s :=
      forLoop_empty _ _ _ _ (by omega)
    rw [hemp] at h
    rw [← Option.some.inj h]
    exact sameOutside_refl _ _ _

theorem bexMode1_frame {F : Type} [NatCast F] [Div F] [Mul F] [Sub F] [OfScientific F]
    (T : Tables F) (channel out : Channel F) (scales : List (Option F))
    (A tot a d : Int) (q : Int → Int)
    (ha : loadAt T.QuantUnitToCoeffIndex A = some a)
    (hd : loadAt T.QuantUnitToCoeffIndex tot = some d)
    (hq : ∀ u, A ≤ u → u ≤ tot → loadAt T.QuantUnitToCoeffIndex u = some (q u))
    (hmono : ∀ u, A ≤ u → u < tot → q u ≤ q (u + 1))
    (h : bexMode1 T channel scales A tot a d = some out) :
    SameOutside a d channel.Spectra out.Spectra ∧
      out.ScaleFactors = channel.ScaleFactors ∧ out.BexValues = channel.BexValues := by
  cases h1 : mode1Scales T channel.ScaleFactors A tot scales with
  | none => simp [bexMode1, h1] at h
  | some sc =>
    cases h2 : AddNoiseToSpectrum channel a (d - a) with
    | none => simp [bexMode1, h1, h2] at h
    | some ch1 =>
      cases h3 : ScaleBexQuantUnits T.QuantUnitToCoeffIndex ch1.Spectra sc A tot with
      | none => simp [bexMode1, h1, h2, h3] at h
      | some fin =>
        simp [bexMode1, h1, h2, h3] at h
        subst h
        obtain ⟨f1, f2, f3, _, _⟩ := addNoise_frame channel ch1 a (d - a) h2
        have e : a + (d - a) = d := by ring
        rw [e] at f1
        exact ⟨sameOutside_trans f1
          (scaleUnits_frame _ _ _ _ A tot a d q ha hd hq hmono h3), f2, f3⟩

theorem bexMode0_frame {F : Type} [NatCast F] [Div F] [Mul F] [Sub F] [OfScientific F]
    (T : Tables F) (channel out : Channel F) (scales : List (Option F))
    (bandCount A tot a d : Int) (q : Int → Int)
    (ha : loadAt T.QuantUnitToCoeffIndex A = some a)
    (hd : loadAt T.QuantUnitToCoeffIndex tot = some d)
    (hq : ∀ u, A ≤ u → u ≤ tot → loadAt T.QuantUnitToCoeffIndex u = some (q u))
    (hmono : ∀ u, A ≤ u → u < tot → q u ≤ q (u + 1))
    (hcount : ∀ u cnt, A ≤ u → u < tot → loadAt T.QuantUnitToCoeffCount u = some cnt →
      cnt = q (u + 1) - q u)
    (h : bexMode0 T channel scales bandCount A tot = some out) :
    SameOutside a d channel.Spectra out.Spectra ∧
      out.ScaleFactors = channel.ScaleFactors ∧ out.BexValues = channel.BexValues := by
  cases h1 : mode0Scales T channel.BexValues bandCount scales with
  | none => simp [bexMode0, h1] at h
  | some sc0 =>
    cases h2 : spectrumScaleOf T channel.ScaleFactors A with
    | none => simp [bexMode0, h1, h2] at h
    | some last =>
      cases h3 : storeAt sc0 (tot - A - 1) (some last) with
      | none => simp [bexMode0, h1, h2, h3] at h
      | some sc1 =>
        cases h4 : loadAt T.QuantUnitToCoeffIndex (tot - 1) with
        | none => simp [bexMode0, h1, h2, h3, h4] at h
        | some index =>
          cases h5 : loadAt T.QuantUnitToCoeffCount (tot - 1) with
          | none => simp [bexMode0, h1, h2, h3, h4, h5] at h
          | some count =>
            cases h6 : AddNoiseToSpectrum channel index count with
            | none => simp [bexMode0, h1, h2, h3, h4, h5, h6] at h
            | some ch1 =>
              cases h7 : ScaleBexQuantUnits T.QuantUnitToCoeffIndex ch1.Spectra sc1 A tot with
              | none => simp [bexMode0, h1, h2, h3, h4, h5, h6, h7] at h
              | some fin =>
                simp [bexMode0, h1, h2, h3, h4, h5, h6, h7] at h
                subst h
                have hpos := (storeAt_eq_some h3).1
                have hm := mono_of_step q A tot hmono
                have e1 : q A = a := by
                  have := hq A (le_refl _) (by omega)
                  rw [ha] at this
                  exact (Option.some.inj this).symm
                have e2 : q tot = d := by
                  have := hq tot (by omega) (le_refl _)
                  rw [hd] at this
                  exact (Option.some.inj this).symm
                have e3 : index = q (tot - 1) := by
                  have := hq (tot - 1) (by omega) (by omega)
                  rw [h4] at this
                  exact Option.some.inj this
                have e4 : count = q tot - q (tot - 1) := by
                  have := hcount (tot - 1) count (by omega) (by omega) h5
                  have e : tot - 1 + 1 = tot := by ring
                  rw [e] at this
                  exact this
                obtain ⟨f1, f2, f3, _, _⟩ := addNoise_frame channel ch1 index count h6
                have hlo := hm A (tot - 1) (le_refl _) (by omega) (by omega)
                exact ⟨sameOutside_trans
                  (sameOutside_mono f1 (by omega) (by omega))
                  (scaleUnits_frame _ _ _ _ A tot a d q ha hd hq hmono h7), f2, f3⟩

theorem bexDispatch_frame {F : Type} [NatCast F] [Div F] [Mul F] [Sub F] [OfScientific F]
    (T : Tables F) (pow : F → F → F) (channel out : Channel F) (scales : List (Option F))
    (bandCount A tot a b c d : Int) (q : Int → Int)
    (ha : loadAt T.QuantUnitToCoeffIndex A = some a)
    (hd : loadAt T.QuantUnitToCoeffIndex tot = some d)
    (hab : a ≤ b) (hbc : b ≤ c) (hcd : c ≤ d)
    (hq : ∀ u, A ≤ u → u ≤ tot → loadAt T.QuantUnitToCoeffIndex u = some (q u))
    (hmono : ∀ u, A ≤ u → u < tot → q u ≤ q (u + 1))
    (hcount : ∀ u cnt, A ≤ u → u < tot → loadAt T.QuantUnitToCoeffCount u = some cnt →
      cnt = q (u + 1) - q u)
    (h : bexDispatch T pow channel scales bandCount A tot a b c d = some out) :
    SameOutside a d channel.Spectra out.Spectra ∧
      out.ScaleFactors = channel.ScaleFactors ∧ out.BexValues = channel.BexValues := by
  unfold bexDispatch at h
  by_cases m0 : channel.BexMode = 0
  · rw [if_pos m0] at h
    exact bexMode0_frame T channel out scales bandCount A tot a d q ha hd hq hmono
      hcount h
  rw [if_neg m0] at h
  by_cases m1 : channel.BexMode = 1
  · rw [if_pos m1] at h
    exact bexMode1_frame T channel out scales A tot a d q ha hd hq hmono h
  rw [if_neg m1] at h
  by_cases m2 : channel.BexMode = 2
  · rw [if_pos m2] at h
    exact bexMode2_frame T channel out a b c d hab hbc hcd h
  rw [if_neg m2] at h
  by_cases m3 : channel.BexMode = 3
  · rw [if_pos m3] at h
    exact bexMode3_frame T pow channel out a d h
  rw [if_neg m3] at h
  by_cases m4 : channel.BexMode = 4
  · rw [if_pos m4] at h
    exact bexMode4_frame T channel out a b c d hab hbc hcd h
  rw [if_neg m4] at h
  rw [← Option.some.inj h]
  exact ⟨sameOutside_refl _ _ _, rfl, rfl⟩

/-- C18. Low band and tail are preserved: for every channel and every mode, in
range or not, with `groupABin ≤ groupBBin ≤ groupCBin ≤ totalBins` over a
non-decreasing unit-to-bin map `q` and `QuantUnitToCoeffCount` consistent with
it, a call of `ApplyBandExtensionChannel` that returns leaves the length of the
spectrum, every bin below `groupABin` and every bin from `totalBins` on as they
were, and does not change `ScaleFactors` or `BexValues`. -/
theorem low_band_and_tail_preserved {F : Type} [NatCast F] [Div F] [Mul F] [Sub F]
    [OfScientific F] (T : Tables F) (pow : F → F → F) (channel out : Channel F)
    (g : BexGroup) (a b c d : Int) (q : Int → Int)
    (hinfo : loadAt T.BexGroupInfo (channel.QuantizationUnitCount - 13) = some g)
    (ha : loadAt T.QuantUnitToCoeffIndex channel.QuantizationUnitCount = some a)
    (hb : loadAt T.QuantUnitToCoeffIndex g.GroupBUnit = some b)
    (hc : loadAt T.QuantUnitToCoeffIndex g.GroupCUnit = some c)
    (hd : loadAt T.QuantUnitToCoeffIndex (max g.GroupCUnit 22) = some d)
    (hgeo : a ≤ b ∧ b ≤ c ∧ c ≤ d)
    (hq : ∀ u, channel.QuantizationUnitCount ≤ u → u ≤ max g.GroupCUnit 22 →
      loadAt T.QuantUnitToCoeffIndex u = some (q u))
    (hmono : ∀ u, channel.QuantizationUnitCount ≤ u → u < max g.GroupCUnit 22 →
      q u ≤ q (u + 1))
    (hcount : ∀ u cnt, channel.QuantizationUnitCount ≤ u → u < max g.GroupCUnit 22 →
      loadAt T.QuantUnitToCoeffCount u = some cnt → cnt = q (u + 1) - q u)
    (hrun : ApplyBandExtensionChannel T pow channel = some out) :
    out.Spectra.length = channel.Spectra.length ∧
      (∀ k : Int, k < a → loadAt out.Spectra k = loadAt channel.Spectra k) ∧
      (∀ k : Int, d ≤ k → loadAt out.Spectra k = loadAt channel.Spectra k) ∧
      out.ScaleFactors = channel.ScaleFactors ∧ out.BexValues = channel.BexValues := by
  obtain ⟨hab, hbc, hcd⟩ := hgeo
  cases hf : FillHighFrequencies channel.Spectra a b c d with
  | none => simp [ApplyBandExtensionChannel, hinfo, ha, hb, hc, hd, hf] at hrun
  | some mir =>
    rw [applyBandExtensionChannel_eq T pow channel g a b c d mir hinfo ha hb hc hd hf] at hrun
    have f1 := fillHighFrequencies_frame channel.Spectra mir a b c d hab hbc hcd hf
    obtain ⟨f2, f3, f4⟩ := bexDispatch_frame T pow ({ channel with Spectra := mir }) out _ _ _ _
      a b c d q ha hd hab hbc hcd hq hmono hcount hrun
    have f := sameOutside_trans f1 f2
    exact ⟨f.1, fun k hk => f.2 k (Or.inl hk), fun k hk => f.2 k (Or.inr hk), f3, f4⟩

/-- C18 at `demoChannel 7` over `demoTables`: the bins below 20 and from 32 on. -/
theorem low_band_and_tail_preserved_witness :
    (loadAt demoTables.BexGroupInfo ((demoChannel 7).QuantizationUnitCount - 13)
        = some ⟨4, 23, 24⟩ ∧
      loadAt demoTables.QuantUnitToCoeffIndex (demoChannel 7).QuantizationUnitCount = some 20 ∧
      loadAt demoTables.QuantUnitToCoeffIndex 23 = some 30 ∧
      loadAt demoTables.QuantUnitToCoeffIndex 24 = some 32 ∧
      loadAt demoTables.QuantUnitToCoeffIndex (max 24 22) = some 32 ∧
      ((20 : Int) ≤ 30 ∧ (30 : Int) ≤ 32 ∧ (32 : Int) ≤ 32) ∧
      (∀ u, (demoChannel 7).QuantizationUnitCount ≤ u → u ≤ max (24 : Int) 22 →
        loadAt demoTables.QuantUnitToCoeffIndex u = some (demoIndex u)) ∧
      (∀ u, (demoChannel 7).QuantizationUnitCount ≤ u → u < max (24 : Int) 22 →
        demoIndex u ≤ demoIndex (u + 1)) ∧
      (∀ u cnt, (demoChannel 7).QuantizationUnitCount ≤ u → u < max (24 : Int) 22 →
        loadAt demoTables.QuantUnitToCoeffCount u = some cnt →
        cnt = demoIndex (u + 1) - demoIndex u) ∧
      ApplyBandExtensionChannel demoTables (fun _ y => y) (demoChannel 7) =
        some { demoChannel 7 with
          Spectra := [1, 2, 3, 4, 5, 6, 7, 8, 9, 10, 11, 12, 13, 14, 15, 16, 17, 18, 19, 20,
            20, 19, 18, 17, 16, 15, 14, 13, 12, 11, 11, 12] }) ∧
    (∀ k : Int, k < 20 →
      loadAt [(1 : ℚ), 2, 3, 4, 5, 6, 7, 8, 9, 10, 11, 12, 13, 14, 15, 16, 17, 18, 19, 20,
          20, 19, 18, 17, 16, 15, 14, 13, 12, 11, 11, 12] k
        = loadAt (demoChannel 7).Spectra k) :=
  ⟨⟨rfl, rfl, rfl, rfl, rfl, by decide,
      fun u h0 h1 => by
        have h2 : (18 : Int) ≤ u := h0
        have h3 : u ≤ 24 := h1
        interval_cases u <;> rfl,
      fun u h0 h1 => by
        have h2 : (18 : Int) ≤ u := h0
        have h3 : u < 24 := h1
        interval_cases u <;> decide,
      fun u cnt h0 h1 hc => by
        have h2 : (18 : Int) ≤ u := h0
        have h3 : u < 24 := h1
        interval_cases u <;> exact (Option.some.inj hc).symm,
      rfl⟩,
    (low_band_and_tail_preserved demoTables (fun _ y => y) (demoChannel 7)
      { demoChannel 7 with
        Spectra := [1, 2, 3, 4, 5, 6, 7, 8, 9, 10, 11, 12, 13, 14, 15, 16, 17, 18, 19, 20,
          20, 19, 18, 17, 16, 15, 14, 13, 12, 11, 11, 12] }
      ⟨4, 23, 24⟩ 20 30 32 32 demoIndex rfl rfl rfl rfl rfl (by decide)
      (fun u h0 h1 => by
        have h2 : (18 : Int) ≤ u := h0
        have h3 : u ≤ 24 := h1
        interval_cases u <;> rfl)
      (fun u h0 h1 => by
        have h2 : (18 : Int) ≤ u := h0
        have h3 : u < 24 := h1
        interval_cases u <;> decide)
      (fun u cnt h0 h1 hc => by
        have h2 : (18 : Int) ≤ u := h0
        have h3 : u < 24 := h1
        interval_cases u <;> exact (Option.some.inj hc).symm)
      rfl).2.1⟩

/-! ## The block routine -/

theorem extendChannelAt_spec {F : Type} [NatCast F] [Div F] [Mul F] [Sub F] [OfScientific F]
    (T : Tables F) (pow : F → F → F) (i : Int) (blk : Block F) (ch out : Channel F)
    (hch : loadAt blk.Channels i = some ch)
    (hout : ApplyBandExtensionChannel T pow ch = some out) :
    ∃ blk', extendChannelAt T pow i blk = some blk' ∧
      blk'.BandExtensionEnabled = blk.BandExtensionEnabled ∧
      blk'.HasExtensionData = blk.HasExtensionData ∧
      blk'.ChannelCount = blk.ChannelCount ∧
      blk'.Channels.length = blk.Channels.length ∧
      ∀ k : Int, loadAt blk'.Channels k =
        if k = i then some out else loadAt blk.Channels k := by
  obtain ⟨h0, h1⟩ := loadAt_bounds hch
  have hs := storeAt_of_bounds blk.Channels i out h0 h1
  refine ⟨{ blk with Channels := blk.Channels.set i.toNat out }, ?_, rfl, rfl, rfl, ?_, ?_⟩
  · simp [extendChannelAt, hch, hout, hs]
  · simp
  · intro k
    exact loadAt_storeAt hs k

theorem block_ext {F : Type} (x y : Block F)
    (h1 : x.BandExtensionEnabled = y.BandExtensionEnabled)
    (h2 : x.HasExtensionData = y.HasExtensionData) (h3 : x.ChannelCount = y.ChannelCount)
    (h4 : ∀ k : Int, loadAt x.Channels k = loadAt y.Channels k) : x = y := by
  cases x
  cases y
  simp only at h1 h2 h3 h4
  have := loadAt_ext h4
  subst h1 h2 h3 this
  rfl

theorem applyBandExtension_enabled {F : Type} [NatCast F] [Div F] [Mul F] [Sub F]
    [OfScientific F] (T : Tables F) (pow : F → F → F) (block : Block F)
    (he : block.BandExtensionEnabled = true) (hx : block.HasExtensionData = true)
    (hch : ∀ i : Int, 0 ≤ i → i < block.ChannelCount →
      ∃ ch out, loadAt block.Channels i = some ch ∧
        ApplyBandExtensionChannel T pow ch = some out) :
    ∃ blk', ApplyBandExtension T pow block = some blk' ∧
      blk'.BandExtensionEnabled = block.BandExtensionEnabled ∧
      blk'.HasExtensionData = block.HasExtensionData ∧
      blk'.ChannelCount = block.ChannelCount ∧
      blk'.Channels.length = block.Channels.length ∧
      ∀ k : Int, loadAt blk'.Channels k =
        if 0 ≤ k ∧ k < block.ChannelCount then
          (loadAt block.Channels k).bind (ApplyBandExtensionChannel T pow)
        else loadAt block.Channels k := by
  have hrun : ApplyBandExtension T pow block =
      forLoop 0 block.ChannelCount (extendChannelAt T pow) block := by
    simp [ApplyBandExtension, he, hx]
  rw [hrun]
  by_cases hn : 0 ≤ block.ChannelCount
  · exact forLoop_inv
      (fun (i : Int) (blk : Block F) =>
        blk.BandExtensionEnabled = block.BandExtensionEnabled ∧
        blk.HasExtensionData = block.HasExtensionData ∧
        blk.ChannelCount = block.ChannelCount ∧
        blk.Channels.length = block.Channels.length ∧
        ∀ k : Int, loadAt blk.Channels k =
          if 0 ≤ k ∧ k < i then
            (loadAt block.Channels k).bind (ApplyBandExtensionChannel T pow)
          else loadAt block.Channels k)
      (extendChannelAt T pow) 0 block.ChannelCount block hn
      ⟨rfl, rfl, rfl, rfl, fun k => by
        have : ¬ (0 ≤ k ∧ k < 0) := by omega
        rw [if_neg this]⟩
      (by
        intro j blk hj0 hj1 ⟨i1, i2, i3, i4, i5⟩
        obtain ⟨ch, out, hc, ho⟩ := hch j hj0 hj1
        have hc' : loadAt blk.Channels j = some ch := by
          rw [i5, if_neg (by omega), hc]
        obtain ⟨blk', e, p1, p2, p3, p4, p5⟩ := extendChannelAt_spec T pow j blk ch out hc' ho
        refine ⟨blk', e, p1.trans i1, p2.trans i2, p3.trans i3, p4.trans i4, ?_⟩
        intro k
        rw [p5]
        by_cases hk : k = j
        · subst hk
          rw [if_pos rfl, if_pos (by omega), hc]
          exact ho.symm
        · rw [if_neg hk, i5]
          by_cases c : 0 ≤ k ∧ k < j
          · rw [if_pos c, if_pos (by omega)]
          · rw [if_neg c, if_neg (by omega)])
  · rw [forLoop_empty _ _ _ _ (by omega)]
    exact ⟨block, rfl, rfl, rfl, rfl, rfl, fun k => by rw [if_neg (by omega)]⟩

theorem visitChannels_spec {F : Type} [NatCast F] [Div F] [Mul F] [Sub F] [OfScientific F]
    (T : Tables F) (pow : F → F → F) :
    ∀ (order : List Int) (blk : Block F), order.Nodup →
      (∀ i ∈ order, ∃ ch out, loadAt blk.Channels i = some ch ∧
        ApplyBandExtensionChannel T pow ch = some out) →
      ∃ blk', visitChannels T pow order blk = some blk' ∧
        blk'.BandExtensionEnabled = blk.BandExtensionEnabled ∧
        blk'.HasExtensionData = blk.HasExtensionData ∧
        blk'.ChannelCount = blk.ChannelCount ∧
        ∀ k : Int, loadAt blk'.Channels k =
          if k ∈ order then (loadAt blk.Channels k).bind (ApplyBandExtensionChannel T pow)
          else loadAt blk.Channels k := by
  intro order
  induction order with
  | nil =>
    intro blk _ _
    exact ⟨blk, rfl, rfl, rfl, rfl, fun k => by simp⟩
  | cons i rest ih =>
    intro blk hnd hch
    obtain ⟨hi, hrest⟩ := List.nodup_cons.mp hnd
    obtain ⟨ch, out, hc, ho⟩ := hch i (List.mem_cons_self _ _)
    obtain ⟨blk1, e, p1, p2, p3, _, p5⟩ := extendChannelAt_spec T pow i blk ch out hc ho
    have hch1 : ∀ j ∈ rest, ∃ ch out, loadAt blk1.Channels j = some ch ∧
        ApplyBandExtensionChannel T pow ch = some out := by
      intro j hj
      have hne : j ≠ i := fun h => hi (h ▸ hj)
      rw [p5, if_neg hne]
      exact hch j (List.mem_cons_of_mem _ hj)
    obtain ⟨blk2, e2, q1, q2, q3, q5⟩ := ih blk1 hrest hch1
    refine ⟨blk2, ?_, q1.trans p1, q2.trans p2, q3.trans p3, ?_⟩
    · simp only [visitChannels, List.foldlM_cons, Option.bind_eq_bind] at e2 ⊢
      rw [e]
      exact e2
    · intro k
      rw [q5]
      by_cases hk : k = i
      · subst hk
        rw [if_neg hi, p5, if_pos rfl, if_pos (List.mem_cons_self _ _), hc]
        exact ho.symm
      · by_cases hm : k ∈ rest
        · rw [if_pos hm, if_pos (List.mem_cons_of_mem _ hm), p5, if_neg hk]
        · have : k ∉ i :: rest := by
            intro h
            rcases List.mem_cons.mp h with h | h
            · exact hk h
            · exact hm h
          rw [if_neg hm, if_neg this, p5, if_neg hk]

/-- C12. Block processing: when `BandExtensionEnabled` or `HasExtensionData` is false,
`ApplyBandExtension` returns the block as it is; when both are true and every
one of the first `ChannelCount` channels is processed without failure, the
result holds, for each of them, exactly `ApplyBandExtensionChannel` of that
channel alone, the other channels and the flags are untouched, and visiting the
channel indices in any other order gives the same block. -/
theorem applyBandExtension_block {F : Type} [NatCast F] [Div F] [Mul F] [Sub F] [OfScientific F]
    (T : Tables F) (pow : F → F → F) (block : Block F) :
    ((block.BandExtensionEnabled = false ∨ block.HasExtensionData = false) →
        ApplyBandExtension T pow block = some block) ∧
      (block.BandExtensionEnabled = true → block.HasExtensionData = true →
        (∀ i : Int, 0 ≤ i → i < block.ChannelCount →
          ∃ ch out, loadAt block.Channels i = some ch ∧
            ApplyBandExtensionChannel T pow ch = some out) →
        ∃ blk', ApplyBandExtension T pow block = some blk' ∧
          blk'.BandExtensionEnabled = block.BandExtensionEnabled ∧
          blk'.HasExtensionData = block.HasExtensionData ∧
          blk'.ChannelCount = block.ChannelCount ∧
          (∀ i : Int, 0 ≤ i → i < block.ChannelCount →
            ∃ ch, loadAt block.Channels i = some ch ∧
              loadAt blk'.Channels i = ApplyBandExtensionChannel T pow ch) ∧
          (∀ k : Int, k < 0 ∨ block.ChannelCount ≤ k →
            loadAt blk'.Channels k = loadAt block.Channels k) ∧
          ∀ order : List Int, order.Nodup →
            (∀ i : Int, i ∈ order ↔ 0 ≤ i ∧ i < block.ChannelCount) →
            visitChannels T pow order block = some blk') := by
  constructor
  · intro h
    rcases h with h | h <;> simp [ApplyBandExtension, h]
  · intro he hx hch
    obtain ⟨blk', e, p1, p2, p3, _, p5⟩ := applyBandExtension_enabled T pow block he hx hch
    refine ⟨blk', e, p1, p2, p3, ?_, ?_, ?_⟩
    · intro i hi0 hi1
      obtain ⟨ch, out, hc, _⟩ := hch i hi0 hi1
      refine ⟨ch, hc, ?_⟩
      rw [p5, if_pos ⟨hi0, hi1⟩, hc]
      rfl
    · intro k hk
      rw [p5, if_neg (by omega)]
    · intro order hnd hmem
      obtain ⟨blk2, e2, q1, q2, q3, q5⟩ := visitChannels_spec T pow order block hnd
        (fun i hi => hch i ((hmem i).mp hi).1 ((hmem i).mp hi).2)
      rw [e2]
      congr 1
      apply block_ext
      · rw [q1, p1]
      · rw [q2, p2]
      · rw [q3, p3]
      · intro k
        rw [q5, p5]
        by_cases hk : 0 ≤ k ∧ k < block.ChannelCount
        · rw [if_pos ((hmem k).mpr hk), if_pos hk]
        · rw [if_neg (fun h => hk ((hmem k).mp h)), if_neg hk]

theorem demoChannel_mode1_ok :
    ∃ out, ApplyBandExtensionChannel demoTables (fun _ y => y) (demoChannel 1) = some out := by
  obtain ⟨out, h, _⟩ := applyBandExtensionChannel_mode1 demoTables (fun _ y => y)
    (demoChannel 1) ⟨4, 23, 24⟩ 30 32 demoIndex (fun _ => 3) (fun _ => 2) 3801 rfl rfl rfl
    (by decide)
    (fun u h0 h1 => by
      have h2 : (18 : Int) ≤ u := h0
      have h3 : u ≤ 24 := h1
      interval_cases u <;> rfl)
    (fun u h0 h1 => by
      have h2 : (18 : Int) ≤ u := h0
      have h3 : u < 24 := h1
      interval_cases u <;> decide)
    rfl rfl (by decide) (by decide) (by decide)
    (fun u h0 h1 => by
      have h2 : (18 : Int) ≤ u := h0
      have h3 : u < 24 := h1
      interval_cases u <;> rfl)
    (fun _ _ _ => rfl) (by decide)
  exact ⟨out, h⟩

theorem demoBlock_channels_ok :
    ∀ i : Int, 0 ≤ i → i < demoBlock.ChannelCount →
      ∃ ch out, loadAt demoBlock.Channels i = some ch ∧
        ApplyBandExtensionChannel demoTables (fun _ y => y) ch = some out := by
  intro i h0 h1
  have h2 : i < 2 := h1
  interval_cases i
  · obtain ⟨out, h⟩ := demoChannel_mode1_ok
    exact ⟨demoChannel 1, out, rfl, h⟩
  · exact ⟨demoChannel 7, _, rfl, rfl⟩

/-- C12 at `demoBlock`: both flags set, two channels, both processed. -/
theorem applyBandExtension_block_witness :
    (demoBlock.BandExtensionEnabled = true ∧ demoBlock.HasExtensionData = true ∧
      (∀ i : Int, 0 ≤ i → i < demoBlock.ChannelCount →
        ∃ ch out, loadAt demoBlock.Channels i = some ch ∧
          ApplyBandExtensionChannel demoTables (fun _ y => y) ch = some out)) ∧
    ∃ blk', ApplyBandExtension demoTables (fun _ y => y) demoBlock = some blk' ∧
      blk'.BandExtensionEnabled = demoBlock.BandExtensionEnabled ∧
      blk'.HasExtensionData = demoBlock.HasExtensionData ∧
      blk'.ChannelCount = demoBlock.ChannelCount ∧
      (∀ i : Int, 0 ≤ i → i < demoBlock.ChannelCount →
        ∃ ch, loadAt demoBlock.Channels i = some ch ∧
          loadAt blk'.Channels i = ApplyBandExtensionChannel demoTables (fun _ y => y) ch) ∧
      (∀ k : Int, k < 0 ∨ demoBlock.ChannelCount ≤ k →
        loadAt blk'.Channels k = loadAt demoBlock.Channels k) ∧
      ∀ order : List Int, order.Nodup →
        (∀ i : Int, i ∈ order ↔ 0 ≤ i ∧ i < demoBlock.ChannelCount) →
        visitChannels demoTables (fun _ y => y) order demoBlock = some blk' :=
  ⟨⟨rfl, rfl, demoBlock_channels_ok⟩,
    (applyBandExtension_block demoTables (fun _ y => y) demoBlock).2 rfl rfl demoBlock_channels_ok⟩

/-! ## The local array of multipliers -/

theorem bexMode1_scales {F : Type} [NatCast F] [Div F] [Mul F] [Sub F] [OfScientific F]
    (T : Tables F) (channel : Channel F) (scales sc : List (Option F)) (A tot a d : Int)
    (hsc : mode1Scales T channel.ScaleFactors A tot scales = some sc) :
    bexMode1 T channel scales A tot a d =
      (AddNoiseToSpectrum channel a (d - a)).bind fun ch1 =>
        (ScaleBexQuantUnits T.QuantUnitToCoeffIndex ch1.Spectra sc A tot).map
          fun spectra => { ch1 with Spectra := spectra } := by
  simp [bexMode1, hsc, Option.map_eq_bind]

theorem bexMode0_scales {F : Type} [NatCast F] [Div F] [Mul F] [Sub F] [OfScientific F]
    (T : Tables F) (channel : Channel F) (scales sc0 sc : List (Option F))
    (bandCount A tot : Int) (last : F)
    (hsc0 : mode0Scales T channel.BexValues bandCount scales = some sc0)
    (hlast : spectrumScaleOf T channel.ScaleFactors A = some last)
    (hsc : storeAt sc0 (tot - A - 1) (some last) = some sc) :
    bexMode0 T channel scales bandCount A tot =
      (loadAt T.QuantUnitToCoeffIndex (tot - 1)).bind fun index =>
        (loadAt T.QuantUnitToCoeffCount (tot - 1)).bind fun count =>
          (AddNoiseToSpectrum channel index count).bind fun ch1 =>
            (ScaleBexQuantUnits T.QuantUnitToCoeffIndex ch1.Spectra sc A tot).map
              fun spectra => { ch1 with Spectra := spectra } := by
  simp [bexMode0, hsc0, hlast, hsc, Option.map_eq_bind]

/-- C17. Multiplier buffer safety: the local array `scales` has 6 cells. With
`1 ≤ n ≤ 6` for `n = totalUnits - quantizationUnitCount`: in mode 1 every write
`scales[i - groupAUnit]` is inside the array and the array `sc` handed to
`ScaleBexQuantUnits` has the cells `0 .. n - 1`, the ones it reads, all
written; in mode 0 with 3, 4 or 5 bands, and `n ≤ 4` for 5 bands, the same
holds after the writes of the band table and of `scales[n - 1]`.  Without the
bound it fails: for `quantizationUnitCount = 13`, `totalUnits = 22` in mode 1
(`n = 9`) the seventh write has index 6, outside the array. -/
theorem scales_buffer_safety {F : Type} [NatCast F] [Div F] [Mul F] [Sub F] [OfScientific F]
    (T : Tables F) (channel : Channel F) (bandCount A tot a d : Int)
    (hn : 1 ≤ tot - A ∧ tot - A ≤ 6) :
    (∀ (sfv : Int → Int) (lin : Int → F),
        (∀ u, A ≤ u → u < tot → loadAt channel.ScaleFactors u = some (sfv u)) →
        (∀ u, A ≤ u → u < tot → loadAt T.SpectrumScale (sfv u) = some (lin u)) →
        ∃ sc, mode1Scales T channel.ScaleFactors A tot (List.replicate 6 none) = some sc ∧
          sc.length = 6 ∧
          (∀ u, A ≤ u → u < tot →
            0 ≤ u - A ∧ u - A ≤ 5 ∧ loadInit sc (u - A) = some (lin u)) ∧
          bexMode1 T channel (List.replicate 6 none) A tot a d =
            (AddNoiseToSpectrum channel a (d - a)).bind fun ch1 =>
              (ScaleBexQuantUnits T.QuantUnitToCoeffIndex ch1.Spectra sc A tot).map
                fun spectra => { ch1 with Spectra := spectra }) ∧
      (∀ last : F,
        (bandCount = 3 ∨ bandCount = 4 ∨ bandCount = 5) →
        (bandCount = 5 → tot - A ≤ 4) →
        (bandCount = 3 → ∀ p ∈ [((0 : Int), (0 : Int)), (1, 0), (2, 1), (3, 2), (4, 3)],
          (bandValue T.BexMode0Bands3 p.1 channel.BexValues p.2).isSome) →
        (bandCount = 4 → ∀ p ∈ [((0 : Int), (0 : Int)), (1, 0), (2, 1), (3, 2), (4, 3)],
          (bandValue T.BexMode0Bands4 p.1 channel.BexValues p.2).isSome) →
        (bandCount = 5 → ∀ p ∈ [((0 : Int), (0 : Int)), (1, 1), (2, 1)],
          (bandValue T.BexMode0Bands5 p.1 channel.BexValues p.2).isSome) →
        spectrumScaleOf T channel.ScaleFactors A = some last →
        ∃ sc0 sc, mode0Scales T channel.BexValues bandCount (List.replicate 6 none) = some sc0 ∧
          storeAt sc0 (tot - A - 1) (some last) = some sc ∧
          sc.length = 6 ∧ 0 ≤ tot - A - 1 ∧ tot - A - 1 ≤ 5 ∧
          (∀ u, A ≤ u → u < tot →
            0 ≤ u - A ∧ u - A ≤ 5 ∧ ∃ m, loadInit sc (u - A) = some m) ∧
          bexMode0 T channel (List.replicate 6 none) bandCount A tot =
            (loadAt T.QuantUnitToCoeffIndex (tot - 1)).bind fun index =>
              (loadAt T.QuantUnitToCoeffCount (tot - 1)).bind fun count =>
                (AddNoiseToSpectrum channel index count).bind fun ch1 =>
                  (ScaleBexQuantUnits T.QuantUnitToCoeffIndex ch1.Spectra sc A tot).map
                    fun spectra => { ch1 with Spectra := spectra }) ∧
      (lowChannel.QuantizationUnitCount = 13 ∧ lowChannel.BexMode = 1 ∧
        loadAt demoTables.BexGroupInfo (lowChannel.QuantizationUnitCount - 13)
          = some ⟨0, 16, 21⟩ ∧
        max (21 : Int) 22 - lowChannel.QuantizationUnitCount = 9 ∧
        mode1Scales demoTables lowChannel.ScaleFactors 13 19 (List.replicate 6 none) =
          some [some 2, some 2, some 2, some 2, some 2, some 2] ∧
        storeAt [some (2 : ℚ), some 2, some 2, some 2, some 2, some 2] (19 - 13) (some 2)
          = none ∧
        mode1Scales demoTables lowChannel.ScaleFactors 13 22 (List.replicate 6 none) = none ∧
        ApplyBandExtensionChannel demoTables (fun _ y => y) lowChannel = none) := by
  obtain ⟨hn1, hn6⟩ := hn
  refine ⟨?_, ?_, ⟨rfl, rfl, rfl, by decide, rfl, rfl, rfl, rfl⟩⟩
  · intro sfv lin hsf hlin
    obtain ⟨sc, hsc, psc⟩ := mode1Scales_spec T channel.ScaleFactors A tot sfv lin (by omega)
      hn6 hsf hlin
    have hlen : sc.length = 6 := by
      have := forLoop_frame (fun st : List (Option F) => st.length = 6)
        (fun i sc =>
          (loadAt channel.ScaleFactors i).bind fun sf =>
            (loadAt T.SpectrumScale sf).bind fun v => storeAt sc (i - A) (some v))
        A tot (List.replicate 6 none) sc
        (by
          intro j st st' _ _ hb hst
          cases h1 : loadAt channel.ScaleFactors j with
          | none => simp [h1] at hb
          | some sf =>
            cases h2 : loadAt T.SpectrumScale sf with
            | none => simp [h1, h2] at hb
            | some v =>
              simp only [h1, h2, Option.some_bind] at hb
              rw [length_storeAt hb, hst])
        hsc (by simp)
      exact this
    refine ⟨sc, hsc, hlen, ?_, ?_⟩
    · intro u hu0 hu1
      exact ⟨by omega, by omega, psc u hu0 hu1⟩
    · exact bexMode1_scales T channel _ sc A tot a d hsc
  · intro last hbc hn5 h3 h4 h5 hlast
    obtain ⟨sc0, hsc0, lsc0, psc0⟩ := mode0Scales_spec T channel.BexValues bandCount hbc h3 h4 h5
    have hsc1 := storeAt_of_bounds sc0 (tot - A - 1) (some last) (by omega) (by omega)
    refine ⟨sc0, _, hsc0, hsc1, by simp [lsc0], by omega, by omega, ?_, ?_⟩
    · intro u hu0 hu1
      refine ⟨by omega, by omega, ?_⟩
      rw [loadInit_storeAt hsc1]
      by_cases hu : u - A = tot - A - 1
      · rw [if_pos hu]
        exact ⟨last, rfl⟩
      · rw [if_neg hu]
        exact psc0 (u - A) (by omega) (by
          by_cases h5' : bandCount = 5
          · have := hn5 h5'
            rw [if_pos h5']; omega
          · rw [if_neg h5']; omega)
    · exact bexMode0_scales T channel _ sc0 _ bandCount A tot last hsc0 hlast hsc1

/-- C17 at `demoChannel 1` over `demoTables`: units 18..23, `n = 6`. -/
theorem scales_buffer_safety_witness :
    ((1 : Int) ≤ 24 - 18 ∧ (24 : Int) - 18 ≤ 6) ∧
    ∃ sc, mode1Scales demoTables (demoChannel 1).ScaleFactors 18 24 (List.replicate 6 none)
        = some sc ∧
      sc.length = 6 ∧
      (∀ u : Int, 18 ≤ u → u < 24 →
        0 ≤ u - 18 ∧ u - 18 ≤ 5 ∧ loadInit sc (u - 18) = some 2) :=
  ⟨by decide, by
    obtain ⟨sc, h1, h2, h3, _⟩ :=
      (scales_buffer_safety demoTables (demoChannel 1) 4 18 24 20 32 (by decide)).1
        (fun _ => 3) (fun _ => 2)
        (fun u h0 h1 => by interval_cases u <;> rfl) (fun _ _ _ => rfl)
    exact ⟨sc, h1, h2, h3⟩⟩

/-! ## The generator does not collapse -/

theorem testBit_high (x i : Nat) (hx : x < 65536) (hi : 16 ≤ i) : x.testBit i = false := by
  apply Nat.testBit_lt_two_pow
  calc x < 2 ^ 16 := by omega
    _ ≤ 2 ^ i := Nat.pow_le_pow_right (by decide) hi

theorem mod_65536_testBit (x i : Nat) :
    (x % 65536).testBit i = (decide (i < 16) && x.testBit i) := by
  have e : (65536 : Nat) = 2 ^ 16 := by decide
  rw [e, Nat.testBit_mod_two_pow]

theorem xorshift_right_inj (A s t : Nat) (hs : s < 65536) (ht : t < 65536)
    (h : (s ^^^ A ^^^ ((s ^^^ (A >>> 5)) >>> 4)) % 65536 =
      (t ^^^ A ^^^ ((t ^^^ (A >>> 5)) >>> 4)) % 65536) : s = t := by
  have bits : ∀ (k i : Nat), 16 ≤ i + k → s.testBit i = t.testBit i := by
    intro k
    induction k with
    | zero =>
      intro i hi
      rw [testBit_high s i hs (by omega), testBit_high t i ht (by omega)]
    | succ k ih =>
      intro i hi
      by_cases h16 : 16 ≤ i
      · rw [testBit_high s i hs h16, testBit_high t i ht h16]
      · have hup := ih (4 + i) (by omega)
        have key := congrArg (fun x => Nat.testBit x i) h
        simp only [mod_65536_testBit, Nat.testBit_xor, Nat.testBit_shiftRight] at key
        have hlt : decide (i < 16) = true := by simp; omega
        rw [hlt, hup] at key
        revert key
        cases s.testBit i <;> cases t.testBit i <;> cases A.testBit i <;>
          cases t.testBit (4 + i) <;> cases A.testBit (5 + (4 + i)) <;> simp
  exact Nat.eq_of_testBit_eq (fun i => bits 16 i (by omega))

theorem xorshift_left_inj (D E : Nat) (hD : D < 65536) (hE : E < 65536)
    (h : (D ^^^ (D <<< 5)) % 65536 = (E ^^^ (E <<< 5)) % 65536) : D = E := by
  have bits : ∀ (n i : Nat), i < n → D.testBit i = E.testBit i := by
    intro n
    induction n with
    | zero => intro i hi; omega
    | succ n ih =>
      intro i hi
      by_cases h16 : 16 ≤ i
      · rw [testBit_high D i hD h16, testBit_high E i hE h16]
      · have key := congrArg (fun x => Nat.testBit x i) h
        simp only [mod_65536_testBit, Nat.testBit_xor, Nat.testBit_shiftLeft] at key
        have hlt : decide (i < 16) = true := by simp; omega
        rw [hlt] at key
        by_cases h5 : 5 ≤ i
        · have hlow := ih (i - 5) (by omega)
          have hge : decide (i ≥ 5) = true := by simp; omega
          rw [hge, hlow] at key
          revert key
          cases D.testBit i <;> cases E.testBit i <;> cases E.testBit (i - 5) <;> simp
        · have hge : decide (i ≥ 5) = false := by simp; omega
          rw [hge] at key
          revert key
          cases D.testBit i <;> cases E.testBit i <;> simp
  exact Nat.eq_of_testBit_eq (fun i => bits (i + 1) i (by omega))

theorem rngNext_injective (r1 r2 : RngCxt)
    (h1 : r1.StateD < 65536) (h2 : r2.StateD < 65536)
    (h : (RngNext r1).2 = (RngNext r2).2) : r1 = r2 := by
  obtain ⟨i1, A1, B1, C1, D1⟩ := r1
  obtain ⟨i2, A2, B2, C2, D2⟩ := r2
  rw [rngNext_recurrence, rngNext_recurrence] at h
  simp only [RngCxt.mk.injEq] at h
  obtain ⟨hi, hA', hA, hB, hC⟩ := h
  subst hi hA hB hC
  have ht := xorshift_right_inj A1 _ _ (Nat.mod_lt _ (by decide)) (Nat.mod_lt _ (by decide)) hA'
  have hD := xorshift_left_inj D1 D2 h1 h2 ht
  subst hD
  rfl

theorem rngNext_zero (f : Bool) : RngNext ⟨f, 0, 0, 0, 0⟩ = (0, ⟨f, 0, 0, 0, 0⟩) := by
  cases f <;> decide

theorem rngNext_zero_only (st : RngCxt) (hD : st.StateD < 65536)
    (h : (RngNext st).2.StateA = 0 ∧ (RngNext st).2.StateB = 0 ∧
      (RngNext st).2.StateC = 0 ∧ (RngNext st).2.StateD = 0) :
    st.StateA = 0 ∧ st.StateB = 0 ∧ st.StateC = 0 ∧ st.StateD = 0 := by
  have hz : (RngNext st).2 = (RngNext ⟨st.Initialized, 0, 0, 0, 0⟩).2 := by
    rw [rngNext_zero]
    obtain ⟨hA, hB, hC, hD'⟩ := h
    have hi := rngNext_initialized st
    cases hn : (RngNext st).2 with
    | mk i A B C D =>
      rw [hn] at hA hB hC hD' hi
      simp only at hA hB hC hD' hi
      subst hA hB hC hD' hi
      rfl
  have := rngNext_injective st ⟨st.Initialized, 0, 0, 0, 0⟩ hD (by show (0 : Nat) < 65536; decide) hz
  rw [this]
  exact ⟨rfl, rfl, rfl, rfl⟩

theorem rngNext_bounded (st : RngCxt)
    (h : st.StateA < 65536 ∧ st.StateB < 65536 ∧ st.StateC < 65536 ∧ st.StateD < 65536) :
    (RngNext st).2.StateA < 65536 ∧ (RngNext st).2.StateB < 65536 ∧
      (RngNext st).2.StateC < 65536 ∧ (RngNext st).2.StateD < 65536 := by
  obtain ⟨i, A, B, C, D⟩ := st
  rw [rngNext_recurrence]
  exact ⟨Nat.mod_lt _ (by decide), h.1, h.2.1, h.2.2.1⟩

theorem rngInit_bounded (rng : RngCxt) (seed : Nat) :
    (RngInit rng seed).StateA < 65536 ∧ (RngInit rng seed).StateB < 65536 ∧
      (RngInit rng seed).StateC < 65536 ∧ (RngInit rng seed).StateD < 65536 := by
  rw [rngInit_eq]
  refine ⟨?_, ?_, ?_, ?_⟩ <;> simp only <;> omega

theorem rngAfter_bounded (st : RngCxt)
    (h : st.StateA < 65536 ∧ st.StateB < 65536 ∧ st.StateC < 65536 ∧ st.StateD < 65536)
    (n : Nat) :
    (rngAfter st n).StateA < 65536 ∧ (rngAfter st n).StateB < 65536 ∧
      (rngAfter st n).StateC < 65536 ∧ (rngAfter st n).StateD < 65536 := by
  induction n with
  | zero => exact h
  | succ n ih => exact rngNext_bounded _ ih

theorem rngInit_A_ne_D (rng : RngCxt) (seed : Nat) :
    (RngInit rng seed).StateA ≠ (RngInit rng seed).StateD := by
  rw [rngInit_eq]
  simp only
  omega

/-- C19. The generator never collapses: for every seed and every `n`, the
registers reached by `RngInit(seed)` followed by `n` calls of `RngNext` are not
`(0, 0, 0, 0)`.  The all-zero registers are a fixed point of `RngNext` that
returns 0 (a noise value of -1); `RngNext` is injective on 16-bit register
states; and `RngInit` always gives `A ≠ D`. -/
theorem generator_never_collapses (rng : RngCxt) (seed n : Nat) :
    ¬ ((rngAfter (RngInit rng seed) n).StateA = 0 ∧ (rngAfter (RngInit rng seed) n).StateB = 0 ∧
        (rngAfter (RngInit rng seed) n).StateC = 0 ∧
        (rngAfter (RngInit rng seed) n).StateD = 0) ∧
      (∀ f : Bool, RngNext ⟨f, 0, 0, 0, 0⟩ = (0, ⟨f, 0, 0, 0, 0⟩)) ∧
      noiseSample (F := ℚ) 0 = -1 ∧
      (∀ r1 r2 : RngCxt,
        r1.StateA < 65536 ∧ r1.StateB < 65536 ∧ r1.StateC < 65536 ∧ r1.StateD < 65536 →
        r2.StateA < 65536 ∧ r2.StateB < 65536 ∧ r2.StateC < 65536 ∧ r2.StateD < 65536 →
        (RngNext r1).2 = (RngNext r2).2 → r1 = r2) ∧
      (RngInit rng seed).StateA ≠ (RngInit rng seed).StateD := by
  refine ⟨?_, rngNext_zero, ?_, ?_, rngInit_A_ne_D rng seed⟩
  · induction n with
    | zero =>
      intro h
      exact rngInit_A_ne_D rng seed (h.1.trans h.2.2.2.symm)
    | succ n ih =>
      intro h
      exact ih (rngNext_zero_only _ (rngAfter_bounded _ (rngInit_bounded rng seed) n).2.2.2 h)
  · rw [noiseSample_rat]
    norm_num
  · intro r1 r2 h1 h2 h
    exact rngNext_injective r1 r2 h1.2.2.2 h2.2.2.2 h

end BandExtension
